import Mathlib

/-!
# Smart Parking System: allocation, billing and persistence engine

A shallow embedding of the two variants of the program
(`C_Version/main.c` and `CPP_Version/main.cpp`) and the properties of
their specification.

Conventions of the embedding:

* `long`, `int` and `time_t` values are mathematical integers (`Int`);
  C division `/` is `Int.tdiv` (truncation toward zero). The one `long`
  addition that leaves the range of the type on a value of the type,
  `durationMinutes + 59` in the two fee functions, is reduced to the 64-bit
  range (`wrapLong`).
* Fees are `double` in the source. Every rate is a whole number and the
  only operations are `+` and `*` on whole numbers, so a fee is embedded
  as the `Int` it holds. The conversion of the hour count to `double`, the
  product and the sum of the fee functions round to the 53-bit significand
  (`toDouble`); up to `2^53` nothing is rounded.
* The elapsed time `difftime(now, entry)` is a `double` in the source and
  the exact difference here; the two agree for times and differences up
  to `2^53` in absolute value (`ExactTime`).
* Text (C strings, `std::string`, file contents) is `List Char`, one
  `Char` per byte of the source string.
* The global grid (`parkingLot` / `lot`) is passed explicitly as a value of
  type `Fin FLOORS → Fin SPOTS_PER_FLOOR → ParkingSpot`.
* Interactive input is a parameter of each operation: the values the
  prompts yield (`scanf`/`read_line`, `ask_int`/`ask_str`) and the clock
  value returned by `time`.
* The data directory is part of the state. Opening a file for writing can
  fail (`Files.writable`); memory allocation (`malloc`, `make_unique`) is
  taken to succeed.
* The reports take the C library function `localtime` as a parameter
  (`Localtime`), since it depends on the time zone of the environment;
  `utcTime` is the instance for UTC.
* Revenue amounts are `double` in the source and rationals here; they are
  sums of whole fees.
* An access to the C++ grid outside its bounds, which the source performs
  unchecked, is a result of its own (`LoadResult.outOfRange`).
-/

namespace SmartParking

/-- Number of floors (`FLOORS`). -/
abbrev FLOORS : Nat := 5

/-- Number of spots on a floor (`SPOTS_PER_FLOOR`). -/
abbrev SPOTS_PER_FLOOR : Nat := 20

/-- Size of the license buffer (`LICENSE_MAX`). -/
abbrev LICENSE_MAX : Nat := 32

/-- Size of the owner buffer (`OWNER_MAX`). -/
abbrev OWNER_MAX : Nat := 64

/-- Text: a C string or `std::string`, one `Char` per byte. -/
abbrev Text := List Char

/-! ## Files

The two programs keep a state snapshot and a transaction log in a data
directory. A file is absent (`none`) or has a content. Whether a file of the
directory can be opened for writing is a property of the environment
(`writable`); opening for reading succeeds exactly when the file exists. -/

/-- The two files of the data directory. -/
inductive Path where
  | parkingState
  | transactions
  deriving DecidableEq, Repr

/-- The data directory. -/
structure Files where
  parkingState : Option Text
  transactions : Option Text
  writable : Bool
  deriving DecidableEq, Repr

/-- Content of a file, `none` when it does not exist. -/
def Files.read (fs : Files) : Path → Option Text
  | .parkingState => fs.parkingState
  | .transactions => fs.transactions

/-- Replace (or create) the content of a file. -/
def Files.write (fs : Files) (p : Path) (content : Text) : Files :=
  match p with
  | .parkingState => { fs with parkingState := some content }
  | .transactions => { fs with transactions := some content }

/-- Opening for reading (`fopen(path, "r")`, `ifstream`): the content, or
`none` when the file does not exist. -/
def fopen_r (fs : Files) (p : Path) : Option Text := fs.read p

/-- Opening for writing (`fopen(path, "w")`, `ofstream(path)`): the file is
created or truncated; `none` when it cannot be opened. -/
def fopen_w (fs : Files) (p : Path) : Option Files :=
  if fs.writable then some (fs.write p []) else none

/-- Opening for appending (`fopen(path, "a")`, `ofstream(path, ios::app)`):
the file is created empty when it does not exist and is otherwise left as
it is; `none` when it cannot be opened. -/
def fopen_a (fs : Files) (p : Path) : Option Files :=
  if fs.writable then some (fs.write p ((fs.read p).getD [])) else none

/-- Output to a stream opened by `fopen_w` or `fopen_a` (`fprintf`, `<<`):
the text goes to the end of the file. -/
def fprintf (fs : Files) (p : Path) (text : Text) : Files :=
  fs.write p ((fs.read p).getD [] ++ text)

/-! ## Machine arithmetic

`long` is the 64-bit integer of the platforms the programs are built for,
`double` the IEEE 754 binary64 format with rounding to nearest, ties to
even. -/

/-- Least value of `long` (`LONG_MIN`). -/
abbrev LONG_MIN : Int := -2 ^ 63

/-- Greatest value of `long` (`LONG_MAX`). -/
abbrev LONG_MAX : Int := 2 ^ 63 - 1

/-- Result of an operation on `long` whose exact value is `x`: the value of
the 64-bit range congruent to `x` modulo `2^64`. -/
def wrapLong (x : Int) : Int := (x + 2 ^ 63) % 2 ^ 64 - 2 ^ 63

/-- The `double` nearest to a natural number (ties to even): numbers up to
`2^53` are representable; a greater number keeps its 53 leading bits, the
remainder `r` below them deciding between the two neighbours. -/
def roundNat (n : Nat) : Nat :=
  if n ≤ 2 ^ 53 then n
  else
    let e := Nat.log2 n - 52
    let q := n / 2 ^ e
    let r := n % 2 ^ e
    if 2 * r < 2 ^ e ∨ (2 * r = 2 ^ e ∧ q % 2 = 0) then q * 2 ^ e else (q + 1) * 2 ^ e

/-- The `double` nearest to an integer: the conversion of a `long` to
`double`, and the rounding of a `double` sum or product of whole numbers.
Each operation of the source rounds on its own. (A compiler that fuses a
product and a sum rounds once; the result is the same whenever the exact
value is a `double`, as it is for every whole number up to `2^53`.) -/
def toDouble (x : Int) : Int :=
  if x < 0 then -(roundNat x.natAbs : Int) else (roundNat x.toNat : Int)

/-! ## Formatting and parsing of numbers -/

/-- Conversion `%d` / `%ld` of `printf` and `<<` on an integer: decimal digits,
with a leading `-` for a negative value. -/
def printInt (i : Int) : Text :=
  if i < 0 then '-' :: Nat.toDigits 10 i.natAbs else Nat.toDigits 10 i.toNat

/-- Conversion `%.2f` (and `fixed << setprecision(2)`) of a fee. Fees are whole
numbers in this embedding, so the two decimals are `00`. -/
def printFee (fee : Int) : Text := printInt fee ++ ['.', '0', '0']

/-- C library `isspace` in the "C" locale. -/
def isspace (c : Char) : Bool :=
  c = ' ' || c = '\t' || c = '\n' || c = '\x0b' || c = '\x0c' || c = '\r'

/-- The digit loop of `atoi` / `atol`: accumulate decimal digits until the
first character that is not a digit. -/
def digitsVal : Nat → Text → Nat
  | acc, [] => acc
  | acc, c :: cs => if c.isDigit then digitsVal (acc * 10 + (c.toNat - 48)) cs else acc

/-- C library `atol` (and `atoi`): skip white space, read an optional sign,
then the digits; 0 when there is no digit. -/
def atol (s : Text) : Int :=
  match s.dropWhile isspace with
  | '-' :: t => -((digitsVal 0 t : Nat) : Int)
  | '+' :: t => ((digitsVal 0 t : Nat) : Int)
  | t => ((digitsVal 0 t : Nat) : Int)

/-- C library `atoi`; `int` and `long` are both `Int` here. -/
def atoi (s : Text) : Int := atol s

/-! ## C library text input -/

/-- The reading loop of `fgets`: at most `k` characters, stopping after a
newline. Returns the characters read and the rest of the stream. -/
def fgetsAux : Nat → Text → Text × Text
  | 0, s => ([], s)
  | _ + 1, [] => ([], [])
  | k + 1, c :: cs =>
    if c = '\n' then ([c], cs)
    else ((fgetsAux k cs).1.cons c, (fgetsAux k cs).2)

/-- C library `fgets(line, size, fp)`: `none` at end of file, else the line
read (at most `size - 1` characters) and the rest of the stream. -/
def fgets (size : Nat) (stream : Text) : Option (Text × Text) :=
  match stream with
  | [] => none
  | _ :: _ => some (fgetsAux (size - 1) stream)

/-- C library `strtok`: skip the leading delimiters; `none` when nothing is
left, else the token up to the next delimiter and the text after that
delimiter, where the following `strtok(NULL, ...)` call resumes. -/
def strtok (delim : List Char) (s : Text) : Option (Text × Text) :=
  match s.dropWhile (fun c => decide (c ∈ delim)) with
  | [] => none
  | c :: cs =>
    some ((c :: cs).takeWhile (fun c => !decide (c ∈ delim)),
          ((c :: cs).dropWhile (fun c => !decide (c ∈ delim))).drop 1)

/-- C library `strncpy(dst, src, n)` into a zero-filled or subsequently
terminated buffer: the first `n` characters of `src`. -/
def strncpy (src : Text) (n : Nat) : Text := src.take n

/-- The lexicographic order on spots: floor first, then position. -/
def spotLt (a b : Fin FLOORS × Fin SPOTS_PER_FLOOR) : Prop :=
  a.1 < b.1 ∨ (a.1 = b.1 ∧ a.2 < b.2)

/-- Conversion of an `int` to a grid index: `some` exactly when
`0 <= i && i < n`. -/
def toIndex (n : Nat) (i : Int) : Option (Fin n) :=
  if h : 0 ≤ i ∧ i < (n : Int) then some ⟨i.toNat, by omega⟩ else none

/-- Header line of the state snapshot. -/
def STATE_HEADER : Text := "floor,spot,license,owner,type,entryTime\n".toList

/-- Header line of the transaction log. -/
def TXN_HEADER : Text := "license,type,entryTime,exitTime,durationMin,fee\n".toList

/-- One row of the transaction log, as both variants format it:
`license,type,entryTime,exitTime,durationMin,fee` with the fee to two
decimals. -/
def txn_row (license : Text) (type entry exitT durationMin fee : Int) : Text :=
  license ++ [','] ++ printInt type ++ [','] ++ printInt entry ++ [',']
    ++ printInt exitT ++ [','] ++ printInt durationMin ++ [','] ++ printFee fee ++ ['\n']

/-! ## Local time -/

/-- The fields of `struct tm` that the reports read. -/
structure Tm where
  tm_year : Int
  tm_mon : Int
  tm_mday : Int
  tm_hour : Int
  deriving DecidableEq, Repr

/-- The C library function `localtime`, as far as the reports use it. It
depends on the time zone of the environment, so the reports take it as a
parameter. -/
abbrev Localtime := Int → Tm

/-- A sample `localtime`, for the time zone UTC: the proleptic Gregorian date
and the hour of an epoch time. -/
def utcTime : Localtime := fun t =>
  let days := t / 86400
  let z := days + 719468
  let era := z / 146097
  let doe := z - era * 146097
  let yoe := (doe - doe / 1460 + doe / 36524 - doe / 146096) / 365
  let doy := doe - (365 * yoe + yoe / 4 - yoe / 100)
  let mp := (5 * doy + 2) / 153
  let d := doy - (153 * mp + 2) / 5 + 1
  let m := if mp < 10 then mp + 3 else mp - 9
  let y := yoe + era * 400 + (if m ≤ 2 then 1 else 0)
  { tm_year := y - 1900, tm_mon := m - 1, tm_mday := d, tm_hour := (t % 86400) / 3600 }

/-! ## C variant -/

namespace CVersion

/-- The C enum `VehicleType`. Its values are ints: `load_parking_state`
casts an arbitrary `atoi` result to it, so the embedding keeps the int. -/
abbrev VehicleType := Int

/-- Enumerator `VEHICLE_BIKE = 0`. -/
abbrev VEHICLE_BIKE : VehicleType := 0

/-- Enumerator `VEHICLE_CAR = 1`. -/
abbrev VEHICLE_CAR : VehicleType := 1

/-- Enumerator `VEHICLE_TRUCK = 2`. -/
abbrev VEHICLE_TRUCK : VehicleType := 2

/-- The rate pair `(firstHour, addHour)` selected by the `switch` of
`calculate_fee`, default branch included. -/
def rates (type : VehicleType) : Int × Int :=
  if type = VEHICLE_BIKE then (20, 10)
  else if type = VEHICLE_CAR then (40, 20)
  else if type = VEHICLE_TRUCK then (60, 30)
  else (40, 20)

/-- Function `calculate_fee(type, durationMinutes)` of `main.c`. The hour
count is a `long`: the sum `durationMinutes + 59` wraps around, and
`hours - 1` cannot since `hours` is at least 1. The rates are `double`, so
`hours - 1` is converted to `double` and the product and the sum are
rounded. -/
def calculate_fee (type : VehicleType) (durationMinutes : Int) : Int :=
  let hours0 := Int.tdiv (wrapLong (durationMinutes + 59)) 60
  let hours := if hours0 < 1 then 1 else hours0
  let firstHour := (rates type).1
  let addHour := (rates type).2
  if hours = 1 then firstHour
  else toDouble (firstHour + toDouble (toDouble (hours - 1) * addHour))

/-- The C struct `Vehicle`. -/
structure Vehicle where
  license : Text
  owner : Text
  entryTime : Int
  type : VehicleType
  floor : Int
  spot : Int
  deriving DecidableEq, Repr

/-- The C struct `ParkingSpot`: the `occupied` flag (0 or 1) and the pointer
to the vehicle record (`none` for `NULL`). -/
structure ParkingSpot where
  occupied : Bool
  vehicle : Option Vehicle
  deriving DecidableEq, Repr

/-- The global array `parkingLot[FLOORS][SPOTS_PER_FLOOR]`. -/
abbrev ParkingLot := Fin FLOORS → Fin SPOTS_PER_FLOOR → ParkingSpot

/-- Assignment to `parkingLot[f][s]`. -/
def setSpot (lot : ParkingLot) (f : Fin FLOORS) (s : Fin SPOTS_PER_FLOOR)
    (sp : ParkingSpot) : ParkingLot :=
  fun f' s' => if f' = f ∧ s' = s then sp else lot f' s'

/-- The state of the C program: the grid and the data directory. -/
structure State where
  parkingLot : ParkingLot
  files : Files

/-- Function `parse_vehicle_type(choice, out)`: `none` for return value 0. -/
def parse_vehicle_type (choice : Int) : Option VehicleType :=
  if choice = 1 then some VEHICLE_BIKE
  else if choice = 2 then some VEHICLE_CAR
  else if choice = 3 then some VEHICLE_TRUCK
  else none

/-- Function `init_parking`: every spot free, no vehicle. -/
def init_parking : ParkingLot := fun _ _ => ⟨false, none⟩

/-- The line `fprintf(fp, "%d,%d,%s,%s,%d,%ld\n", ...)` of
`save_parking_state`. -/
def state_row (v : Vehicle) : Text :=
  printInt v.floor ++ [','] ++ printInt v.spot ++ [','] ++ v.license ++ [',']
    ++ v.owner ++ [','] ++ printInt v.type ++ [','] ++ printInt v.entryTime ++ ['\n']

/-- The rows `save_parking_state` writes: the two nested loops over the
grid, one row per spot that is occupied and has a vehicle. -/
def save_rows (lot : ParkingLot) : Text :=
  (List.finRange FLOORS).flatMap fun f =>
    (List.finRange SPOTS_PER_FLOOR).flatMap fun s =>
      match (lot f s).occupied, (lot f s).vehicle with
      | true, some v => state_row v
      | _, _ => []

/-- Function `save_parking_state`: returns 0 (`false`) when the file cannot
be opened, else rewrites the snapshot and returns 1. -/
def save_parking_state (st : State) : Bool × State :=
  match fopen_w st.files .parkingState with
  | none => (false, st)
  | some fs =>
    (true, { st with files := fprintf fs .parkingState (STATE_HEADER ++ save_rows st.parkingLot) })

/-- The trimming loops of `load_parking_state`:
`for (i = 0; i < strlen(t); ++i) if (t[i] == '\n' || t[i] == '\r') t[i] = '\0';`.
The first CR or LF becomes the terminator, and `strlen` then ends the loop. -/
def cutAtEol (t : Text) : Text :=
  t.takeWhile fun c => !(c = '\n' || c = '\r')

/-- The tokenising part of the loop body of `load_parking_state`: the six
fields of a line, `none` where the body does `continue`. -/
def parse_row (line : Text) : Option (Int × Int × Text × Text × Int × Int) :=
  match strtok [','] line with
  | none => none
  | some (tok1, r1) =>
    match strtok [','] r1 with
    | none => none
    | some (tok2, r2) =>
      match strtok [','] r2 with
      | none => none
      | some (tok3, r3) =>
        match strtok [','] r3 with
        | none => none
        | some (tok4, r4) =>
          match strtok [','] r4 with
          | none => none
          | some (tok5, r5) =>
            match strtok [',', '\r', '\n'] r5 with
            | none => none
            | some (tok6, _) =>
              some (atoi tok1, atoi tok2,
                cutAtEol (strncpy tok3 (LICENSE_MAX - 1)),
                cutAtEol (strncpy tok4 (OWNER_MAX - 1)),
                atoi tok5, atol tok6)

/-- The loop body of `load_parking_state` on one line (the record allocation
is taken to succeed). -/
def load_row (lot : ParkingLot) (line : Text) : ParkingLot :=
  match parse_row line with
  | none => lot
  | some (f, s, license, owner, typeInt, entry) =>
    match toIndex FLOORS f, toIndex SPOTS_PER_FLOOR s with
    | some fi, some si =>
      setSpot lot fi si
        ⟨true, some
          { license := strncpy license (LICENSE_MAX - 1)
            owner := strncpy owner (OWNER_MAX - 1)
            entryTime := entry
            type := typeInt
            floor := f
            spot := s }⟩
    | _, _ => lot

/-- The loop `while (fgets(line, sizeof(line), fp))` of
`load_parking_state`. Every `fgets` that succeeds consumes a character, so
`fuel = stream.length` iterations always reach the end of the file. -/
def load_loop : Nat → Text → ParkingLot → ParkingLot
  | 0, _, lot => lot
  | fuel + 1, stream, lot =>
    match fgets 512 stream with
    | none => lot
    | some (line, rest) => load_loop fuel rest (load_row lot line)

/-- Function `load_parking_state`: a missing file is an empty lot; the first
line (header) is skipped. -/
def load_parking_state (st : State) : State :=
  match fopen_r st.files .parkingState with
  | none => st
  | some content =>
    match fgets 512 content with
    | none => st
    | some (_, rest) => { st with parkingLot := load_loop rest.length rest st.parkingLot }

/-- Function `append_transaction`: returns 0 (`false`) when the log cannot be
opened. -/
def append_transaction (fs : Files) (license : Text) (type : VehicleType)
    (entry exitT durationMin fee : Int) : Bool × Files :=
  match fopen_a fs .transactions with
  | some fs1 =>
    (true, fprintf fs1 .transactions (txn_row license type entry exitT durationMin fee))
  | none =>
    match fopen_w fs .transactions with
    | none => (false, fs)
    | some fs1 =>
      let fs2 := fprintf fs1 .transactions TXN_HEADER
      match fopen_a fs2 .transactions with
      | none => (false, fs2)
      | some fs3 =>
        (true, fprintf fs3 .transactions (txn_row license type entry exitT durationMin fee))

/-- Function `find_vehicle(license, outFloor, outSpot)`: the first spot in
scan order that is occupied, has a vehicle and whose license equals
`license` (`strcmp(...) == 0`); `none` for return value 0. -/
def find_vehicle (lot : ParkingLot) (license : Text) :
    Option (Fin FLOORS × Fin SPOTS_PER_FLOOR) :=
  (List.finRange FLOORS).findSome? fun f =>
    (List.finRange SPOTS_PER_FLOOR).findSome? fun s =>
      match (lot f s).occupied, (lot f s).vehicle with
      | true, some v => if v.license = license then some (f, s) else none
      | _, _ => none

/-- Function `find_nearest_spot(outFloor, outSpot)`: the first spot in scan
order whose `occupied` flag is 0; `none` for return value 0. -/
def find_nearest_spot (lot : ParkingLot) : Option (Fin FLOORS × Fin SPOTS_PER_FLOOR) :=
  (List.finRange FLOORS).findSome? fun f =>
    (List.finRange SPOTS_PER_FLOOR).findSome? fun s =>
      if (lot f s).occupied then none else some (f, s)

/-- What `park_vehicle` reads: the result of `scanf("%d", &typeChoice)`
(`none` when no integer could be read) and the `license` and `owner`
buffers as `read_line` leaves them. -/
structure EntryInput where
  typeChoice : Option Int
  license : Text
  owner : Text
  deriving DecidableEq, Repr

/-- The outcome of `park_vehicle`: the message printed. Only `assigned`
goes with return value 1. -/
inductive EntryResult where
  | invalidInput
  | invalidType
  | emptyLicense
  | alreadyParked (f : Fin FLOORS) (s : Fin SPOTS_PER_FLOOR)
  | emptyOwner
  | parkingFull
  | assigned (f : Fin FLOORS) (s : Fin SPOTS_PER_FLOOR) (entryTime : Int)
  deriving DecidableEq, Repr

/-- Function `park_vehicle`, with `now` the value of `time(NULL)`. The
record allocation (`malloc`) is taken to succeed. -/
def park_vehicle (st : State) (inp : EntryInput) (now : Int) : EntryResult × State :=
  match inp.typeChoice with
  | none => (.invalidInput, st)
  | some typeChoice =>
    match parse_vehicle_type typeChoice with
    | none => (.invalidType, st)
    | some type =>
      if inp.license = [] then (.emptyLicense, st)
      else
        match find_vehicle st.parkingLot inp.license with
        | some (ef, es) => (.alreadyParked ef es, st)
        | none =>
          if inp.owner = [] then (.emptyOwner, st)
          else
            match find_nearest_spot st.parkingLot with
            | none => (.parkingFull, st)
            | some (f, s) =>
              let v : Vehicle :=
                { license := strncpy inp.license (LICENSE_MAX - 1)
                  owner := strncpy inp.owner (OWNER_MAX - 1)
                  type := type
                  entryTime := now
                  floor := (f.val : Int)
                  spot := (s.val : Int) }
              let st1 : State := { st with parkingLot := setSpot st.parkingLot f s ⟨true, some v⟩ }
              (.assigned f s v.entryTime, (save_parking_state st1).2)

/-- The duration computed by `exit_vehicle`:
`long durationMin = (long) difftime(now, v->entryTime) / 60;`
`if (durationMin <= 0) durationMin = 1;`. -/
def durationMin (now entryTime : Int) : Int :=
  let durationMin0 := Int.tdiv (now - entryTime) 60
  if durationMin0 ≤ 0 then 1 else durationMin0

/-- The outcome of `exit_vehicle`: a message, or the receipt (license, type,
entry, exit, duration in minutes, fee). -/
inductive ExitResult where
  | emptyLicense
  | notFound
  | receipt (license : Text) (type : VehicleType) (entry exitT durationMin fee : Int)
  deriving DecidableEq, Repr

/-- Function `exit_vehicle`, with `license` the buffer read by `read_line`
and `now` the value of `time(NULL)`. -/
def exit_vehicle (st : State) (license : Text) (now : Int) : ExitResult × State :=
  if license = [] then (.emptyLicense, st)
  else
    match find_vehicle st.parkingLot license with
    | none => (.notFound, st)
    | some (f, s) =>
      match (st.parkingLot f s).vehicle with
      | none => (.notFound, st) -- not reached: `find_vehicle` returns spots with a vehicle
      | some v =>
        let durationMin := CVersion.durationMin now v.entryTime
        let fee := calculate_fee v.type durationMin
        let fs1 := (append_transaction st.files v.license v.type v.entryTime now durationMin fee).2
        let st1 : State :=
          { parkingLot := setSpot st.parkingLot f s ⟨false, none⟩, files := fs1 }
        (.receipt v.license v.type v.entryTime now durationMin fee, (save_parking_state st1).2)

/-- A tuple `(floor, position, license, owner, category, entryTime)`: what the
snapshot records of an occupied spot. -/
structure Tuple where
  floor : Nat
  position : Nat
  license : Text
  owner : Text
  category : Int
  entryTime : Int
  deriving DecidableEq, Repr

/-- The tuples of a grid, in scan order: one per spot that is occupied and has
a vehicle. -/
def tuples (lot : ParkingLot) : List Tuple :=
  (List.finRange FLOORS).flatMap fun f =>
    (List.finRange SPOTS_PER_FLOOR).flatMap fun s =>
      match (lot f s).occupied, (lot f s).vehicle with
      | true, some v => [⟨f.val, s.val, v.license, v.owner, v.type, v.entryTime⟩]
      | _, _ => []

/-- The array `int counts[24]` of `report_peak_entry_hour`. The entries start
at 0 and are only incremented, so they are natural numbers. -/
abbrev Histogram := Fin 24 → Nat

/-- The statement `if (hour >= 0 && hour < 24) counts[hour]++;`. -/
def bump (counts : Histogram) (hour : Int) : Histogram :=
  match toIndex 24 hour with
  | some h => fun i => if i = h then counts i + 1 else counts i
  | none => counts

/-- The loop body of `report_peak_entry_hour` on one line of the log: the
third token is the entry time; the body does `continue` when a token is
missing. -/
def peak_row (localtime : Localtime) (counts : Histogram) (line : Text) : Histogram :=
  match strtok [','] line with
  | none => counts
  | some (_, r1) =>
    match strtok [','] r1 with
    | none => counts
    | some (_, r2) =>
      match strtok [','] r2 with
      | none => counts
      | some (tok3, _) => bump counts (localtime (atol tok3)).tm_hour

/-- The loop `while (fgets(line, sizeof(line), fp))` of
`report_peak_entry_hour`. Every `fgets` that succeeds consumes a character,
so `fuel = stream.length` iterations always reach the end of the file. -/
def peak_loop (localtime : Localtime) : Nat → Text → Histogram → Histogram
  | 0, _, counts => counts
  | fuel + 1, stream, counts =>
    match fgets 512 stream with
    | none => counts
    | some (line, rest) => peak_loop localtime fuel rest (peak_row localtime counts line)

/-- The first part of `report_peak_entry_hour`: the histogram of the entry
hours in the log, whose first line is skipped; all zero without a log. -/
def peak_log (localtime : Localtime) (fs : Files) : Histogram :=
  match fopen_r fs .transactions with
  | none => fun _ => 0
  | some content =>
    match fgets 512 content with
    | none => fun _ => 0
    | some (_, rest) => peak_loop localtime rest.length rest (fun _ => 0)

/-- The second part of `report_peak_entry_hour`: the two nested loops that add
the entry hours of the vehicles now parked. -/
def peak_grid (localtime : Localtime) (lot : ParkingLot) (counts : Histogram) : Histogram :=
  (List.finRange FLOORS).foldl
    (fun c f =>
      (List.finRange SPOTS_PER_FLOOR).foldl
        (fun c s =>
          match (lot f s).occupied, (lot f s).vehicle with
          | true, some v => bump c (localtime v.entryTime).tm_hour
          | _, _ => c)
        c)
    counts

/-- The selection loop of `report_peak_entry_hour`:
`int maxHour = 0, maxCount = counts[0];`
`for (int h = 1; h < 24; ++h) if (counts[h] > maxCount) { maxCount = counts[h]; maxHour = h; }`.
The result is the pair `(maxHour, maxCount)`. -/
def peak_scan (counts : Histogram) : Fin 24 × Nat :=
  (List.finRange 24).tail.foldl
    (fun m h => if counts h > m.2 then (h, counts h) else m)
    (0, counts 0)

/-- What `report_peak_entry_hour` prints: "No data available yet." or the
busiest hour with its count. -/
inductive PeakReport where
  | noData
  | busiest (maxHour : Fin 24) (maxCount : Nat)
  deriving DecidableEq, Repr

/-- The last part of `report_peak_entry_hour`: the selection loop and the
test `if (maxCount == 0)`. -/
def peak_select (counts : Histogram) : PeakReport :=
  if (peak_scan counts).2 = 0 then .noData
  else .busiest (peak_scan counts).1 (peak_scan counts).2

/-- Function `report_peak_entry_hour`. -/
def report_peak_entry_hour (st : State) (localtime : Localtime) : PeakReport :=
  peak_select (peak_grid localtime st.parkingLot (peak_log localtime st.files))

/-- What `report_occupancy` prints: per floor the number of occupied spots and
the rate in percent, then the overall number and rate. -/
structure OccupancyReport where
  floors : List (Nat × ℚ)
  totalOcc : Nat
  overall : ℚ
  deriving DecidableEq, Repr

/-- The inner loop of `report_occupancy`: the number of spots of floor `f`
whose `occupied` flag is set. -/
def floor_occupied (lot : ParkingLot) (f : Fin FLOORS) : Nat :=
  (List.finRange SPOTS_PER_FLOOR).countP fun s => (lot f s).occupied

/-- Function `report_occupancy`. The rates `100.0 * occ / SPOTS_PER_FLOOR` and
`100.0 * totalOcc / (FLOORS * SPOTS_PER_FLOOR)` are exact rationals. -/
def report_occupancy (lot : ParkingLot) : OccupancyReport :=
  let occs := (List.finRange FLOORS).map (floor_occupied lot)
  { floors := occs.map fun occ => (occ, (100 * (occ : ℚ)) / SPOTS_PER_FLOOR)
    totalOcc := occs.sum
    overall := (100 * (occs.sum : ℚ)) / (FLOORS * SPOTS_PER_FLOOR) }

end CVersion

/-! ## C++ library text input -/

/-- The extraction loop of `std::getline(is, str, delim)`: the characters up
to the delimiter, which is extracted and dropped, and the rest of the
stream. -/
def getlineAux (delim : Char) : Text → Text × Text
  | [] => ([], [])
  | c :: cs =>
    if c = delim then ([], cs)
    else ((getlineAux delim cs).1.cons c, (getlineAux delim cs).2)

/-- The call `std::getline(is, str, delim)` as a loop condition: `none` when
the stream is at its end (nothing is extracted, the stream fails), else the
line and the rest of the stream. -/
def getline (delim : Char) (stream : Text) : Option (Text × Text) :=
  match stream with
  | [] => none
  | _ :: _ => some (getlineAux delim stream)

/-- The loop `while (getline(ss, fld, ',')) cols.push_back(fld);`. Every
`getline` that succeeds consumes a character, so `fuel = line.length`
iterations always reach the end of the line. -/
def splitCols : Nat → Text → List Text
  | 0, _ => []
  | fuel + 1, ss =>
    match getline ',' ss with
    | none => []
    | some (fld, rest) => fld :: splitCols fuel rest

/-- The columns of a line: `stringstream ss(line)` and the `getline` loop. -/
def columns (line : Text) : List Text := splitCols line.length line

/-- The conversion of `strtol` / `strtoll` in base 10 behind `std::stoi` and
`std::stoll`: white space, an optional sign, then at least one digit; `none`
when there is no digit (no conversion). -/
def strtoll (s : Text) : Option Int :=
  match s.dropWhile isspace with
  | '-' :: c :: t =>
    if c.isDigit then some (-((digitsVal 0 (c :: t) : Nat) : Int)) else none
  | '+' :: c :: t =>
    if c.isDigit then some ((digitsVal 0 (c :: t) : Nat) : Int) else none
  | c :: t =>
    if c.isDigit then some ((digitsVal 0 (c :: t) : Nat) : Int) else none
  | [] => none

/-- C++ library `std::stoi`: throws `invalid_argument` when there is no
conversion and `out_of_range` when the value is no `int`. -/
def stoi (s : Text) : Except String Int :=
  match strtoll s with
  | none => .error "stoi"
  | some n => if -2 ^ 31 ≤ n ∧ n < 2 ^ 31 then .ok n else .error "stoi"

/-- C++ library `std::stoll`: throws `invalid_argument` when there is no
conversion and `out_of_range` when the value is no `long long`. -/
def stoll (s : Text) : Except String Int :=
  match strtoll s with
  | none => .error "stoll"
  | some n => if -2 ^ 63 ≤ n ∧ n < 2 ^ 63 then .ok n else .error "stoll"

/-- The value of the digits after the decimal point, up to the first
character that is not a digit. -/
def fracVal : Text → ℚ
  | [] => 0
  | c :: cs => if c.isDigit then (((c.toNat - 48 : Nat) : ℚ) + fracVal cs) / 10 else 0

/-- The unsigned part of the conversion of `strtod`, for decimal numerals:
digits, and an optional point with digits; `none` when there is no digit at
all. -/
def strtodUnsigned (u : Text) : Option ℚ :=
  let intDigits := u.takeWhile Char.isDigit
  let fracDigits :=
    match u.dropWhile Char.isDigit with
    | '.' :: r => r.takeWhile Char.isDigit
    | _ => []
  if intDigits = [] ∧ fracDigits = [] then none
  else some (((digitsVal 0 intDigits : Nat) : ℚ) + fracVal fracDigits)

/-- The conversion of `strtod` behind `std::stod`, for decimal numerals: white
space, an optional sign, then the unsigned numeral; `none` when there is no
conversion. The value is the rational the numeral denotes, which for the
fees of a log (whole numbers with the decimals `00`) is the `double` that
`stod` returns. Exponents and the hexadecimal, `inf` and `nan` forms, which
`<<` never writes here, are not represented. -/
def strtod (s : Text) : Option ℚ :=
  match s.dropWhile isspace with
  | '-' :: u => (strtodUnsigned u).map fun x => -x
  | '+' :: u => strtodUnsigned u
  | u => strtodUnsigned u

/-- C++ library `std::stod`: throws `invalid_argument` when there is no
conversion. -/
def stod (s : Text) : Except String ℚ :=
  match strtod s with
  | none => .error "stod"
  | some x => .ok x

/-! ## C++ variant -/

namespace CppVersion

/-- The C++ `enum class VehicleType { Bike=0, Car=1, Truck=2 }`. -/
inductive VehicleType where
  | Bike
  | Car
  | Truck
  deriving DecidableEq, Repr

/-- Class `Vehicle` (fields `license`, `owner`, `entryTime`, `type`,
`floor`, `spot`). The subclasses `Bike`, `Car`, `Truck` differ only in the two
rate methods, and both construction sites (`make_vehicle`, `load_state`)
pick the subclass named by `type`, so the dynamic class is `type`. -/
structure Vehicle where
  license : Text
  owner : Text
  entryTime : Int
  type : VehicleType
  floor : Int
  spot : Int
  deriving DecidableEq, Repr

/-- Virtual method `rateFirstHour` as overridden by `Bike`, `Car`, `Truck`. -/
def Vehicle.rateFirstHour (v : Vehicle) : Int :=
  match v.type with
  | .Bike => 20
  | .Car => 40
  | .Truck => 60

/-- Virtual method `rateAddHour` as overridden by `Bike`, `Car`, `Truck`. -/
def Vehicle.rateAddHour (v : Vehicle) : Int :=
  match v.type with
  | .Bike => 10
  | .Car => 20
  | .Truck => 30

/-- Method `Vehicle::calcFee(durationMinutes)` of `main.cpp`. The hour
count is a `long`: the sum `durationMinutes + 59` wraps around, and
`hours - 1` cannot since `hours` is at least 1. The rates are `double`, so
`hours - 1` is converted to `double` and the product and the sum are
rounded. -/
def Vehicle.calcFee (v : Vehicle) (durationMinutes : Int) : Int :=
  let hours0 := Int.tdiv (wrapLong (durationMinutes + 59)) 60
  let hours := if hours0 < 1 then 1 else hours0
  let fh := v.rateFirstHour
  let ah := v.rateAddHour
  if hours = 1 then fh else toDouble (fh + toDouble (toDouble (hours - 1) * ah))

/-- Method `setPosition(f, s)`. -/
def Vehicle.setPosition (v : Vehicle) (f s : Int) : Vehicle :=
  { v with floor := f, spot := s }

/-- The C++ struct `ParkingSpot`: the `occupied` flag and the owning pointer
to the vehicle (`none` for an empty `unique_ptr`). -/
structure ParkingSpot where
  occupied : Bool
  vehicle : Option Vehicle
  deriving DecidableEq, Repr

/-- The global `lot`, an array of `FLOORS` arrays of `SPOTS_PER_FLOOR` spots. -/
abbrev Lot := Fin FLOORS → Fin SPOTS_PER_FLOOR → ParkingSpot

/-- Assignment to `lot[f][s]`. -/
def setSpot (lot : Lot) (f : Fin FLOORS) (s : Fin SPOTS_PER_FLOOR)
    (sp : ParkingSpot) : Lot :=
  fun f' s' => if f' = f ∧ s' = s then sp else lot f' s'

/-- The grid at process start: the default member initialisers of
`ParkingSpot` (`occupied{false}`, `vehicle{}`). -/
def emptyLot : Lot := fun _ _ => ⟨false, none⟩

/-- The state of the C++ program: the grid and the data directory. -/
structure State where
  lot : Lot
  files : Files

/-- The cast `static_cast<int>(type)`. -/
def typeCode : VehicleType → Int
  | .Bike => 0
  | .Car => 1
  | .Truck => 2

/-- The row `save_state` writes for the vehicle at `lot[f][s]`. -/
def state_row (f : Fin FLOORS) (s : Fin SPOTS_PER_FLOOR) (v : Vehicle) : Text :=
  printInt (f.val : Int) ++ [','] ++ printInt (s.val : Int) ++ [','] ++ v.license ++ [',']
    ++ v.owner ++ [','] ++ printInt (typeCode v.type) ++ [','] ++ printInt v.entryTime ++ ['\n']

/-- The rows `save_state` writes: the two nested loops over the grid, one row
per spot that is occupied and has a vehicle. -/
def save_rows (lot : Lot) : Text :=
  (List.finRange FLOORS).flatMap fun f =>
    (List.finRange SPOTS_PER_FLOOR).flatMap fun s =>
      match (lot f s).occupied, (lot f s).vehicle with
      | true, some v => state_row f s v
      | _, _ => []

/-- Function `save_state`: `false` when the file cannot be opened, else the
snapshot is rewritten. -/
def save_state (st : State) : Bool × State :=
  match fopen_w st.files .parkingState with
  | none => (false, st)
  | some fs =>
    (true, { st with files := fprintf fs .parkingState (STATE_HEADER ++ save_rows st.lot) })

/-- Function `append_txn`: `false` when the log cannot be opened; the header
is written first when the log did not exist before the call. -/
def append_txn (fs : Files) (lic : Text) (t : VehicleType)
    (entry exitT durationMin fee : Int) : Bool × Files :=
  let fileExists := (fopen_r fs .transactions).isSome
  match fopen_a fs .transactions with
  | none => (false, fs)
  | some fs1 =>
    let fs2 := if fileExists then fs1 else fprintf fs1 .transactions TXN_HEADER
    (true, fprintf fs2 .transactions (txn_row lic (typeCode t) entry exitT durationMin fee))

/-- Function `find_nearest_spot`: the first spot in scan order whose
`occupied` flag is false; `none` for the pair `{-1,-1}`. -/
def find_nearest_spot (lot : Lot) : Option (Fin FLOORS × Fin SPOTS_PER_FLOOR) :=
  (List.finRange FLOORS).findSome? fun f =>
    (List.finRange SPOTS_PER_FLOOR).findSome? fun s =>
      if (lot f s).occupied then none else some (f, s)

/-- Function `find_vehicle(lic)`: the first spot in scan order that is
occupied, has a vehicle and whose license equals `lic`; `none` for
`{false,{-1,-1}}`. -/
def find_vehicle (lot : Lot) (lic : Text) : Option (Fin FLOORS × Fin SPOTS_PER_FLOOR) :=
  (List.finRange FLOORS).findSome? fun f =>
    (List.finRange SPOTS_PER_FLOOR).findSome? fun s =>
      match (lot f s).occupied, (lot f s).vehicle with
      | true, some v => if v.license = lic then some (f, s) else none
      | _, _ => none

/-- Function `make_vehicle(type, lic, own)`: the exception
`invalid_argument("Invalid vehicle type")` is `Except.error`. The constructor
stamps `entryTime = time(nullptr)`, here `now`, and leaves the position at
its default `-1, -1`. -/
def make_vehicle (type : Int) (lic own : Text) (now : Int) : Except String Vehicle :=
  if type = 1 then
    .ok { license := lic, owner := own, entryTime := now, type := .Bike, floor := -1, spot := -1 }
  else if type = 2 then
    .ok { license := lic, owner := own, entryTime := now, type := .Car, floor := -1, spot := -1 }
  else if type = 3 then
    .ok { license := lic, owner := own, entryTime := now, type := .Truck, floor := -1, spot := -1 }
  else .error "Invalid vehicle type"

/-- Function `ask_str`, on the line read by `getline` and cut by `trim`:
the exception `runtime_error("Empty input")` is `Except.error`. -/
def ask_str (line : Text) : Except String Text :=
  if line = [] then .error "Empty input" else .ok line

/-- Function `ask_int`, on the result of `stoi` (`none` when `stoi`
throws): the exception `runtime_error("Invalid number")` is
`Except.error`. -/
def ask_int (parsed : Option Int) : Except String Int :=
  match parsed with
  | none => .error "Invalid number"
  | some n => .ok n

/-- What `menu_entry` reads: the category line as `stoi` parses it and the
license and owner lines after `trim`. -/
structure EntryInput where
  type : Option Int
  license : Text
  owner : Text
  deriving DecidableEq, Repr

/-- The outcome of `menu_entry`: the text of the caught exception, or the
assigned spot and the entry time. -/
inductive EntryResult where
  | error (what : String)
  | assigned (f : Fin FLOORS) (s : Fin SPOTS_PER_FLOOR) (entryTime : Int)
  deriving DecidableEq, Repr

/-- Function `menu_entry`, with `now` the value of `time(nullptr)`. -/
def menu_entry (st : State) (inp : EntryInput) (now : Int) : EntryResult × State :=
  match ask_int inp.type with
  | .error e => (.error e, st)
  | .ok type =>
    match ask_str inp.license with
    | .error e => (.error e, st)
    | .ok lic =>
      if (find_vehicle st.lot lic).isSome then (.error "Vehicle already parked", st)
      else
        match ask_str inp.owner with
        | .error e => (.error e, st)
        | .ok own =>
          match find_nearest_spot st.lot with
          | none => (.error "Parking full", st)
          | some (f, s) =>
            match make_vehicle type lic own now with
            | .error e => (.error e, st)
            | .ok v0 =>
              let v := v0.setPosition (f.val : Int) (s.val : Int)
              let st1 : State := { st with lot := setSpot st.lot f s ⟨true, some v⟩ }
              (.assigned f s v.entryTime, (save_state st1).2)

/-- The duration computed by `menu_exit`:
`long durationMin = max(1L, (long)difftime(now, v->getEntryTime()) / 60);`. -/
def durationMin (now entryTime : Int) : Int :=
  max 1 (Int.tdiv (now - entryTime) 60)

/-- The outcome of `menu_exit`: the text of the caught exception, or the
receipt (license, category, entry, exit, duration in minutes, fee). -/
inductive ExitResult where
  | error (what : String)
  | receipt (license : Text) (type : VehicleType) (entry exitT durationMin fee : Int)
  deriving DecidableEq, Repr

/-- Function `menu_exit`, with `line` the license line after `trim` and `now`
the value of `time(nullptr)`. -/
def menu_exit (st : State) (line : Text) (now : Int) : ExitResult × State :=
  match ask_str line with
  | .error e => (.error e, st)
  | .ok lic =>
    match find_vehicle st.lot lic with
    | none => (.error "Not found", st)
    | some (f, s) =>
      match (st.lot f s).vehicle with
      | none => (.error "Not found", st) -- not reached: `find_vehicle` returns spots with a vehicle
      | some v =>
        let durationMin := CppVersion.durationMin now v.entryTime
        let fee := v.calcFee durationMin
        let fs1 := (append_txn st.files v.license v.type v.entryTime now durationMin fee).2
        let st1 : State := { lot := setSpot st.lot f s ⟨false, none⟩, files := fs1 }
        (.receipt v.license v.type v.entryTime now durationMin fee, (save_state st1).2)

/-- One operation of the main menu that changes the grid: an entry or an
exit, with what it reads and the clock value. -/
inductive Op where
  | entry (inp : EntryInput) (now : Int)
  | exit (line : Text) (now : Int)

/-- The state after an operation. -/
def step (st : State) : Op → State
  | .entry inp now => (menu_entry st inp now).2
  | .exit line now => (menu_exit st line now).2

/-- The state after a finite sequence of operations, the first one first. -/
def run (st : State) (ops : List Op) : State := ops.foldl step st

/-- Function `intToType`. -/
def intToType (x : Int) : VehicleType :=
  if x = 0 then .Bike else if x = 1 then .Car else .Truck

/-- The outcome of `load_state`: the grid when it returns, the text of the
exception thrown by `stoi` / `stoll` (nothing catches it), or the indices of
an access `lot[f][s]` outside the array, which the C++ program performs
unchecked (undefined behaviour). -/
inductive LoadResult where
  | done (lot : Lot)
  | exception (what : String)
  | outOfRange (f s : Int)

/-- The loop body of `load_state` on one line. The vehicle is built by the
constructor of the subclass `intToType(t)` names; its time stamp and position
are then set from the row. -/
def load_row (lot : Lot) (line : Text) : LoadResult :=
  if line = [] then .done lot
  else
    let cols := columns line
    if cols.length < 6 then .done lot
    else
      match stoi (cols.getD 0 []) with
      | .error e => .exception e
      | .ok f =>
        match stoi (cols.getD 1 []) with
        | .error e => .exception e
        | .ok s =>
          let lic := cols.getD 2 []
          let own := cols.getD 3 []
          match stoi (cols.getD 4 []) with
          | .error e => .exception e
          | .ok t =>
            match stoll (cols.getD 5 []) with
            | .error e => .exception e
            | .ok entry =>
              let v : Vehicle :=
                { license := lic, owner := own, entryTime := entry, type := intToType t,
                  floor := f, spot := s }
              match toIndex FLOORS f, toIndex SPOTS_PER_FLOOR s with
              | some fi, some si => .done (setSpot lot fi si ⟨true, some v⟩)
              | _, _ => .outOfRange f s

/-- The loop `while (getline(ifs, line))` of `load_state`. Every `getline`
that succeeds consumes a character, so `fuel = stream.length` iterations
always reach the end of the file. -/
def load_loop : Nat → Text → Lot → LoadResult
  | 0, _, lot => .done lot
  | fuel + 1, stream, lot =>
    match getline '\n' stream with
    | none => .done lot
    | some (line, rest) =>
      match load_row lot line with
      | .done lot1 => load_loop fuel rest lot1
      | r => r

/-- Function `load_state`: a missing file is an empty lot; the first line
(header) is read and dropped. -/
def load_state (st : State) : LoadResult :=
  match fopen_r st.files .parkingState with
  | none => .done st.lot
  | some content =>
    match getline '\n' content with
    | none => .done st.lot
    | some (_, rest) => load_loop rest.length rest st.lot

/-- The loop body of `report_revenue` on one line, with `tn` the local time of
the report and `acc` the pair `(today, total)`. -/
def revenue_row (localtime : Localtime) (tn : Tm) (acc : ℚ × ℚ) (line : Text) :
    Except String (ℚ × ℚ) :=
  if line = [] then .ok acc
  else
    let cols := columns line
    if cols.length < 6 then .ok acc
    else
      match stoll (cols.getD 3 []) with
      | .error e => .error e
      | .ok exitT =>
        match stod (cols.getD 5 []) with
        | .error e => .error e
        | .ok fee =>
          let total := acc.2 + fee
          let tx := localtime exitT
          if tx.tm_year = tn.tm_year ∧ tx.tm_mon = tn.tm_mon ∧ tx.tm_mday = tn.tm_mday then
            .ok (acc.1 + fee, total)
          else .ok (acc.1, total)

/-- The loop `while (getline(ifs, line))` of `report_revenue`. Every `getline`
that succeeds consumes a character, so `fuel = stream.length` iterations
always reach the end of the file. -/
def revenue_loop (localtime : Localtime) (tn : Tm) : Nat → Text → ℚ × ℚ → Except String (ℚ × ℚ)
  | 0, _, acc => .ok acc
  | fuel + 1, stream, acc =>
    match getline '\n' stream with
    | none => .ok acc
    | some (line, rest) =>
      match revenue_row localtime tn acc line with
      | .error e => .error e
      | .ok acc1 => revenue_loop localtime tn fuel rest acc1

end CppVersion

/-! ## Sample data and the predicates of the properties -/

/-- A sample C vehicle record (a Car) with the given license and position. -/
def CVersion.sampleVehicle (license : Text) (f s : Int) : CVersion.Vehicle :=
  { license := license, owner := "bob".toList, entryTime := 1000, type := 1, floor := f, spot := s }

/-- A sample C grid: spot (0, 0) holds the license `KA01`, every other spot
is free. -/
def CVersion.sampleLot : CVersion.ParkingLot :=
  CVersion.setSpot CVersion.init_parking 0 0
    ⟨true, some (CVersion.sampleVehicle "KA01".toList 0 0)⟩

/-- A sample data directory: no file yet, writing possible. -/
def sampleFiles : Files := { parkingState := none, transactions := none, writable := true }

/-- A sample C++ vehicle record: a Bike with license `KA01` that entered at
time 1000 and stands at spot (0, 0). -/
def CppVersion.sampleVehicle : CppVersion.Vehicle :=
  { license := "KA01".toList, owner := "bob".toList, entryTime := 1000, type := .Bike,
    floor := 0, spot := 0 }

/-- A sample C++ grid: spot (0, 0) holds `sampleVehicle`, every other spot is
free. -/
def CppVersion.sampleLot : CppVersion.Lot :=
  CppVersion.setSpot CppVersion.emptyLot 0 0 ⟨true, some CppVersion.sampleVehicle⟩

/-- A full C++ grid: the spot (f, s) holds a Car whose license is `L` followed
by the decimal number `20 f + s`. -/
def CppVersion.fullLot : CppVersion.Lot := fun f s =>
  ⟨true, some
    { license := 'L' :: Nat.toDigits 10 (20 * f.val + s.val), owner := "bob".toList,
      entryTime := 1000, type := .Car, floor := (f.val : Int), spot := (s.val : Int) }⟩

/-- The grid invariant of the data model: (i) a spot is occupied exactly when
it owns a vehicle record, (ii) no license is held by two different occupied
spots. -/
def CppVersion.GridInvariant (lot : CppVersion.Lot) : Prop :=
  (∀ f s, (lot f s).occupied = true ↔ (lot f s).vehicle.isSome = true)
  ∧ ∀ f s f' s' v v', (lot f s).occupied = true → (lot f s).vehicle = some v →
      (lot f' s').occupied = true → (lot f' s').vehicle = some v' →
      v.license = v'.license → f = f' ∧ s = s'

/-- The range of a 64-bit `long` (and of `time_t`). -/
def InLong (i : Int) : Prop := -2 ^ 63 ≤ i ∧ i < 2 ^ 63

/-- A text without comma, carriage return or line feed. -/
def NoSeparator (t : Text) : Prop := ∀ c ∈ t, c ≠ ',' ∧ c ≠ '\r' ∧ c ≠ '\n'

/-- A text field as the snapshot can hold it: not empty, at most `n`
characters, no comma, carriage return or line feed. -/
def GoodField (n : Nat) (t : Text) : Prop := t ≠ [] ∧ t.length ≤ n ∧ NoSeparator t

/-- A C vehicle record whose snapshot row reads back: good text fields and
numbers in the range of `long`. -/
def CVersion.GoodVehicle (v : CVersion.Vehicle) : Prop :=
  GoodField (LICENSE_MAX - 1) v.license ∧ GoodField (OWNER_MAX - 1) v.owner
  ∧ InLong v.floor ∧ InLong v.spot ∧ InLong v.type ∧ InLong v.entryTime

/-- The vehicles that get a row in the C snapshot, in scan order. -/
def CVersion.occupants (lot : CVersion.ParkingLot) : List CVersion.Vehicle :=
  (List.finRange FLOORS).flatMap fun f =>
    (List.finRange SPOTS_PER_FLOOR).flatMap fun s =>
      match (lot f s).occupied, (lot f s).vehicle with
      | true, some v => [v]
      | _, _ => []

/-- A C grid whose snapshot reads back: a spot is free without a record, or
occupied by a good record that carries the spot's own floor and position. -/
def CVersion.WellFormed (lot : CVersion.ParkingLot) : Prop :=
  ∀ f s, lot f s = ⟨false, none⟩
    ∨ ∃ v, lot f s = ⟨true, some v⟩ ∧ CVersion.GoodVehicle v
        ∧ v.floor = (f.val : Int) ∧ v.spot = (s.val : Int)

/-- One operation of the C main menu that changes the grid: an entry or an
exit, with what it reads and the clock value. -/
inductive CVersion.Op where
  | entry (inp : CVersion.EntryInput) (now : Int)
  | exit (license : Text) (now : Int)

/-- The C state after an operation. -/
def CVersion.step (st : CVersion.State) : CVersion.Op → CVersion.State
  | .entry inp now => (CVersion.park_vehicle st inp now).2
  | .exit license now => (CVersion.exit_vehicle st license now).2

/-- The C state after a finite sequence of operations, the first one first. -/
def CVersion.run (st : CVersion.State) (ops : List CVersion.Op) : CVersion.State :=
  ops.foldl CVersion.step st

/-- An operation whose input strings are non-empty and within the length
limits of the buffers, and whose clock value is a `long`. -/
def CVersion.WithinLimits : CVersion.Op → Prop
  | .entry inp now =>
    inp.license ≠ [] ∧ inp.license.length ≤ LICENSE_MAX - 1
    ∧ inp.owner ≠ [] ∧ inp.owner.length ≤ OWNER_MAX - 1 ∧ InLong now
  | .exit license now =>
    license ≠ [] ∧ license.length ≤ LICENSE_MAX - 1 ∧ InLong now

/-- An operation whose entry strings hold no comma, carriage return or line
feed, and whose clock value is a `long`. -/
def CVersion.Clean : CVersion.Op → Prop
  | .entry inp now => NoSeparator inp.license ∧ NoSeparator inp.owner ∧ InLong now
  | .exit _ now => InLong now

/-- A sample C session: two entries and the exit of the first vehicle. -/
def CVersion.sampleOps : List CVersion.Op :=
  [.entry ⟨some 2, "KA01".toList, "bob".toList⟩ 1000,
   .entry ⟨some 1, "MH12".toList, "eve".toList⟩ 2000,
   .exit "KA01".toList 5000]

/-- A C session with one entry whose license holds a comma. -/
def CVersion.commaOps : List CVersion.Op :=
  [.entry ⟨some 2, "A,B".toList, "bob".toList⟩ 1000]

/-- A data directory whose snapshot has one row, for floor 7 and position 3:
the floor is outside the grid. -/
def outOfRangeFiles : Files :=
  { parkingState := some "floor,spot,license,owner,type,entryTime\n7,3,KA01,bob,1,1000\n".toList
    transactions := none
    writable := true }

/-- A C state with three vehicles parked, two of which entered in the hour 9
of `utcTime` and one in the hour 14, and with no transaction log. -/
def CVersion.peakState : CVersion.State :=
  { parkingLot :=
      CVersion.setSpot
        (CVersion.setSpot
          (CVersion.setSpot CVersion.init_parking 0 0
            ⟨true, some ⟨"KA01".toList, "bob".toList, 32400, 1, 0, 0⟩⟩)
          0 1 ⟨true, some ⟨"MH12".toList, "eve".toList, 50400, 0, 0, 1⟩⟩)
        0 2 ⟨true, some ⟨"DL07".toList, "dan".toList, 34000, 2, 0, 2⟩⟩
    files := sampleFiles }

/-- The grid after `n` entries into the empty grid: exactly the first `n` spots
in scan order are occupied, and every record carries one of the licenses
entered. -/
def CVersion.FilledTo (lot : CVersion.ParkingLot) (lics : List Text) : Prop :=
  ∀ f s, ((lot f s).occupied = true ↔ 20 * f.val + s.val < lics.length)
    ∧ ∀ v, (lot f s).vehicle = some v → v.license ∈ lics

/-- An entry request with a valid category choice, a non-empty license that
fits the buffer and a non-empty owner. -/
def CVersion.ValidEntry (inp : CVersion.EntryInput) : Prop :=
  (inp.typeChoice = some 1 ∨ inp.typeChoice = some 2 ∨ inp.typeChoice = some 3)
  ∧ inp.license ≠ [] ∧ inp.license.length ≤ LICENSE_MAX - 1 ∧ inp.owner ≠ []

/-- A session of entries only: the operations of a list of entry requests with
their clock values. -/
def CVersion.entries (inps : List (CVersion.EntryInput × Int)) : List CVersion.Op :=
  inps.map fun p => .entry p.1 p.2

/-- A sample fill: 100 Car entries with the licenses `L0`, ..., `L99`. -/
def CVersion.fillInputs : List (CVersion.EntryInput × Int) :=
  (List.range 100).map fun i =>
    (⟨some 2, 'L' :: Nat.toDigits 10 i, "bob".toList⟩, 1000 + (i : Int))

/-- A C++ session with one entry whose license holds a comma, and its exit 90
minutes later. -/
def CppVersion.commaOps : List CppVersion.Op :=
  [.entry ⟨some 2, "A,B".toList, "bob".toList⟩ 1000, .exit "A,B".toList 6400]

/-- A sample C++ session: two entries and two exits, the second exit on the
following day. -/
def CppVersion.sampleOps : List CppVersion.Op :=
  [.entry ⟨some 2, "KA01".toList, "bob".toList⟩ 1000,
   .entry ⟨some 1, "MH12".toList, "eve".toList⟩ 2000,
   .exit "KA01".toList 6400,
   .exit "MH12".toList 100000]

/-- A text without comma or line feed. -/
def NoCommaNewline (t : Text) : Prop := ∀ c ∈ t, c ≠ ',' ∧ c ≠ '\n'

/-- A C++ operation whose entry license holds no comma or line feed and whose
clock value is a `long`. -/
def CppVersion.Clean : CppVersion.Op → Prop
  | .entry inp now => NoCommaNewline inp.license ∧ InLong now
  | .exit _ now => InLong now

/-- Times at which the elapsed time of the model is the one of the source:
entry and current time are values of `time_t`, and their difference is at
most `2^53` in absolute value, so that the `double` returned by `difftime`
is the exact difference. -/
def ExactTime (entryTime now : Int) : Prop :=
  InLong entryTime ∧ InLong now ∧ -2 ^ 53 ≤ now - entryTime ∧ now - entryTime ≤ 2 ^ 53

/-- A data directory without files in which no file can be opened for
writing. -/
def readOnlyFiles : Files := { parkingState := none, transactions := none, writable := false }

/-- A snapshot with two rows for the license `KA01`: a Bike at spot (0, 0)
and a Car at spot (0, 1). -/
def twiceFiles : Files :=
  { parkingState := some
      "floor,spot,license,owner,type,entryTime\n0,0,KA01,bob,0,1000\n0,1,KA01,eve,1,2000\n".toList
    transactions := none
    writable := true }

/-- The C++ grid that `load_state` builds from the snapshot of `twiceFiles`:
the Bike `sampleVehicle` at spot (0, 0) and a Car with the same license
`KA01`, entered at time 2000, at spot (0, 1). -/
def CppVersion.twiceLot : CppVersion.Lot :=
  CppVersion.setSpot
    (CppVersion.setSpot CppVersion.emptyLot 0 0 ⟨true, some CppVersion.sampleVehicle⟩) 0 1
    ⟨true, some { license := "KA01".toList, owner := "eve".toList, entryTime := 2000,
                  type := .Car, floor := 0, spot := 1 }⟩

/-- A C++ grid whose spot (0, 0) holds a Bike with the empty license. -/
def CppVersion.unnamedLot : CppVersion.Lot :=
  CppVersion.setSpot CppVersion.emptyLot 0 0
    ⟨true, some { license := [], owner := "bob".toList, entryTime := 1000,
                  type := .Bike, floor := 0, spot := 0 }⟩

/-! ## Theorems -/

/-- A value of the range of `long` is not changed by the reduction to that
range. -/
theorem wrapLong_of_range (x : Int) (h1 : -2 ^ 63 ≤ x) (h2 : x < 2 ^ 63) : wrapLong x = x := by
  unfold wrapLong
  omega

/-- Whole numbers from 0 to `2^53` are representable in `double`. -/
theorem toDouble_of_le (x : Int) (h0 : 0 ≤ x) (h : x ≤ 2 ^ 53) : toDouble x = x := by
  unfold toDouble roundNat
  rw [if_neg (by omega), if_pos (by omega)]
  omega

/-- Rounding keeps a number that is not negative so. -/
theorem toDouble_nonneg (x : Int) (h0 : 0 ≤ x) : 0 ≤ toDouble x := by
  unfold toDouble
  rw [if_neg (by omega)]
  exact Int.natCast_nonneg _

/-- The hour count `(d + 59) / 60`, forced up to 1, of a duration up to
`60 * 600479950316065`. -/
theorem billed_hours_le (d : Int) (hd : d ≤ 36028797018963900) :
    (if Int.tdiv (d + 59) 60 < 1 then 1 else Int.tdiv (d + 59) 60) ≤ 600479950316065 := by
  split_ifs with h
  · norm_num
  · have h0 : 0 ≤ d + 59 := by
      by_contra hneg
      have : Int.tdiv (d + 59) 60 = -(Int.tdiv (-(d + 59)) 60) := by
        rw [Int.neg_tdiv, neg_neg]
      have h3 : 0 ≤ Int.tdiv (-(d + 59)) 60 := Int.tdiv_nonneg (by omega) (by norm_num)
      omega
    rw [Int.tdiv_eq_ediv h0 (by norm_num)]
    omega

/-- Bounds of the rounded value of a number above `2^53`: it lies between
the powers of two that enclose the number, and between the two neighbours
`q * 2^e` and `(q + 1) * 2^e`. -/
theorem roundNat_bounds (n : Nat) (hn : 2 ^ 53 < n) :
    2 ^ Nat.log2 n ≤ roundNat n ∧ roundNat n ≤ 2 ^ (Nat.log2 n + 1)
    ∧ 53 ≤ Nat.log2 n
    ∧ n / 2 ^ (Nat.log2 n - 52) * 2 ^ (Nat.log2 n - 52) ≤ roundNat n
    ∧ roundNat n ≤ (n / 2 ^ (Nat.log2 n - 52) + 1) * 2 ^ (Nat.log2 n - 52) := by
  have hn0 : n ≠ 0 := by omega
  have hk : 53 ≤ Nat.log2 n := by
    by_contra hlt
    have h1 : Nat.log2 n < 53 := by omega
    have h2 := (Nat.log2_lt hn0).1 h1
    omega
  have hlo : 2 ^ Nat.log2 n ≤ n := Nat.log2_self_le hn0
  have hhi : n < 2 ^ (Nat.log2 n + 1) := Nat.lt_log2_self
  obtain ⟨e, he⟩ : ∃ e, Nat.log2 n = e + 52 := ⟨Nat.log2 n - 52, by omega⟩
  have hP : 0 < 2 ^ e := Nat.pow_pos (by norm_num)
  have hpow : 2 ^ Nat.log2 n = 2 ^ 52 * 2 ^ e := by rw [he, pow_add, mul_comm]
  have hpow1 : 2 ^ (Nat.log2 n + 1) = 2 ^ 53 * 2 ^ e := by
    rw [he, show e + 52 + 1 = e + 53 by omega, pow_add, mul_comm]
  have hsub : Nat.log2 n - 52 = e := by omega
  have hq1 : 2 ^ 52 ≤ n / 2 ^ e := by
    rw [Nat.le_div_iff_mul_le hP]
    omega
  have hq2 : n / 2 ^ e < 2 ^ 53 := by
    rw [Nat.div_lt_iff_lt_mul hP]
    omega
  have hdm : n / 2 ^ e * 2 ^ e + n % 2 ^ e = n := by
    rw [mul_comm]; exact Nat.div_add_mod n (2 ^ e)
  have hr : n % 2 ^ e < 2 ^ e := Nat.mod_lt _ hP
  have hqlo : 2 ^ 52 * 2 ^ e ≤ n / 2 ^ e * 2 ^ e := Nat.mul_le_mul_right _ hq1
  have hqhi : (n / 2 ^ e + 1) * 2 ^ e ≤ 2 ^ 53 * 2 ^ e := Nat.mul_le_mul_right _ (by omega)
  have hstep : n / 2 ^ e * 2 ^ e ≤ (n / 2 ^ e + 1) * 2 ^ e := Nat.mul_le_mul_right _ (by omega)
  unfold roundNat
  rw [if_neg (by omega)]
  simp only [hsub]
  rw [hpow, hpow1]
  split_ifs
  · exact ⟨hqlo, le_trans hstep hqhi, by omega, le_rfl, hstep⟩
  · exact ⟨le_trans hqlo hstep, hqhi, by omega, hstep, le_rfl⟩

/-- Rounding to `double` is monotone. -/
theorem roundNat_mono (a b : Nat) (hab : a ≤ b) : roundNat a ≤ roundNat b := by
  by_cases hb : b ≤ 2 ^ 53
  · have ha : a ≤ 2 ^ 53 := le_trans hab hb
    unfold roundNat
    rw [if_pos ha, if_pos hb]
    exact hab
  · have hb1 : 2 ^ 53 < b := by omega
    obtain ⟨hb2, hb3, hb4, hb5, hb6⟩ := roundNat_bounds b hb1
    by_cases ha : a ≤ 2 ^ 53
    · have h1 : roundNat a = a := by unfold roundNat; rw [if_pos ha]
      have h2 : (2 : Nat) ^ 53 ≤ 2 ^ Nat.log2 b := Nat.pow_le_pow_right (by norm_num) hb4
      rw [h1]
      omega
    · have ha1 : 2 ^ 53 < a := by omega
      obtain ⟨ha2, ha3, ha4, ha5, ha6⟩ := roundNat_bounds a ha1
      have hlog : Nat.log2 a ≤ Nat.log2 b := by
        by_contra hlt
        have h1 : Nat.log2 b < Nat.log2 a := by omega
        have h2 : b < 2 ^ Nat.log2 a := (Nat.log2_lt (by omega)).1 h1
        have h3 : 2 ^ Nat.log2 a ≤ a := Nat.log2_self_le (by omega)
        omega
      rcases Nat.lt_or_ge (Nat.log2 a) (Nat.log2 b) with hlt | hge
      · have h2 : (2 : Nat) ^ (Nat.log2 a + 1) ≤ 2 ^ Nat.log2 b :=
          Nat.pow_le_pow_right (by norm_num) hlt
        omega
      · have heq : Nat.log2 a = Nat.log2 b := by omega
        rw [heq] at ha5 ha6
        have hP : 0 < 2 ^ (Nat.log2 b - 52) := Nat.pow_pos (by norm_num)
        have hq : a / 2 ^ (Nat.log2 b - 52) ≤ b / 2 ^ (Nat.log2 b - 52) :=
          Nat.div_le_div_right hab
        rcases Nat.lt_or_ge (a / 2 ^ (Nat.log2 b - 52)) (b / 2 ^ (Nat.log2 b - 52)) with hql | hqg
        · have h3 : (a / 2 ^ (Nat.log2 b - 52) + 1) * 2 ^ (Nat.log2 b - 52)
              ≤ b / 2 ^ (Nat.log2 b - 52) * 2 ^ (Nat.log2 b - 52) :=
            Nat.mul_le_mul_right _ hql
          omega
        · have hqe : a / 2 ^ (Nat.log2 b - 52) = b / 2 ^ (Nat.log2 b - 52) := by omega
          have hda : 2 ^ (Nat.log2 b - 52) * (a / 2 ^ (Nat.log2 b - 52))
              + a % 2 ^ (Nat.log2 b - 52) = a := Nat.div_add_mod a _
          have hdb : 2 ^ (Nat.log2 b - 52) * (b / 2 ^ (Nat.log2 b - 52))
              + b % 2 ^ (Nat.log2 b - 52) = b := Nat.div_add_mod b _
          rw [hqe] at hda
          have hr : a % 2 ^ (Nat.log2 b - 52) ≤ b % 2 ^ (Nat.log2 b - 52) := by omega
          have hstep : b / 2 ^ (Nat.log2 b - 52) * 2 ^ (Nat.log2 b - 52)
              ≤ (b / 2 ^ (Nat.log2 b - 52) + 1) * 2 ^ (Nat.log2 b - 52) :=
            Nat.mul_le_mul_right _ (by omega)
          unfold roundNat
          rw [if_neg ha, if_neg hb]
          simp only [heq, hqe]
          generalize 2 ^ (Nat.log2 b - 52) = P at *
          generalize b / P = q at *
          generalize a % P = ra at *
          generalize b % P = rb at *
          split_ifs with h1 h2 h2
          · exact le_rfl
          · exact hstep
          · exfalso
            omega
          · exact le_rfl

/-- The rounding of a number above `2^53` whose binary exponent is known:
with `2^(e + 52) ≤ n < 2^(e + 53)` the number keeps the quotient by `2^e`,
rounded by the remainder. -/
theorem roundNat_of_exp (n e : Nat) (h0 : 2 ^ 53 < n) (h1 : 2 ^ (e + 52) ≤ n)
    (h2 : n < 2 ^ (e + 53)) :
    roundNat n = if 2 * (n % 2 ^ e) < 2 ^ e ∨ (2 * (n % 2 ^ e) = 2 ^ e ∧ n / 2 ^ e % 2 = 0)
      then n / 2 ^ e * 2 ^ e else (n / 2 ^ e + 1) * 2 ^ e := by
  have hn0 : n ≠ 0 := by omega
  have hlog : Nat.log2 n = e + 52 := by
    have ha : Nat.log2 n < e + 53 := (Nat.log2_lt hn0).2 h2
    have hb : e + 52 ≤ Nat.log2 n := (Nat.le_log2 hn0).2 h1
    omega
  unfold roundNat
  rw [if_neg (by omega)]
  simp only [hlog, Nat.add_sub_cancel]

/-- Even whole numbers from 0 to `2^54` are representable in `double`. -/
theorem toDouble_of_even (x : Int) (h0 : 0 ≤ x) (h : x ≤ 2 ^ 54) (h2 : x % 2 = 0) :
    toDouble x = x := by
  by_cases hs : x ≤ 2 ^ 53
  · exact toDouble_of_le x h0 hs
  · unfold toDouble
    rw [if_neg (by omega)]
    obtain ⟨n, rfl⟩ := Int.eq_ofNat_of_zero_le h0
    rw [Int.toNat_ofNat]
    have hn1 : 2 ^ 53 < n := by omega
    have hn2 : n ≤ 2 ^ 54 := by omega
    have hn3 : n % 2 = 0 := by omega
    by_cases htop : n = 2 ^ 54
    · rw [roundNat_of_exp n 2 hn1 (by omega) (by omega)]
      have hr : n % 2 ^ 2 = 0 := by rw [htop]; norm_num
      rw [if_pos (Or.inl (by rw [hr]; norm_num))]
      have := Nat.div_add_mod n (2 ^ 2)
      have h4 : n / 2 ^ 2 * 2 ^ 2 = n := by omega
      exact_mod_cast h4
    · rw [roundNat_of_exp n 1 hn1 (by omega) (by omega)]
      have hr : n % 2 ^ 1 = 0 := by simpa using hn3
      rw [if_pos (Or.inl (by rw [hr]; norm_num))]
      have := Nat.div_add_mod n (2 ^ 1)
      have h4 : n / 2 ^ 1 * 2 ^ 1 = n := by omega
      exact_mod_cast h4

/-- The fee expression of both variants is exact as long as the hour count is
at most 600479950316065 and the rates are even numbers up to 60 and 30: the
product and the sum are even numbers below `2^54`. -/
theorem fee_expr_exact (fh ah h : Int) (hfh0 : 0 ≤ fh) (hfh : fh ≤ 60) (hfh2 : fh % 2 = 0)
    (hah0 : 0 ≤ ah) (hah : ah ≤ 30) (hah2 : ah % 2 = 0)
    (h1 : 1 ≤ h) (h2 : h ≤ 600479950316065) :
    toDouble (fh + toDouble (toDouble (h - 1) * ah)) = fh + (h - 1) * ah := by
  have hp0 : 0 ≤ (h - 1) * ah := mul_nonneg (by omega) hah0
  have hp : (h - 1) * ah ≤ 600479950316064 * 30 :=
    mul_le_mul (by omega) hah hah0 (by norm_num)
  have hp2 : (h - 1) * ah % 2 = 0 := by
    obtain ⟨c, hc⟩ := Int.dvd_of_emod_eq_zero hah2
    have : (h - 1) * ah = 2 * ((h - 1) * c) := by rw [hc]; ring
    omega
  rw [toDouble_of_le (h - 1) (by omega) (by omega)]
  rw [toDouble_of_even _ hp0 (by omega) hp2]
  rw [toDouble_of_even _ (by omega) (by omega) (by omega)]

/-- Rounding to `double` is monotone on the integers that are not negative. -/
theorem toDouble_mono (x y : Int) (h0 : 0 ≤ x) (hxy : x ≤ y) : toDouble x ≤ toDouble y := by
  unfold toDouble
  rw [if_neg (by omega), if_neg (by omega)]
  have := roundNat_mono x.toNat y.toNat (by omega)
  exact_mod_cast this

/-- Truncating division by 60 of `d + 59` is the ceiling of `d / 60` as soon
as `d + 59` is not negative. -/
theorem tdiv_add_59_eq_ceil (d : Int) (h : 0 ≤ d + 59) :
    Int.tdiv (d + 59) 60 = ⌈(d : ℚ) / 60⌉ := by
  rw [Int.tdiv_eq_ediv h (by norm_num)]
  symm
  rw [Int.ceil_eq_iff]
  have h1 : ((d + 59) / 60 : Int) * 60 ≤ d + 59 := Int.ediv_mul_le _ (by norm_num)
  have h2 : d + 59 < ((d + 59) / 60 : Int) * 60 + 60 := by
    have := Int.lt_ediv_add_one_mul_self (d + 59) (show (0 : Int) < 60 by norm_num)
    linarith
  constructor
  · rw [lt_div_iff₀ (by norm_num)]
    have : (((d + 59) / 60 : Int) - 1) * 60 < d := by linarith
    exact_mod_cast this
  · rw [div_le_iff₀ (by norm_num)]
    have : d ≤ ((d + 59) / 60 : Int) * 60 := by omega
    exact_mod_cast this

/-- The billed hour count of both variants: `(d + 59) / 60` forced up to 1
equals `max 1 ⌈d / 60⌉`. -/
theorem billed_hours_eq (d : Int) :
    (if Int.tdiv (d + 59) 60 < 1 then 1 else Int.tdiv (d + 59) 60)
      = max 1 ⌈(d : ℚ) / 60⌉ := by
  by_cases h : 0 ≤ d + 59
  · rw [tdiv_add_59_eq_ceil d h]
    split_ifs with h1
    · rw [max_eq_left (by omega)]
    · rw [max_eq_right (by omega)]
  · have hneg : Int.tdiv (d + 59) 60 ≤ 0 := by
      have : Int.tdiv (d + 59) 60 = -(Int.tdiv (-(d + 59)) 60) := by
        rw [Int.neg_tdiv, neg_neg]
      rw [this]
      have : 0 ≤ Int.tdiv (-(d + 59)) 60 := Int.tdiv_nonneg (by omega) (by norm_num)
      omega
    have hceil : ⌈(d : ℚ) / 60⌉ ≤ 0 := by
      rw [Int.ceil_le]
      have : (d : ℚ) ≤ 0 := by exact_mod_cast (by omega : d ≤ 0)
      simp only [Int.cast_zero]
      exact div_nonpos_of_nonpos_of_nonneg this (by norm_num)
    rw [if_pos (by omega), max_eq_left (by omega)]

/-- Counterexample to C1 as stated, at three durations.
At `d = LONG_MAX` the sum `d + 59` leaves the range of `long` and wraps
around to a negative value, so the hour count is forced to 1 and the Bike fee
is 20, where the formula gives 1537228672809129320.
At `d = 36028797018963901` the Truck fee of the formula,
`60 + 600479950316065 * 30 = 18014398509482010`, is no `double`: the function
returns the nearest one, 18014398509482008.
At `d = 60 * (2^53 + 1)` the Bike fee of the formula,
`20 + 2^53 * 10 = 90071992547409940`, is no `double` either: the function
returns 90071992547409936. -/
theorem c_calculate_fee_formula_counterexample :
    (CVersion.calculate_fee CVersion.VEHICLE_BIKE LONG_MAX = 20
      ∧ 20 + (max 1 ⌈((LONG_MAX : Int) : ℚ) / 60⌉ - 1) * 10 = 1537228672809129320)
    ∧ (CVersion.calculate_fee CVersion.VEHICLE_TRUCK 36028797018963901 = 18014398509482008
      ∧ 60 + (max 1 ⌈((36028797018963901 : Int) : ℚ) / 60⌉ - 1) * 30 = 18014398509482010)
    ∧ (CVersion.calculate_fee CVersion.VEHICLE_BIKE (60 * (2 ^ 53 + 1)) = 90071992547409936
      ∧ 20 + (max 1 ⌈((60 * (2 ^ 53 + 1) : Int) : ℚ) / 60⌉ - 1) * 10
          = 90071992547409940) := by
  have h1 : ⌈((LONG_MAX : Int) : ℚ) / 60⌉ = 153722867280912931 := by
    rw [Int.ceil_eq_iff]
    norm_num [LONG_MAX]
  have h2 : ⌈((60 * (2 ^ 53 + 1) : Int) : ℚ) / 60⌉ = 2 ^ 53 + 1 := by
    rw [Int.ceil_eq_iff]
    norm_num
  have h3 : ⌈((36028797018963901 : Int) : ℚ) / 60⌉ = 600479950316066 := by
    rw [Int.ceil_eq_iff]
    norm_num
  have hB : CVersion.rates CVersion.VEHICLE_BIKE = (20, 10) := by decide
  have hT : CVersion.rates CVersion.VEHICLE_TRUCK = (60, 30) := by decide
  have s1 : wrapLong (60 * (2 ^ 53 + 1) + 59) = 60 * (2 ^ 53 + 1) + 59 :=
    wrapLong_of_range _ (by norm_num) (by norm_num)
  have s2 : Int.tdiv (60 * (2 ^ 53 + 1) + 59) 60 = 2 ^ 53 + 1 := by decide
  have s3 : toDouble (2 ^ 53 + 1 - 1) = 2 ^ 53 := by
    rw [toDouble_of_le _ (by norm_num) (by norm_num)]
    norm_num
  have s4 : toDouble (2 ^ 53 * 10) = 2 ^ 53 * 10 := by
    have h := roundNat_of_exp (2 ^ 53 * 10) 4 (by norm_num) (by norm_num) (by norm_num)
    unfold toDouble
    rw [if_neg (by norm_num)]
    have ht : ((2 : Int) ^ 53 * 10).toNat = 2 ^ 53 * 10 := by decide
    rw [ht, h]
    norm_num
  have s5 : toDouble (20 + 2 ^ 53 * 10) = 90071992547409936 := by
    have h := roundNat_of_exp (20 + 2 ^ 53 * 10) 4 (by norm_num) (by norm_num) (by norm_num)
    unfold toDouble
    rw [if_neg (by norm_num)]
    have ht : ((20 : Int) + 2 ^ 53 * 10).toNat = 20 + 2 ^ 53 * 10 := by decide
    rw [ht, h]
    norm_num
  have t1 : wrapLong (36028797018963901 + 59) = 36028797018963960 :=
    wrapLong_of_range _ (by norm_num) (by norm_num)
  have t2 : Int.tdiv 36028797018963960 60 = 600479950316066 := by decide
  have t3 : toDouble (600479950316066 - 1) = 600479950316065 := by
    rw [toDouble_of_le _ (by norm_num) (by norm_num)]
    norm_num
  have t4 : toDouble (600479950316065 * 30) = 18014398509481950 := by
    rw [toDouble_of_even _ (by norm_num) (by norm_num) (by norm_num)]
    norm_num
  have t5 : toDouble (60 + 18014398509481950) = 18014398509482008 := by
    have h := roundNat_of_exp 18014398509482010 2 (by norm_num) (by norm_num) (by norm_num)
    unfold toDouble
    rw [if_neg (by norm_num)]
    have ht : ((60 : Int) + 18014398509481950).toNat = 18014398509482010 := by decide
    rw [ht, h]
    norm_num
  refine ⟨⟨by decide, ?_⟩, ⟨?_, ?_⟩, ⟨?_, ?_⟩⟩
  · rw [h1]; norm_num
  · unfold CVersion.calculate_fee
    simp only [t1, t2, hT]
    rw [if_neg (by norm_num), if_neg (by norm_num), t3, t4, t5]
  · rw [h3]; norm_num
  · unfold CVersion.calculate_fee
    simp only [s1, s2, hB]
    rw [if_neg (by norm_num), if_neg (by norm_num), s3, s4, s5]
  · rw [h2]; norm_num

/-- C1, as amended. C variant, `calculate_fee`: for each of the three
categories and every duration `d` from `LONG_MIN` to 36028797018963900
minutes (zero and negative included; 36028797018963900 is the last duration
before the first one at which a fee is no `double`) the fee is
`firstHour + (h - 1) * additionalHour` with `h = max 1 ⌈d / 60⌉` and the rate
pairs (20, 10), (40, 20), (60, 30); in particular it is `firstHour` whenever
`d ≤ 60`. -/
theorem c_calculate_fee_formula (d : Int) (hmin : LONG_MIN ≤ d)
    (hmax : d ≤ 36028797018963900) :
    (CVersion.calculate_fee CVersion.VEHICLE_BIKE d
        = 20 + (max 1 ⌈(d : ℚ) / 60⌉ - 1) * 10
      ∧ CVersion.calculate_fee CVersion.VEHICLE_CAR d
        = 40 + (max 1 ⌈(d : ℚ) / 60⌉ - 1) * 20
      ∧ CVersion.calculate_fee CVersion.VEHICLE_TRUCK d
        = 60 + (max 1 ⌈(d : ℚ) / 60⌉ - 1) * 30)
    ∧ (d ≤ 60 →
        CVersion.calculate_fee CVersion.VEHICLE_BIKE d = 20
      ∧ CVersion.calculate_fee CVersion.VEHICLE_CAR d = 40
      ∧ CVersion.calculate_fee CVersion.VEHICLE_TRUCK d = 60) := by
  have hmin2 : -2 ^ 63 ≤ d := hmin
  have key : ∀ t : CVersion.VehicleType, CVersion.calculate_fee t d
      = (CVersion.rates t).1 + (max 1 ⌈(d : ℚ) / 60⌉ - 1) * (CVersion.rates t).2 := by
    intro t
    have hr : 0 ≤ (CVersion.rates t).1 ∧ (CVersion.rates t).1 ≤ 60
        ∧ (CVersion.rates t).1 % 2 = 0
        ∧ 0 ≤ (CVersion.rates t).2 ∧ (CVersion.rates t).2 ≤ 30
        ∧ (CVersion.rates t).2 % 2 = 0 := by
      unfold CVersion.rates
      split_ifs <;> decide
    have hle := billed_hours_le d hmax
    have hge : (1 : Int) ≤ (if Int.tdiv (d + 59) 60 < 1 then 1 else Int.tdiv (d + 59) 60) := by
      split_ifs <;> omega
    have heq := billed_hours_eq d
    unfold CVersion.calculate_fee
    simp only []
    rw [wrapLong_of_range (d + 59) (by omega) (by omega)]
    generalize (if Int.tdiv (d + 59) 60 < 1 then 1 else Int.tdiv (d + 59) 60) = h at hle hge heq
    rw [← heq]
    split_ifs with h1
    · rw [h1]; ring
    · exact fee_expr_exact _ _ h hr.1 hr.2.1 hr.2.2.1 hr.2.2.2.1 hr.2.2.2.2.1 hr.2.2.2.2.2
        hge hle
  have hB : CVersion.rates CVersion.VEHICLE_BIKE = (20, 10) := by decide
  have hC : CVersion.rates CVersion.VEHICLE_CAR = (40, 20) := by decide
  have hT : CVersion.rates CVersion.VEHICLE_TRUCK = (60, 30) := by decide
  refine ⟨⟨?_, ?_, ?_⟩, ?_⟩
  · rw [key, hB]
  · rw [key, hC]
  · rw [key, hT]
  · intro hd
    have hceil : ⌈(d : ℚ) / 60⌉ ≤ 1 := by
      rw [Int.ceil_le, div_le_iff₀ (by norm_num)]
      exact_mod_cast (by omega : d ≤ 1 * 60)
    have hmax1 : max 1 ⌈(d : ℚ) / 60⌉ = 1 := max_eq_left hceil
    refine ⟨?_, ?_, ?_⟩
    · rw [key, hB, hmax1]; norm_num
    · rw [key, hC, hmax1]; norm_num
    · rw [key, hT, hmax1]; norm_num

/-- Witness of C1 as amended: at `d = 45` minutes the three fees are the
first-hour rates. -/
theorem c_calculate_fee_formula_witness :
    LONG_MIN ≤ 45 ∧ (45 : Int) ≤ 36028797018963900 ∧ (45 : Int) ≤ 60
    ∧ CVersion.calculate_fee CVersion.VEHICLE_BIKE 45 = 20
    ∧ CVersion.calculate_fee CVersion.VEHICLE_CAR 45 = 40
    ∧ CVersion.calculate_fee CVersion.VEHICLE_TRUCK 45 = 60 :=
  ⟨by decide, by decide, by decide,
    (c_calculate_fee_formula 45 (by decide) (by decide)).2 (by decide)⟩

/-- The billed hour count is monotone in the duration. -/
theorem billed_hours_mono (d1 d2 : Int) (h : d1 ≤ d2) :
    (if Int.tdiv (d1 + 59) 60 < 1 then 1 else Int.tdiv (d1 + 59) 60)
      ≤ (if Int.tdiv (d2 + 59) 60 < 1 then 1 else Int.tdiv (d2 + 59) 60) := by
  rw [billed_hours_eq, billed_hours_eq]
  apply max_le_max le_rfl
  apply Int.ceil_mono
  apply div_le_div_of_nonneg_right _ (by norm_num)
  exact_mod_cast h

/-- The rates of the three C++ categories. -/
theorem cpp_rates_bounds (v : CppVersion.Vehicle) :
    0 ≤ v.rateFirstHour ∧ v.rateFirstHour ≤ 60 ∧ 0 ≤ v.rateAddHour ∧ v.rateAddHour ≤ 30 := by
  unfold CppVersion.Vehicle.rateFirstHour CppVersion.Vehicle.rateAddHour
  cases v.type <;> decide

/-- Counterexample to C2 as stated: the duration 61 is billed two hours (30
for a Bike, 60 for a Car, 90 for a Truck), but from the duration
`LONG_MAX - 58` on the sum `d + 59` leaves the range of `long` and wraps
around to a negative value, and the fee is that of the first hour (20, 40,
60). -/
theorem cpp_calcFee_monotone_counterexample :
    (0 : Int) ≤ 61 ∧ (61 : Int) ≤ LONG_MAX - 58 ∧ LONG_MAX - 58 ≤ LONG_MAX
    ∧ CppVersion.Vehicle.calcFee ⟨['K'], ['o'], 0, .Bike, 0, 0⟩ 61 = 30
    ∧ CppVersion.Vehicle.calcFee ⟨['K'], ['o'], 0, .Bike, 0, 0⟩ (LONG_MAX - 58) = 20
    ∧ CppVersion.Vehicle.calcFee ⟨['K'], ['o'], 0, .Bike, 0, 0⟩ LONG_MAX = 20
    ∧ CppVersion.Vehicle.calcFee ⟨['K'], ['o'], 0, .Car, 0, 0⟩ 61 = 60
    ∧ CppVersion.Vehicle.calcFee ⟨['K'], ['o'], 0, .Car, 0, 0⟩ (LONG_MAX - 58) = 40
    ∧ CppVersion.Vehicle.calcFee ⟨['K'], ['o'], 0, .Car, 0, 0⟩ LONG_MAX = 40
    ∧ CppVersion.Vehicle.calcFee ⟨['K'], ['o'], 0, .Truck, 0, 0⟩ 61 = 90
    ∧ CppVersion.Vehicle.calcFee ⟨['K'], ['o'], 0, .Truck, 0, 0⟩ (LONG_MAX - 58) = 60
    ∧ CppVersion.Vehicle.calcFee ⟨['K'], ['o'], 0, .Truck, 0, 0⟩ LONG_MAX = 60 := by
  decide

/-- C2, as amended. C++ variant, `Vehicle::calcFee`: for every vehicle (of
category Bike, Car or Truck) and all durations `0 ≤ d1 ≤ d2 ≤ LONG_MAX - 59`
in minutes, the greatest for which `d2 + 59` is a `long`, the fee at `d1` is
at most the fee at `d2`. -/
theorem cpp_calcFee_monotone (v : CppVersion.Vehicle) (d1 d2 : Int)
    (h0 : 0 ≤ d1) (h12 : d1 ≤ d2) (hmax : d2 ≤ LONG_MAX - 59) :
    v.calcFee d1 ≤ v.calcFee d2 := by
  have hmax2 : d2 ≤ 2 ^ 63 - 1 - 59 := hmax
  have hm := billed_hours_mono d1 d2 h12
  have h1 : (1 : Int) ≤ (if Int.tdiv (d1 + 59) 60 < 1 then 1 else Int.tdiv (d1 + 59) 60) := by
    split_ifs <;> omega
  obtain ⟨hfh0, hfh, hah, _⟩ := cpp_rates_bounds v
  unfold CppVersion.Vehicle.calcFee
  simp only []
  rw [wrapLong_of_range (d1 + 59) (by omega) (by omega),
    wrapLong_of_range (d2 + 59) (by omega) (by omega)]
  generalize (if Int.tdiv (d1 + 59) 60 < 1 then 1 else Int.tdiv (d1 + 59) 60) = a at hm h1
  generalize (if Int.tdiv (d2 + 59) 60 < 1 then 1 else Int.tdiv (d2 + 59) 60) = b at hm
  have hb0 : 0 ≤ toDouble (toDouble (b - 1) * v.rateAddHour) :=
    toDouble_nonneg _ (mul_nonneg (toDouble_nonneg _ (by omega)) hah)
  split_ifs with ha hb hb
  · exact le_rfl
  · have hfh1 : toDouble v.rateFirstHour = v.rateFirstHour :=
      toDouble_of_le _ hfh0 (by omega)
    calc v.rateFirstHour = toDouble v.rateFirstHour := hfh1.symm
      _ ≤ toDouble (v.rateFirstHour + toDouble (toDouble (b - 1) * v.rateAddHour)) :=
        toDouble_mono _ _ hfh0 (by omega)
  · omega
  · have ha0 : 0 ≤ toDouble (a - 1) := toDouble_nonneg _ (by omega)
    have hstep1 : toDouble (a - 1) ≤ toDouble (b - 1) := toDouble_mono _ _ (by omega) (by omega)
    have hstep2 : toDouble (a - 1) * v.rateAddHour ≤ toDouble (b - 1) * v.rateAddHour :=
      mul_le_mul_of_nonneg_right hstep1 hah
    have hstep3 : toDouble (toDouble (a - 1) * v.rateAddHour)
        ≤ toDouble (toDouble (b - 1) * v.rateAddHour) :=
      toDouble_mono _ _ (mul_nonneg ha0 hah) hstep2
    have ha1 : 0 ≤ toDouble (toDouble (a - 1) * v.rateAddHour) :=
      toDouble_nonneg _ (mul_nonneg ha0 hah)
    exact toDouble_mono _ _ (by omega) (by omega)

/-- Witness of C2 as amended: a Car parked 30 minutes pays no more than one
parked 200 minutes. -/
theorem cpp_calcFee_monotone_witness :
    (0 : Int) ≤ 30 ∧ (30 : Int) ≤ 200 ∧ (200 : Int) ≤ LONG_MAX - 59
    ∧ CppVersion.Vehicle.calcFee ⟨['K'], ['o'], 0, .Car, 0, 0⟩ 30
      ≤ CppVersion.Vehicle.calcFee ⟨['K'], ['o'], 0, .Car, 0, 0⟩ 200 :=
  ⟨by decide, by decide, by decide,
    cpp_calcFee_monotone _ 30 200 (by decide) (by decide) (by decide)⟩

/-- On a list sorted by a strict order, `findSome?` answers with the result of
an element before which, in that order, no element of the list answers. -/
theorem findSome_sorted_some {α β : Type} (lt : α → α → Prop) (hirr : ∀ a, ¬ lt a a)
    (hasym : ∀ a b, lt a b → ¬ lt b a)
    (body : α → Option β) (l : List α) (hl : l.Pairwise lt) (r : β)
    (h : l.findSome? body = some r) :
    ∃ i ∈ l, body i = some r ∧ ∀ j ∈ l, lt j i → body j = none := by
  induction l with
  | nil => simp at h
  | cons x xs ih =>
    rw [List.pairwise_cons] at hl
    rw [List.findSome?_cons] at h
    cases hx : body x with
    | some r' =>
      rw [hx] at h
      simp only [Option.some.injEq] at h
      subst h
      refine ⟨x, List.mem_cons_self _ _, hx, ?_⟩
      intro j hj hji
      rcases List.mem_cons.1 hj with rfl | hj
      · exact absurd hji (hirr _)
      · exact absurd hji (hasym _ _ (hl.1 j hj))
    | none =>
      rw [hx] at h
      obtain ⟨i, hi, hbi, hmin⟩ := ih hl.2 h
      refine ⟨i, List.mem_cons_of_mem _ hi, hbi, ?_⟩
      intro j hj hji
      rcases List.mem_cons.1 hj with rfl | hj
      · exact hx
      · exact hmin j hj hji

/-- A loop over `0 .. n-1` with early return ends without result exactly when
no iteration returns. -/
theorem findSome_finRange_none {n : Nat} {β : Type} (body : Fin n → Option β) :
    (List.finRange n).findSome? body = none ↔ ∀ i, body i = none := by
  rw [List.findSome?_eq_none_iff]
  constructor
  · intro h i
    exact h i (List.mem_finRange i)
  · intro h i _
    exact h i

/-- A loop over `0 .. n-1` with early return yields the result of the first
iteration that returns. -/
theorem findSome_finRange_some {n : Nat} {β : Type} (body : Fin n → Option β) (r : β)
    (h : (List.finRange n).findSome? body = some r) :
    ∃ i, body i = some r ∧ ∀ j, j < i → body j = none := by
  obtain ⟨i, _, hi, hmin⟩ := findSome_sorted_some (fun a b : Fin n => a < b)
    (fun a => lt_irrefl a) (fun a b hab => lt_asymm hab) body _
    (List.pairwise_lt_finRange n) r h
  exact ⟨i, hi, fun j hj => hmin j (List.mem_finRange j) hj⟩

/-- The nested scan over the grid ends without result exactly when no spot
answers. -/
theorem scan_none {β : Type} (body : Fin FLOORS → Fin SPOTS_PER_FLOOR → Option β) :
    ((List.finRange FLOORS).findSome? fun f =>
      (List.finRange SPOTS_PER_FLOOR).findSome? fun s => body f s) = none
    ↔ ∀ f s, body f s = none := by
  rw [findSome_finRange_none]
  constructor
  · intro h f s
    exact (findSome_finRange_none _).1 (h f) s
  · intro h f
    exact (findSome_finRange_none _).2 (h f)

/-- A result of the nested scan over the grid comes from a spot before which,
in lexicographic order, no spot answers. -/
theorem scan_some {β : Type} (body : Fin FLOORS → Fin SPOTS_PER_FLOOR → Option β) (r : β)
    (h : ((List.finRange FLOORS).findSome? fun f =>
      (List.finRange SPOTS_PER_FLOOR).findSome? fun s => body f s) = some r) :
    ∃ f s, body f s = some r ∧ ∀ q : Fin FLOORS × Fin SPOTS_PER_FLOOR,
      spotLt q (f, s) → body q.1 q.2 = none := by
  obtain ⟨f, hf, hfmin⟩ := findSome_finRange_some _ r h
  obtain ⟨s, hs, hsmin⟩ := findSome_finRange_some _ r hf
  refine ⟨f, s, hs, ?_⟩
  rintro ⟨f', s'⟩ hq
  rcases hq with hlt | ⟨heq, hlt⟩
  · exact (findSome_finRange_none _).1 (hfmin f' hlt) s'
  · simp only at heq hlt
    subst heq
    exact hsmin s' hlt

/-- C3. C variant, `find_nearest_spot`: the result is "none" exactly when
every spot of the grid is occupied; a returned spot is free and every spot
before it in lexicographic (floor, position) order is occupied. The function
only reads the grid (it returns no grid). -/
theorem c_find_nearest_spot_spec (lot : CVersion.ParkingLot) :
    (CVersion.find_nearest_spot lot = none ↔ ∀ f s, (lot f s).occupied = true)
    ∧ (∀ p, CVersion.find_nearest_spot lot = some p →
        (lot p.1 p.2).occupied = false
        ∧ ∀ q, spotLt q p → (lot q.1 q.2).occupied = true) := by
  constructor
  · unfold CVersion.find_nearest_spot
    rw [scan_none]
    constructor
    · intro h f s
      have := h f s
      by_contra hc
      simp [hc] at this
    · intro h f s
      simp [h f s]
  · intro p hp
    unfold CVersion.find_nearest_spot at hp
    obtain ⟨f, s, hfs, hmin⟩ := scan_some _ p hp
    by_cases hocc : (lot f s).occupied = true
    · simp [hocc] at hfs
    · simp only [hocc, Bool.false_eq_true, if_false, Option.some.injEq] at hfs
      subst hfs
      refine ⟨by simpa using hocc, ?_⟩
      intro q hq
      have := hmin q hq
      by_contra hc
      simp [hc] at this

/-- Witness of C3: in the sample grid, where only spot (0, 0) is occupied, the
nearest free spot is (0, 1). -/
theorem c_find_nearest_spot_spec_witness :
    CVersion.find_nearest_spot CVersion.sampleLot = some (0, 1)
    ∧ (CVersion.sampleLot 0 1).occupied = false
    ∧ ∀ q, spotLt q (0, 1) → (CVersion.sampleLot q.1 q.2).occupied = true :=
  ⟨by decide, (c_find_nearest_spot_spec CVersion.sampleLot).2 (0, 1) (by decide)⟩

/-- The C `find_vehicle` finds nothing exactly when no occupied spot holds
the license. -/
theorem c_find_vehicle_none_iff (lot : CVersion.ParkingLot) (license : Text) :
    CVersion.find_vehicle lot license = none
    ↔ ∀ f s v, (lot f s).occupied = true → (lot f s).vehicle = some v →
        v.license ≠ license := by
  unfold CVersion.find_vehicle
  rw [scan_none]
  constructor
  · intro h f s v hocc hv hl
    have := h f s
    simp [hocc, hv, hl] at this
  · intro h f s
    cases hocc : (lot f s).occupied with
    | false => rfl
    | true =>
      cases hv : (lot f s).vehicle with
      | none => rfl
      | some v =>
        simp only
        rw [if_neg (h f s v hocc hv)]

/-- A spot returned by the C `find_vehicle` is occupied by a vehicle with the
license, and no earlier spot in scan order is. -/
theorem c_find_vehicle_some (lot : CVersion.ParkingLot) (license : Text)
    (p : Fin FLOORS × Fin SPOTS_PER_FLOOR)
    (h : CVersion.find_vehicle lot license = some p) :
    (lot p.1 p.2).occupied = true
    ∧ (∃ v, (lot p.1 p.2).vehicle = some v ∧ v.license = license)
    ∧ ∀ q, spotLt q p → ∀ v, (lot q.1 q.2).occupied = true →
        (lot q.1 q.2).vehicle = some v → v.license ≠ license := by
  unfold CVersion.find_vehicle at h
  obtain ⟨f, s, hfs, hmin⟩ := scan_some _ p h
  cases hocc : (lot f s).occupied with
  | false => simp [hocc] at hfs
  | true =>
    cases hv : (lot f s).vehicle with
    | none => simp [hocc, hv] at hfs
    | some v =>
      simp only [hocc, hv] at hfs
      by_cases hl : v.license = license
      · rw [if_pos hl] at hfs
        simp only [Option.some.injEq] at hfs
        subst hfs
        refine ⟨hocc, ⟨v, hv, hl⟩, ?_⟩
        intro q hq w hqo hqv hql
        have := hmin q hq
        simp [hqo, hqv, hql] at this
      · rw [if_neg hl] at hfs
        simp at hfs

/-- C5. C variant, `park_vehicle`: when the category choice is valid and the
non-empty license is already held by an occupied spot, the entry fails with
the duplicate-vehicle message and the whole state (grid and files) is what
it was before the call. -/
theorem c_park_vehicle_duplicate (st : CVersion.State) (inp : CVersion.EntryInput)
    (now c : Int) (hchoice : inp.typeChoice = some c) (hvalid : c = 1 ∨ c = 2 ∨ c = 3)
    (hlic : inp.license ≠ [])
    (hheld : ∃ f s v, (st.parkingLot f s).occupied = true
      ∧ (st.parkingLot f s).vehicle = some v ∧ v.license = inp.license) :
    ∃ f s, CVersion.park_vehicle st inp now = (.alreadyParked f s, st) := by
  have hfind : CVersion.find_vehicle st.parkingLot inp.license ≠ none := by
    intro hnone
    obtain ⟨f, s, v, hocc, hv, hl⟩ := hheld
    exact (c_find_vehicle_none_iff _ _).1 hnone f s v hocc hv hl
  obtain ⟨t, ht⟩ : ∃ t, CVersion.parse_vehicle_type c = some t := by
    rcases hvalid with rfl | rfl | rfl
    · exact ⟨_, rfl⟩
    · exact ⟨_, rfl⟩
    · exact ⟨_, rfl⟩
  cases hf : CVersion.find_vehicle st.parkingLot inp.license with
  | none => exact absurd hf hfind
  | some p =>
    refine ⟨p.1, p.2, ?_⟩
    unfold CVersion.park_vehicle
    simp only [hchoice, ht, hlic, if_false, hf]

/-- Witness of C5: a second entry with the license `KA01` of the sample grid
is refused and changes nothing. -/
theorem c_park_vehicle_duplicate_witness :
    ∃ f s, CVersion.park_vehicle ⟨CVersion.sampleLot, sampleFiles⟩
      ⟨some 2, "KA01".toList, "eve".toList⟩ 2000
      = (.alreadyParked f s, ⟨CVersion.sampleLot, sampleFiles⟩) :=
  c_park_vehicle_duplicate ⟨CVersion.sampleLot, sampleFiles⟩
    ⟨some 2, "KA01".toList, "eve".toList⟩ 2000 2 rfl (by decide) (by decide)
    ⟨0, 0, CVersion.sampleVehicle "KA01".toList 0 0, rfl, rfl, rfl⟩

/-- C7. C variant, `exit_vehicle`: for a non-empty license that no occupied
spot holds, the exit fails with the not-found message and the whole state is
unchanged: the grid, the snapshot and the transaction log
(`append_transaction` is not reached). -/
theorem c_exit_vehicle_not_found (st : CVersion.State) (license : Text) (now : Int)
    (hlic : license ≠ [])
    (hfree : ∀ f s v, (st.parkingLot f s).occupied = true →
      (st.parkingLot f s).vehicle = some v → v.license ≠ license) :
    CVersion.exit_vehicle st license now = (.notFound, st) := by
  have hf := (c_find_vehicle_none_iff st.parkingLot license).2 hfree
  unfold CVersion.exit_vehicle
  simp only [hlic, if_false, hf]

/-- Witness of C7: the license `MH12` is not in the sample grid, so its exit
is refused and the state, transaction log included, stays as it was. -/
theorem c_exit_vehicle_not_found_witness :
    CVersion.exit_vehicle ⟨CVersion.sampleLot, sampleFiles⟩ "MH12".toList 2000
      = (.notFound, ⟨CVersion.sampleLot, sampleFiles⟩) :=
  c_exit_vehicle_not_found ⟨CVersion.sampleLot, sampleFiles⟩ "MH12".toList 2000
    (by decide)
    (by
      intro f s v hocc hv
      by_cases h : f = 0 ∧ s = 0
      · obtain ⟨rfl, rfl⟩ := h
        have : v = CVersion.sampleVehicle "KA01".toList 0 0 := by
          have h2 : (CVersion.sampleLot 0 0).vehicle
              = some (CVersion.sampleVehicle "KA01".toList 0 0) := rfl
          have hv2 : (CVersion.sampleLot 0 0).vehicle = some v := hv
          rw [h2] at hv2
          exact (Option.some.inj hv2).symm
        subst this
        decide
      · have h2 : CVersion.sampleLot f s = ⟨false, none⟩ := by
          unfold CVersion.sampleLot CVersion.setSpot
          rw [if_neg h]
          rfl
        have hocc2 : (CVersion.sampleLot f s).occupied = true := hocc
        rw [h2] at hocc2
        exact absurd hocc2 (by decide))

/-- The C++ `find_vehicle` finds nothing exactly when no occupied spot holds
the license. -/
theorem cpp_find_vehicle_none_iff (lot : CppVersion.Lot) (lic : Text) :
    CppVersion.find_vehicle lot lic = none
    ↔ ∀ f s v, (lot f s).occupied = true → (lot f s).vehicle = some v →
        v.license ≠ lic := by
  unfold CppVersion.find_vehicle
  rw [scan_none]
  constructor
  · intro h f s v hocc hv hl
    have := h f s
    simp [hocc, hv, hl] at this
  · intro h f s
    cases hocc : (lot f s).occupied with
    | false => rfl
    | true =>
      cases hv : (lot f s).vehicle with
      | none => rfl
      | some v =>
        simp only
        rw [if_neg (h f s v hocc hv)]

/-- A spot returned by the C++ `find_vehicle` is occupied by a vehicle with
the license, and no earlier spot in scan order is. -/
theorem cpp_find_vehicle_some (lot : CppVersion.Lot) (lic : Text)
    (p : Fin FLOORS × Fin SPOTS_PER_FLOOR)
    (h : CppVersion.find_vehicle lot lic = some p) :
    (lot p.1 p.2).occupied = true
    ∧ (∃ v, (lot p.1 p.2).vehicle = some v ∧ v.license = lic)
    ∧ ∀ q, spotLt q p → ∀ v, (lot q.1 q.2).occupied = true →
        (lot q.1 q.2).vehicle = some v → v.license ≠ lic := by
  unfold CppVersion.find_vehicle at h
  obtain ⟨f, s, hfs, hmin⟩ := scan_some _ p h
  cases hocc : (lot f s).occupied with
  | false => simp [hocc] at hfs
  | true =>
    cases hv : (lot f s).vehicle with
    | none => simp [hocc, hv] at hfs
    | some v =>
      simp only [hocc, hv] at hfs
      by_cases hl : v.license = lic
      · rw [if_pos hl] at hfs
        simp only [Option.some.injEq] at hfs
        subst hfs
        refine ⟨hocc, ⟨v, hv, hl⟩, ?_⟩
        intro q hq w hqo hqv hql
        have := hmin q hq
        simp [hqo, hqv, hql] at this
      · rw [if_neg hl] at hfs
        simp at hfs

/-- The C++ `find_nearest_spot` finds nothing exactly when every spot is
occupied. -/
theorem cpp_find_nearest_spot_none_iff (lot : CppVersion.Lot) :
    CppVersion.find_nearest_spot lot = none ↔ ∀ f s, (lot f s).occupied = true := by
  unfold CppVersion.find_nearest_spot
  rw [scan_none]
  constructor
  · intro h f s
    have := h f s
    by_contra hc
    simp [hc] at this
  · intro h f s
    simp [h f s]

/-- A spot returned by the C++ `find_nearest_spot` is free and every spot
before it in lexicographic order is occupied. -/
theorem cpp_find_nearest_spot_some (lot : CppVersion.Lot)
    (p : Fin FLOORS × Fin SPOTS_PER_FLOOR)
    (hp : CppVersion.find_nearest_spot lot = some p) :
    (lot p.1 p.2).occupied = false
    ∧ ∀ q, spotLt q p → (lot q.1 q.2).occupied = true := by
  unfold CppVersion.find_nearest_spot at hp
  obtain ⟨f, s, hfs, hmin⟩ := scan_some _ p hp
  by_cases hocc : (lot f s).occupied = true
  · simp [hocc] at hfs
  · simp only [hocc, Bool.false_eq_true, if_false, Option.some.injEq] at hfs
    subst hfs
    refine ⟨by simpa using hocc, ?_⟩
    intro q hq
    have := hmin q hq
    by_contra hc
    simp [hc] at this

/-- The C++ `save_state` leaves the grid as it is. -/
theorem cpp_save_state_lot (st : CppVersion.State) :
    (CppVersion.save_state st).2.lot = st.lot := by
  unfold CppVersion.save_state
  cases fopen_w st.files .parkingState <;> rfl

/-- Reading the C++ spot just assigned. -/
theorem cpp_setSpot_same (lot : CppVersion.Lot) (f : Fin FLOORS) (s : Fin SPOTS_PER_FLOOR)
    (sp : CppVersion.ParkingSpot) : CppVersion.setSpot lot f s sp f s = sp := by
  simp [CppVersion.setSpot]

/-- Reading another C++ spot than the one just assigned. -/
theorem cpp_setSpot_other (lot : CppVersion.Lot) (f f' : Fin FLOORS)
    (s s' : Fin SPOTS_PER_FLOOR) (sp : CppVersion.ParkingSpot) (h : ¬ (f' = f ∧ s' = s)) :
    CppVersion.setSpot lot f s sp f' s' = lot f' s' := by
  simp [CppVersion.setSpot, h]

/-- C4. C++ variant, `menu_entry`: on a grid with a free spot, a request with a
valid category choice, a non-empty license held by no occupied spot and a
non-empty owner succeeds; the assigned spot is free before the call and
every spot before it in lexicographic order is occupied; afterwards that
spot is occupied by the record with exactly the given license, owner,
category, the current time and the assigned floor and position, and every
other spot is unchanged. -/
theorem cpp_menu_entry_success (st : CppVersion.State) (inp : CppVersion.EntryInput)
    (now c : Int)
    (hfree : ∃ f s, (st.lot f s).occupied = false)
    (hchoice : inp.type = some c) (hvalid : c = 1 ∨ c = 2 ∨ c = 3)
    (hlic : inp.license ≠ [])
    (hnew : ∀ f s v, (st.lot f s).occupied = true → (st.lot f s).vehicle = some v →
      v.license ≠ inp.license)
    (hown : inp.owner ≠ []) :
    ∃ f s, (CppVersion.menu_entry st inp now).1 = .assigned f s now
      ∧ (st.lot f s).occupied = false
      ∧ (∀ q, spotLt q (f, s) → (st.lot q.1 q.2).occupied = true)
      ∧ (CppVersion.menu_entry st inp now).2.lot f s
          = ⟨true, some
              { license := inp.license
                owner := inp.owner
                entryTime := now
                type := if c = 1 then .Bike else if c = 2 then .Car else .Truck
                floor := (f.val : Int)
                spot := (s.val : Int) }⟩
      ∧ ∀ f' s', ¬ (f' = f ∧ s' = s) →
          (CppVersion.menu_entry st inp now).2.lot f' s' = st.lot f' s' := by
  have hfv := (cpp_find_vehicle_none_iff st.lot inp.license).2 hnew
  have hns : CppVersion.find_nearest_spot st.lot ≠ none := by
    intro hnone
    obtain ⟨f, s, hfs⟩ := hfree
    have := (cpp_find_nearest_spot_none_iff st.lot).1 hnone f s
    rw [hfs] at this
    exact absurd this (by decide)
  cases hp : CppVersion.find_nearest_spot st.lot with
  | none => exact absurd hp hns
  | some p =>
    obtain ⟨f, s⟩ := p
    obtain ⟨hpfree, hpmin⟩ := cpp_find_nearest_spot_some st.lot (f, s) hp
    obtain ⟨v0, hv0, hv0eq⟩ : ∃ v0, CppVersion.make_vehicle c inp.license inp.owner now = .ok v0
        ∧ v0 = { license := inp.license, owner := inp.owner, entryTime := now,
                 type := if c = 1 then .Bike else if c = 2 then .Car else .Truck,
                 floor := -1, spot := -1 } := by
      rcases hvalid with rfl | rfl | rfl
      · exact ⟨_, rfl, rfl⟩
      · exact ⟨_, rfl, rfl⟩
      · exact ⟨_, rfl, rfl⟩
    have hrun : CppVersion.menu_entry st inp now
        = (.assigned f s now, (CppVersion.save_state
            ⟨CppVersion.setSpot st.lot f s
                ⟨true, some (v0.setPosition (f.val : Int) (s.val : Int))⟩, st.files⟩).2) := by
      unfold CppVersion.menu_entry
      simp only [hchoice, CppVersion.ask_int, CppVersion.ask_str, hlic, hown, if_false, hfv,
        Option.isSome_none, Bool.false_eq_true, hp, hv0]
      rw [hv0eq]
      rfl
    refine ⟨f, s, ?_, hpfree, hpmin, ?_, ?_⟩
    · rw [hrun]
    · rw [hrun, cpp_save_state_lot]
      simp only [cpp_setSpot_same]
      rw [hv0eq]
      rfl
    · intro f' s' hne
      rw [hrun, cpp_save_state_lot]
      simp only [cpp_setSpot_other _ _ _ _ _ _ hne]

/-- C6. C++ variant, `menu_entry`: when every spot is occupied, a request with
a valid category choice, a non-empty license not in the grid and a
non-empty owner fails with the error "Parking full" and the whole state is
unchanged. -/
theorem cpp_menu_entry_full (st : CppVersion.State) (inp : CppVersion.EntryInput)
    (now c : Int)
    (hfull : ∀ f s, (st.lot f s).occupied = true)
    (hchoice : inp.type = some c) (_hvalid : c = 1 ∨ c = 2 ∨ c = 3)
    (hlic : inp.license ≠ [])
    (hnew : ∀ f s v, (st.lot f s).occupied = true → (st.lot f s).vehicle = some v →
      v.license ≠ inp.license)
    (hown : inp.owner ≠ []) :
    CppVersion.menu_entry st inp now = (.error "Parking full", st) := by
  have hfv := (cpp_find_vehicle_none_iff st.lot inp.license).2 hnew
  have hns := (cpp_find_nearest_spot_none_iff st.lot).2 hfull
  unfold CppVersion.menu_entry
  simp only [hchoice, CppVersion.ask_int, CppVersion.ask_str, hlic, hown, if_false, hfv,
    Option.isSome_none, Bool.false_eq_true, hns]

/-- Every vehicle of the sample C++ grid has the license `KA01` and stands at
spot (0, 0). -/
theorem cpp_sampleLot_held (f : Fin FLOORS) (s : Fin SPOTS_PER_FLOOR) (v : CppVersion.Vehicle)
    (hocc : (CppVersion.sampleLot f s).occupied = true)
    (_hv : (CppVersion.sampleLot f s).vehicle = some v) :
    (f = 0 ∧ s = 0) ∧ v = CppVersion.sampleVehicle := by
  by_cases h : f = 0 ∧ s = 0
  · obtain ⟨rfl, rfl⟩ := h
    have h2 : (CppVersion.sampleLot 0 0).vehicle = some CppVersion.sampleVehicle := rfl
    rw [h2] at _hv
    exact ⟨⟨rfl, rfl⟩, (Option.some.inj _hv).symm⟩
  · have h2 : CppVersion.sampleLot f s = ⟨false, none⟩ := by
      unfold CppVersion.sampleLot CppVersion.setSpot
      rw [if_neg h]
      rfl
    rw [h2] at hocc
    exact absurd hocc (by decide)

/-- Witness of C4: entering the Car `MH12` into the sample grid, where only
spot (0, 0) is taken, assigns spot (0, 1). -/
theorem cpp_menu_entry_success_witness :
    ∃ f s, (CppVersion.menu_entry ⟨CppVersion.sampleLot, sampleFiles⟩
        ⟨some 2, "MH12".toList, "eve".toList⟩ 2000).1 = .assigned f s 2000
      ∧ (CppVersion.sampleLot f s).occupied = false
      ∧ (∀ q, spotLt q (f, s) → (CppVersion.sampleLot q.1 q.2).occupied = true)
      ∧ (CppVersion.menu_entry ⟨CppVersion.sampleLot, sampleFiles⟩
          ⟨some 2, "MH12".toList, "eve".toList⟩ 2000).2.lot f s
          = ⟨true, some
              { license := "MH12".toList
                owner := "eve".toList
                entryTime := 2000
                type := .Car
                floor := (f.val : Int)
                spot := (s.val : Int) }⟩
      ∧ ∀ f' s', ¬ (f' = f ∧ s' = s) →
          (CppVersion.menu_entry ⟨CppVersion.sampleLot, sampleFiles⟩
            ⟨some 2, "MH12".toList, "eve".toList⟩ 2000).2.lot f' s'
            = CppVersion.sampleLot f' s' :=
  cpp_menu_entry_success ⟨CppVersion.sampleLot, sampleFiles⟩
    ⟨some 2, "MH12".toList, "eve".toList⟩ 2000 2 ⟨0, 1, rfl⟩ rfl (by decide) (by decide)
    (fun f s v hocc hv => by
      rw [(cpp_sampleLot_held f s v hocc hv).2]
      decide)
    (by decide)

/-- Witness of C6: the full sample grid refuses the new license `ZZ99` with
"Parking full" and keeps its state. -/
theorem cpp_menu_entry_full_witness :
    CppVersion.menu_entry ⟨CppVersion.fullLot, sampleFiles⟩
        ⟨some 2, "ZZ99".toList, "eve".toList⟩ 2000
      = (.error "Parking full", ⟨CppVersion.fullLot, sampleFiles⟩) :=
  cpp_menu_entry_full ⟨CppVersion.fullLot, sampleFiles⟩
    ⟨some 2, "ZZ99".toList, "eve".toList⟩ 2000 2 (fun _ _ => rfl) rfl (by decide) (by decide)
    (fun f s v _ hv => by
      have h2 : (CppVersion.fullLot f s).vehicle = some v := hv
      simp only [CppVersion.fullLot, Option.some.injEq] at h2
      subst h2
      intro hc
      have hc2 : ('L' :: Nat.toDigits 10 (20 * f.val + s.val)) = "ZZ99".toList := hc
      have h3 : "ZZ99".toList = ['Z', 'Z', '9', '9'] := by decide
      rw [h3] at hc2
      exact absurd (List.cons.inj hc2).1 (by decide))
    (by decide)

/-- The C++ `save_state` only touches the snapshot file. -/
theorem cpp_save_state_transactions (st : CppVersion.State) :
    (CppVersion.save_state st).2.files.transactions = st.files.transactions := by
  unfold CppVersion.save_state fopen_w
  by_cases hw : st.files.writable = true
  · simp only [hw, if_true]
    rfl
  · simp only [hw, if_false]
    rfl

/-- The C++ `append_txn` on a log that can be opened: the log becomes its
previous content, or the header when it did not exist, followed by the new
row. -/
theorem cpp_append_txn_log (fs : Files) (lic : Text) (t : CppVersion.VehicleType)
    (entry exitT durationMin fee : Int) (hw : fs.writable = true) :
    (CppVersion.append_txn fs lic t entry exitT durationMin fee).2.transactions
      = some (fs.transactions.getD TXN_HEADER
          ++ txn_row lic (CppVersion.typeCode t) entry exitT durationMin fee) := by
  unfold CppVersion.append_txn fopen_a fopen_r
  simp only [hw, if_true]
  cases htx : fs.transactions with
  | none => simp [Files.read, Files.write, fprintf, htx]
  | some c => simp [Files.read, Files.write, fprintf, htx]

/-- The minimum-one-minute duration does not depend on the rounding of the
division for a negative elapsed time. -/
theorem max_one_tdiv_eq (x : Int) : max 1 (Int.tdiv x 60) = max 1 (x / 60) := by
  by_cases h : 0 ≤ x
  · rw [Int.tdiv_eq_ediv h (by norm_num)]
  · have h1 : Int.tdiv x 60 ≤ 0 := by
      have : Int.tdiv x 60 = -(Int.tdiv (-x) 60) := by
        rw [Int.neg_tdiv, neg_neg]
      rw [this]
      have : 0 ≤ Int.tdiv (-x) 60 := Int.tdiv_nonneg (by omega) (by norm_num)
      omega
    have h2 : x / 60 ≤ 0 := by omega
    rw [max_eq_left (by omega), max_eq_left (by omega)]

/-- The row of the transaction log, written out: the six values separated by
commas, the category as its number, the fee with two decimals, and a line
feed. -/
theorem cpp_txn_row_text (L : Text) (t : CppVersion.VehicleType) (E N D fee : Int) :
    txn_row L (CppVersion.typeCode t) E N D fee
      = L ++ [','] ++ printInt (match t with | .Bike => 0 | .Car => 1 | .Truck => 2) ++ [',']
          ++ printInt E ++ [','] ++ printInt N ++ [','] ++ printInt D ++ [',']
          ++ printInt fee ++ ['.', '0', '0'] ++ ['\n'] := by
  unfold txn_row printFee CppVersion.typeCode
  cases t <;> simp only [List.append_assoc]

/-- Counterexample to C8 as stated, in three situations where a license is
parked at a spot and the exit does not do what the property says.
(1) The log cannot be opened: the Bike `KA01` of the sample grid leaves with
the receipt for 90 minutes and the fee 30 and its spot is freed, but no row
is appended; the log still does not exist.
(2) The license is held by two spots, as in the grid `load_state` builds
from a snapshot with two rows for `KA01`: with `KA01` parked at spot (0, 1)
as a Car entered at time 2000, the exit bills and frees the Bike at spot
(0, 0), the first spot in scan order; the row is that of the Bike and spot
(0, 1) stays occupied.
(3) The license is empty: the exit fails with "Empty input" and changes
nothing. -/
theorem cpp_menu_exit_spec_counterexample :
    -- a log that cannot be opened: receipt and freed spot, but no row
    ((CppVersion.sampleLot 0 0).occupied = true
      ∧ (CppVersion.sampleLot 0 0).vehicle = some CppVersion.sampleVehicle
      ∧ (CppVersion.menu_exit ⟨CppVersion.sampleLot, readOnlyFiles⟩ "KA01".toList 6400).1
          = .receipt "KA01".toList .Bike 1000 6400 90 30
      ∧ (CppVersion.menu_exit ⟨CppVersion.sampleLot, readOnlyFiles⟩ "KA01".toList 6400).2.lot 0 0
          = ⟨false, none⟩
      ∧ (CppVersion.menu_exit ⟨CppVersion.sampleLot, readOnlyFiles⟩
          "KA01".toList 6400).2.files.transactions = none)
    -- a license held twice
    ∧ (CppVersion.load_state ⟨CppVersion.emptyLot, twiceFiles⟩ = .done CppVersion.twiceLot
      ∧ (CppVersion.twiceLot 0 1).occupied = true
      ∧ (CppVersion.twiceLot 0 1).vehicle
          = some ⟨"KA01".toList, "eve".toList, 2000, .Car, 0, 1⟩
      ∧ (CppVersion.menu_exit ⟨CppVersion.twiceLot, sampleFiles⟩ "KA01".toList 6400).1
          = .receipt "KA01".toList .Bike 1000 6400 90 30
      ∧ (CppVersion.menu_exit ⟨CppVersion.twiceLot, sampleFiles⟩
          "KA01".toList 6400).2.files.transactions
          = some ("license,type,entryTime,exitTime,durationMin,fee\n".toList
              ++ "KA01,0,1000,6400,90,30.00\n".toList)
      ∧ (CppVersion.menu_exit ⟨CppVersion.twiceLot, sampleFiles⟩ "KA01".toList 6400).2.lot 0 1
          = CppVersion.twiceLot 0 1
      ∧ (CppVersion.menu_exit ⟨CppVersion.twiceLot, sampleFiles⟩ "KA01".toList 6400).2.lot 0 0
          = ⟨false, none⟩)
    -- the empty license
    ∧ ((CppVersion.unnamedLot 0 0).occupied = true
      ∧ (CppVersion.unnamedLot 0 0).vehicle
          = some ⟨[], "bob".toList, 1000, .Bike, 0, 0⟩
      ∧ (CppVersion.menu_exit ⟨CppVersion.unnamedLot, sampleFiles⟩ [] 6400).1
          = .error "Empty input"
      ∧ (CppVersion.menu_exit ⟨CppVersion.unnamedLot, sampleFiles⟩ [] 6400).2.lot 0 0
          = CppVersion.unnamedLot 0 0
      ∧ (CppVersion.menu_exit ⟨CppVersion.unnamedLot, sampleFiles⟩ [] 6400).2.files.transactions
          = none) := by
  refine ⟨⟨by decide, by decide, by decide, by decide, by decide⟩,
    ⟨by rfl, by decide, by decide, by decide, by decide, by decide, by decide⟩,
    ⟨by decide, by decide, by decide, by decide, by decide⟩⟩

/-- C8, as amended. C++ variant, `menu_exit`: when the non-empty license `L`
is parked at spot (f, s), and at no other spot, with category `c = v.type`
and entry time `E = v.entryTime`, the log can be opened for appending, and
the entry time `E` and the current time `N` are values of `time_t` that lie
at most `2^53` seconds apart (where the `double` of `difftime` is the exact
difference), the exit issues the receipt and appends exactly one row
`L,c,E,N,D,fee` to the log (after the header when the log did not exist): the
license, the number of the category (0 for Bike, 1 for Car, 2 for Truck), the
two times and `D` in decimal, and the fee with two decimals, separated by
commas and ended by a line feed, where `D = max 1 ((N - E) div 60)` and
`fee = calcFee D`; afterwards spot (f, s) is free and every other spot is
unchanged. -/
theorem cpp_menu_exit_spec (st : CppVersion.State) (L : Text) (f : Fin FLOORS)
    (s : Fin SPOTS_PER_FLOOR) (v : CppVersion.Vehicle) (N : Int)
    (hL : L ≠ [])
    (hocc : (st.lot f s).occupied = true) (hv : (st.lot f s).vehicle = some v)
    (hvl : v.license = L)
    (huniq : ∀ f' s' v', (st.lot f' s').occupied = true → (st.lot f' s').vehicle = some v' →
      v'.license = L → f' = f ∧ s' = s)
    (hw : st.files.writable = true)
    (_ht : ExactTime v.entryTime N) :
    (CppVersion.menu_exit st L N).1
        = .receipt L v.type v.entryTime N (max 1 ((N - v.entryTime) / 60))
            (v.calcFee (max 1 ((N - v.entryTime) / 60)))
    ∧ (CppVersion.menu_exit st L N).2.files.transactions
        = some (st.files.transactions.getD
              "license,type,entryTime,exitTime,durationMin,fee\n".toList
            ++ (L ++ [',']
              ++ printInt (match v.type with | .Bike => 0 | .Car => 1 | .Truck => 2) ++ [',']
              ++ printInt v.entryTime ++ [','] ++ printInt N ++ [',']
              ++ printInt (max 1 ((N - v.entryTime) / 60)) ++ [',']
              ++ printInt (v.calcFee (max 1 ((N - v.entryTime) / 60))) ++ ['.', '0', '0']
              ++ ['\n']))
    ∧ (CppVersion.menu_exit st L N).2.lot f s = ⟨false, none⟩
    ∧ ∀ f' s', ¬ (f' = f ∧ s' = s) →
        (CppVersion.menu_exit st L N).2.lot f' s' = st.lot f' s' := by
  have hfind : CppVersion.find_vehicle st.lot L = some (f, s) := by
    cases hp : CppVersion.find_vehicle st.lot L with
    | none => exact absurd hvl ((cpp_find_vehicle_none_iff st.lot L).1 hp f s v hocc hv)
    | some p =>
      obtain ⟨hpo, ⟨w, hpw, hwl⟩, _⟩ := cpp_find_vehicle_some st.lot L p hp
      obtain ⟨h1, h2⟩ := huniq p.1 p.2 w hpo hpw hwl
      rw [← h1, ← h2]
  have hrun : CppVersion.menu_exit st L N
      = (.receipt v.license v.type v.entryTime N (max 1 (Int.tdiv (N - v.entryTime) 60))
            (v.calcFee (max 1 (Int.tdiv (N - v.entryTime) 60))),
          (CppVersion.save_state
            ⟨CppVersion.setSpot st.lot f s ⟨false, none⟩,
              (CppVersion.append_txn st.files v.license v.type v.entryTime N
                (max 1 (Int.tdiv (N - v.entryTime) 60))
                (v.calcFee (max 1 (Int.tdiv (N - v.entryTime) 60)))).2⟩).2) := by
    unfold CppVersion.menu_exit
    simp only [CppVersion.ask_str, hL, if_false, hfind, hv, CppVersion.durationMin]
  rw [hrun, max_one_tdiv_eq, hvl]
  refine ⟨rfl, ?_, ?_, ?_⟩
  · rw [cpp_save_state_transactions, ← cpp_txn_row_text]
    exact cpp_append_txn_log st.files L v.type v.entryTime N _ _ hw
  · rw [cpp_save_state_lot]
    exact cpp_setSpot_same _ _ _ _
  · intro f' s' hne
    rw [cpp_save_state_lot]
    exact cpp_setSpot_other _ _ _ _ _ _ hne

/-- Witness of C8 as amended: the Bike `KA01` of the sample grid entered at
time 1000 and leaves at 6400, 90 minutes later: the duration is 90 and the fee
30, the log is the header followed by the row `KA01,0,1000,6400,90,30.00`, and
spot (0, 0) is free. -/
theorem cpp_menu_exit_spec_witness :
    ExactTime 1000 6400
    ∧ (CppVersion.menu_exit ⟨CppVersion.sampleLot, sampleFiles⟩ "KA01".toList 6400).1
        = .receipt "KA01".toList .Bike 1000 6400 90 30
    ∧ (CppVersion.menu_exit ⟨CppVersion.sampleLot, sampleFiles⟩ "KA01".toList 6400).2.files.transactions
        = some ("license,type,entryTime,exitTime,durationMin,fee\n".toList
            ++ "KA01,0,1000,6400,90,30.00\n".toList)
    ∧ (CppVersion.menu_exit ⟨CppVersion.sampleLot, sampleFiles⟩ "KA01".toList 6400).2.lot 0 0
        = ⟨false, none⟩
    ∧ ∀ f' s', ¬ (f' = 0 ∧ s' = 0) →
        (CppVersion.menu_exit ⟨CppVersion.sampleLot, sampleFiles⟩ "KA01".toList 6400).2.lot f' s'
          = CppVersion.sampleLot f' s' :=
  ⟨by unfold ExactTime InLong; decide,
    cpp_menu_exit_spec ⟨CppVersion.sampleLot, sampleFiles⟩ "KA01".toList 0 0
      CppVersion.sampleVehicle 6400 (by decide) rfl rfl rfl
      (fun f' s' v' hocc hv _ => (cpp_sampleLot_held f' s' v' hocc hv).1) rfl
      (by unfold ExactTime InLong; decide)⟩

/-- The grid after the C++ `menu_entry` is the grid before, or the grid before
with one spot newly bound to a vehicle whose license `find_vehicle` did not
find. -/
theorem cpp_menu_entry_lot (st : CppVersion.State) (inp : CppVersion.EntryInput) (now : Int) :
    (CppVersion.menu_entry st inp now).2.lot = st.lot
    ∨ ∃ f s v, CppVersion.find_vehicle st.lot v.license = none
        ∧ (CppVersion.menu_entry st inp now).2.lot
            = CppVersion.setSpot st.lot f s ⟨true, some v⟩ := by
  unfold CppVersion.menu_entry
  split
  · left; rfl
  · split
    · left; rfl
    · rename_i lic hlic
      split
      · left; rfl
      · rename_i hnot
        split
        · left; rfl
        · split
          · left; rfl
          · rename_i f s hp
            split
            · left; rfl
            · rename_i v0 hv0
              right
              refine ⟨f, s, v0.setPosition (f.val : Int) (s.val : Int), ?_, ?_⟩
              · have hl : (v0.setPosition (f.val : Int) (s.val : Int)).license = lic := by
                  unfold CppVersion.make_vehicle at hv0
                  split_ifs at hv0 <;> (injection hv0 with hv0; subst hv0; rfl)
                rw [hl]
                cases hfv : CppVersion.find_vehicle st.lot lic with
                | none => rfl
                | some p => rw [hfv] at hnot; simp at hnot
              · rw [cpp_save_state_lot]

/-- The grid after the C++ `menu_exit` is the grid before, or the grid before
with one spot released. -/
theorem cpp_menu_exit_lot (st : CppVersion.State) (line : Text) (now : Int) :
    (CppVersion.menu_exit st line now).2.lot = st.lot
    ∨ ∃ f s, (CppVersion.menu_exit st line now).2.lot
        = CppVersion.setSpot st.lot f s ⟨false, none⟩ := by
  unfold CppVersion.menu_exit
  split
  · left; rfl
  · split
    · left; rfl
    · rename_i f s hp
      split
      · left; rfl
      · right
        exact ⟨f, s, by rw [cpp_save_state_lot]⟩

/-- The empty grid satisfies the invariant. -/
theorem cpp_invariant_empty : CppVersion.GridInvariant CppVersion.emptyLot := by
  constructor
  · intro f s
    simp [CppVersion.emptyLot]
  · intro f s f' s' v v' hocc
    simp [CppVersion.emptyLot] at hocc

/-- Binding a vehicle with a license that no occupied spot holds keeps the
invariant. -/
theorem cpp_invariant_occupy (lot : CppVersion.Lot) (f : Fin FLOORS) (s : Fin SPOTS_PER_FLOOR)
    (v : CppVersion.Vehicle) (hinv : CppVersion.GridInvariant lot)
    (hnew : CppVersion.find_vehicle lot v.license = none) :
    CppVersion.GridInvariant (CppVersion.setSpot lot f s ⟨true, some v⟩) := by
  have hno := (cpp_find_vehicle_none_iff lot v.license).1 hnew
  constructor
  · intro a b
    by_cases h : a = f ∧ b = s
    · obtain ⟨rfl, rfl⟩ := h
      rw [cpp_setSpot_same]
      simp
    · rw [cpp_setSpot_other _ _ _ _ _ _ h]
      exact hinv.1 a b
  · intro a b a' b' w w' ho hw ho' hw' hl
    by_cases h : a = f ∧ b = s
    · by_cases h' : a' = f ∧ b' = s
      · exact ⟨h.1.trans h'.1.symm, h.2.trans h'.2.symm⟩
      · obtain ⟨rfl, rfl⟩ := h
        rw [cpp_setSpot_same] at hw
        rw [cpp_setSpot_other _ _ _ _ _ _ h'] at ho' hw'
        simp only [Option.some.injEq] at hw
        subst hw
        exact absurd hl.symm (hno a' b' w' ho' hw')
    · by_cases h' : a' = f ∧ b' = s
      · obtain ⟨rfl, rfl⟩ := h'
        rw [cpp_setSpot_same] at hw'
        rw [cpp_setSpot_other _ _ _ _ _ _ h] at ho hw
        simp only [Option.some.injEq] at hw'
        subst hw'
        exact absurd hl (hno a b w ho hw)
      · rw [cpp_setSpot_other _ _ _ _ _ _ h] at ho hw
        rw [cpp_setSpot_other _ _ _ _ _ _ h'] at ho' hw'
        exact hinv.2 a b a' b' w w' ho hw ho' hw' hl

/-- Releasing a spot keeps the invariant. -/
theorem cpp_invariant_release (lot : CppVersion.Lot) (f : Fin FLOORS) (s : Fin SPOTS_PER_FLOOR)
    (hinv : CppVersion.GridInvariant lot) :
    CppVersion.GridInvariant (CppVersion.setSpot lot f s ⟨false, none⟩) := by
  constructor
  · intro a b
    by_cases h : a = f ∧ b = s
    · obtain ⟨rfl, rfl⟩ := h
      rw [cpp_setSpot_same]
      simp
    · rw [cpp_setSpot_other _ _ _ _ _ _ h]
      exact hinv.1 a b
  · intro a b a' b' w w' ho hw ho' hw' hl
    by_cases h : a = f ∧ b = s
    · obtain ⟨rfl, rfl⟩ := h
      rw [cpp_setSpot_same] at ho
      exact absurd ho (by decide)
    · by_cases h' : a' = f ∧ b' = s
      · obtain ⟨rfl, rfl⟩ := h'
        rw [cpp_setSpot_same] at ho'
        exact absurd ho' (by decide)
      · rw [cpp_setSpot_other _ _ _ _ _ _ h] at ho hw
        rw [cpp_setSpot_other _ _ _ _ _ _ h'] at ho' hw'
        exact hinv.2 a b a' b' w w' ho hw ho' hw' hl

/-- Every operation keeps the invariant. -/
theorem cpp_invariant_step (st : CppVersion.State) (op : CppVersion.Op)
    (hinv : CppVersion.GridInvariant st.lot) :
    CppVersion.GridInvariant (CppVersion.step st op).lot := by
  cases op with
  | entry inp now =>
    rcases cpp_menu_entry_lot st inp now with h | ⟨f, s, v, hnew, h⟩
    · simp only [CppVersion.step, h]; exact hinv
    · simp only [CppVersion.step, h]; exact cpp_invariant_occupy _ _ _ _ hinv hnew
  | exit line now =>
    rcases cpp_menu_exit_lot st line now with h | ⟨f, s, h⟩
    · simp only [CppVersion.step, h]; exact hinv
    · simp only [CppVersion.step, h]; exact cpp_invariant_release _ _ _ hinv

/-- Every sequence of operations keeps the invariant. -/
theorem cpp_invariant_run (ops : List CppVersion.Op) (st : CppVersion.State)
    (hinv : CppVersion.GridInvariant st.lot) :
    CppVersion.GridInvariant (CppVersion.run st ops).lot := by
  induction ops generalizing st with
  | nil => exact hinv
  | cons op ops ih =>
    simp only [CppVersion.run, List.foldl_cons]
    exact ih _ (cpp_invariant_step st op hinv)

/-- C10. C++ variant, grid invariant: in the grid reached from the all-free
grid by any finite sequence of `menu_entry` and `menu_exit` calls, whatever
they read and whether they succeed or fail, (i) a spot has `occupied = true`
exactly when it owns a vehicle record, and (ii) no license is held by two
different occupied spots. -/
theorem cpp_grid_invariant (files : Files) (ops : List CppVersion.Op) :
    (∀ f s, ((CppVersion.run ⟨CppVersion.emptyLot, files⟩ ops).lot f s).occupied = true
        ↔ ((CppVersion.run ⟨CppVersion.emptyLot, files⟩ ops).lot f s).vehicle.isSome = true)
    ∧ ∀ f s f' s' v v',
        ((CppVersion.run ⟨CppVersion.emptyLot, files⟩ ops).lot f s).occupied = true →
        ((CppVersion.run ⟨CppVersion.emptyLot, files⟩ ops).lot f s).vehicle = some v →
        ((CppVersion.run ⟨CppVersion.emptyLot, files⟩ ops).lot f' s').occupied = true →
        ((CppVersion.run ⟨CppVersion.emptyLot, files⟩ ops).lot f' s').vehicle = some v' →
        v.license = v'.license → f = f' ∧ s = s' :=
  cpp_invariant_run ops ⟨CppVersion.emptyLot, files⟩ cpp_invariant_empty

/-- The decimal digit characters: each is a digit and has the value it
stands for. -/
theorem digitChar_spec (d : Nat) (h : d < 10) :
    (Nat.digitChar d).isDigit = true ∧ (Nat.digitChar d).toNat - 48 = d := by
  interval_cases d <;> decide

/-- Every character `Nat.toDigitsCore` puts in front of the accumulator is a
decimal digit. -/
theorem toDigitsCore_isDigit (fuel n : Nat) (ds : List Char)
    (hds : ∀ c ∈ ds, c.isDigit = true) :
    ∀ c ∈ Nat.toDigitsCore 10 fuel n ds, c.isDigit = true := by
  induction fuel generalizing n ds with
  | zero => simpa [Nat.toDigitsCore] using hds
  | succ fuel ih =>
    have hd := (digitChar_spec (n % 10) (Nat.mod_lt _ (by norm_num))).1
    have hcons : ∀ c ∈ Nat.digitChar (n % 10) :: ds, c.isDigit = true := by
      intro c hc
      rcases List.mem_cons.1 hc with rfl | hc
      · exact hd
      · exact hds c hc
    simp only [Nat.toDigitsCore]
    split_ifs
    · exact hcons
    · exact ih _ _ hcons

/-- The value of a run of digits, as the digit loop of `atoi` accumulates it. -/
theorem digitsVal_append (l rest : List Char) (acc : Nat)
    (hl : ∀ c ∈ l, c.isDigit = true) :
    digitsVal acc (l ++ rest)
      = digitsVal (l.foldl (fun a c => a * 10 + (c.toNat - 48)) acc) rest := by
  induction l generalizing acc with
  | nil => rfl
  | cons c cs ih =>
    have hc := hl c (List.mem_cons_self _ _)
    simp only [List.cons_append, digitsVal, hc, if_true, List.foldl_cons]
    exact ih _ (fun x hx => hl x (List.mem_cons_of_mem _ hx))

/-- Read as a decimal numeral, the output of `Nat.toDigitsCore` with enough
fuel continues the number `n` with the accumulated digits. -/
theorem toDigitsCore_value (fuel n : Nat) (ds : List Char) (h : n < fuel) :
    (Nat.toDigitsCore 10 fuel n ds).foldl (fun a c => a * 10 + (c.toNat - 48)) 0
      = ds.foldl (fun a c => a * 10 + (c.toNat - 48)) n := by
  induction fuel generalizing n ds with
  | zero => omega
  | succ fuel ih =>
    have hd := (digitChar_spec (n % 10) (Nat.mod_lt _ (by norm_num))).2
    simp only [Nat.toDigitsCore]
    split_ifs with h0
    · simp only [List.foldl_cons, hd]
      have : n = n % 10 := by omega
      rw [Nat.zero_mul, Nat.zero_add, ← this]
    · rw [ih (n / 10) _ (by omega)]
      simp only [List.foldl_cons, hd]
      have : n / 10 * 10 + n % 10 = n := by omega
      rw [this]

/-- With fuel left, or digits already accumulated, `Nat.toDigitsCore` yields at
least one character. -/
theorem toDigitsCore_ne_nil (fuel n : Nat) (ds : List Char) (h : ds ≠ [] ∨ 0 < fuel) :
    Nat.toDigitsCore 10 fuel n ds ≠ [] := by
  induction fuel generalizing n ds with
  | zero =>
    rcases h with h | h
    · simpa [Nat.toDigitsCore] using h
    · omega
  | succ fuel ih =>
    simp only [Nat.toDigitsCore]
    split_ifs
    · simp
    · exact ih _ _ (Or.inl (by simp))

/-- The digit loop of `atoi` reads back the decimal digits of `n`, up to a
following character that is not a digit. -/
theorem digitsVal_toDigits (n : Nat) (rest : List Char)
    (hrest : ∀ c cs, rest = c :: cs → c.isDigit = false) :
    digitsVal 0 (Nat.toDigits 10 n ++ rest) = n := by
  unfold Nat.toDigits
  rw [digitsVal_append _ _ _ (toDigitsCore_isDigit _ _ _ (by simp))]
  rw [toDigitsCore_value _ _ _ (by omega)]
  simp only [List.foldl_nil]
  cases rest with
  | nil => rfl
  | cons c cs => simp [digitsVal, hrest c cs rfl]

/-- A printed integer is a non-empty run of digits, after `-` for a
negative number. -/
theorem printInt_chars (i : Int) :
    printInt i ≠ [] ∧ ∀ c ∈ printInt i, c = '-' ∨ c.isDigit = true := by
  unfold printInt
  split_ifs
  · refine ⟨by simp, ?_⟩
    intro c hc
    rcases List.mem_cons.1 hc with rfl | hc
    · exact Or.inl rfl
    · exact Or.inr (toDigitsCore_isDigit _ _ _ (by simp) c hc)
  · refine ⟨toDigitsCore_ne_nil _ _ _ (Or.inr (by omega)), ?_⟩
    intro c hc
    exact Or.inr (toDigitsCore_isDigit _ _ _ (by simp) c hc)

/-- The function `atol` reads back a printed integer, up to a following
character that is not a digit. -/
theorem atol_printInt (i : Int) (rest : List Char)
    (hrest : ∀ c cs, rest = c :: cs → c.isDigit = false) :
    atol (printInt i ++ rest) = i := by
  unfold printInt
  split_ifs with hneg
  · have : atol ('-' :: Nat.toDigits 10 i.natAbs ++ rest)
        = -((digitsVal 0 (Nat.toDigits 10 i.natAbs ++ rest) : Nat) : Int) := rfl
    rw [this, digitsVal_toDigits _ _ hrest]
    omega
  · have hne : Nat.toDigits 10 i.toNat ≠ [] := toDigitsCore_ne_nil _ _ _ (Or.inr (by omega))
    have hdig := toDigitsCore_isDigit (i.toNat + 1) i.toNat [] (by simp)
    obtain ⟨c, cs, hcs⟩ : ∃ c cs, Nat.toDigits 10 i.toNat = c :: cs := by
      cases h : Nat.toDigits 10 i.toNat with
      | nil => exact absurd h hne
      | cons c cs => exact ⟨c, cs, rfl⟩
    have hc : c.isDigit = true := hdig c (by
      have : c ∈ Nat.toDigits 10 i.toNat := by rw [hcs]; exact List.mem_cons_self _ _
      exact this)
    have hval := digitsVal_toDigits i.toNat rest hrest
    rw [hcs] at hval ⊢
    have hsp : isspace c = false := by
      by_contra hsp
      have hsp : isspace c = true := by simpa using hsp
      simp only [isspace, Bool.or_eq_true, decide_eq_true_eq] at hsp
      rcases hsp with ((((rfl | rfl) | rfl) | rfl) | rfl) | rfl <;> simp at hc
    have hm : c ≠ '-' := by rintro rfl; simp at hc
    have hp : c ≠ '+' := by rintro rfl; simp at hc
    unfold atol
    simp only [List.cons_append, List.dropWhile_cons, hsp]
    split
    · rename_i t heq
      simp only [Bool.false_eq_true, if_false, List.cons.injEq] at heq
      exact absurd heq.1 hm
    · rename_i t heq
      simp only [Bool.false_eq_true, if_false, List.cons.injEq] at heq
      exact absurd heq.1 hp
    · simp only [Bool.false_eq_true, if_false]
      simp only [List.cons_append] at hval
      rw [hval]
      omega

/-- A printed `long` has at most 20 characters. -/
theorem printInt_length (i : Int) (h : -2 ^ 63 ≤ i ∧ i < 2 ^ 63) :
    (printInt i).length ≤ 20 := by
  unfold printInt
  split_ifs
  · have := Nat.toDigitsCore_length 10 (by norm_num) (i.natAbs + 1) i.natAbs 19
      (by have : (10 : Nat) ^ 19 = 10000000000000000000 := by norm_num
          omega) (by norm_num)
    simp only [List.length_cons, Nat.toDigits]
    omega
  · have := Nat.toDigitsCore_length 10 (by norm_num) (i.toNat + 1) i.toNat 19
      (by have : (10 : Nat) ^ 19 = 10000000000000000000 := by norm_num
          omega) (by norm_num)
    simp only [Nat.toDigits]
    omega

/-- Function `strtok` on a non-empty field free of delimiters that is
followed by a delimiter: the field, and the text after the delimiter. -/
theorem strtok_field (delim : List Char) (tok rest : Text) (d : Char)
    (hne : tok ≠ []) (htok : ∀ c ∈ tok, c ∉ delim) (hd : d ∈ delim) :
    strtok delim (tok ++ d :: rest) = some (tok, rest) := by
  have htake : ∀ t : Text, (∀ c ∈ t, c ∉ delim) →
      (t ++ d :: rest).takeWhile (fun c => !decide (c ∈ delim)) = t
      ∧ (t ++ d :: rest).dropWhile (fun c => !decide (c ∈ delim)) = d :: rest := by
    intro t ht
    induction t with
    | nil => simp [List.takeWhile, List.dropWhile, hd]
    | cons c cs ih =>
      have hc : c ∉ delim := ht c (List.mem_cons_self _ _)
      have := ih (fun x hx => ht x (List.mem_cons_of_mem _ hx))
      simp [List.takeWhile, List.dropWhile, hc, this.1, this.2]
  cases tok with
  | nil => exact absurd rfl hne
  | cons c cs =>
    have hc : c ∉ delim := htok c (List.mem_cons_self _ _)
    have h1 : (c :: cs ++ d :: rest).dropWhile (fun c => decide (c ∈ delim))
        = c :: (cs ++ d :: rest) := by
      simp [List.dropWhile, hc]
    unfold strtok
    rw [h1]
    have := htake (c :: cs) htok
    simp only [List.cons_append] at this
    simp only [this.1, this.2, List.drop_one, List.tail_cons]

/-- The reading loop of `fgets` on a line that fits: the line with its
newline, and the rest of the stream. -/
theorem fgetsAux_line (k : Nat) (body rest : Text) (hbody : ∀ c ∈ body, c ≠ '\n')
    (hlen : body.length < k) :
    fgetsAux k (body ++ '\n' :: rest) = (body ++ ['\n'], rest) := by
  induction body generalizing k with
  | nil =>
    cases k with
    | zero => simp at hlen
    | succ k => simp [fgetsAux]
  | cons c cs ih =>
    cases k with
    | zero => simp at hlen
    | succ k =>
      have hc : c ≠ '\n' := hbody c (List.mem_cons_self _ _)
      have := ih k (fun x hx => hbody x (List.mem_cons_of_mem _ hx))
        (by simpa using hlen)
      simp [fgetsAux, hc, this]

/-- Function `fgets` with a 512-byte buffer on a line of at most 510
characters before its newline. -/
theorem fgets_line (body rest : Text) (hbody : ∀ c ∈ body, c ≠ '\n')
    (hlen : body.length < 511) :
    fgets 512 (body ++ '\n' :: rest) = some (body ++ ['\n'], rest) := by
  have := fgetsAux_line 511 body rest hbody hlen
  cases body with
  | nil =>
    simp only [List.nil_append] at this ⊢
    simp only [fgets, Nat.add_one_sub_one, this]
  | cons c cs =>
    simp only [List.cons_append] at this ⊢
    simp only [fgets, Nat.add_one_sub_one, this]

/-- A successful `fgets` consumes at least one character. -/
theorem fgetsAux_rest_length (k : Nat) (c : Char) (cs : Text) :
    (fgetsAux (k + 1) (c :: cs)).2.length ≤ cs.length := by
  induction k generalizing c cs with
  | zero =>
    simp only [fgetsAux]
    split_ifs <;> simp [fgetsAux]
  | succ k ih =>
    simp only [fgetsAux]
    split_ifs
    · simp
    · cases cs with
      | nil => simp [fgetsAux]
      | cons c' cs' =>
        have := ih c' cs'
        simp only [List.length_cons] at this ⊢
        omega

/-- No character of a printed integer is a comma, a carriage return or a
line feed. -/
theorem printInt_noSeparator (i : Int) : NoSeparator (printInt i) := by
  intro c hc
  rcases (printInt_chars i).2 c hc with rfl | hd
  · decide
  · refine ⟨?_, ?_, ?_⟩ <;> (rintro rfl; simp at hd)

/-- A text without separators holds no delimiter of the first five `strtok`
calls. -/
theorem noSeparator_not_mem_comma (t : Text) (h : NoSeparator t) :
    ∀ c ∈ t, c ∉ [','] := by
  intro c hc
  simp [(h c hc).1]

/-- A text without separators holds no delimiter of the last `strtok` call. -/
theorem noSeparator_not_mem_eol (t : Text) (h : NoSeparator t) :
    ∀ c ∈ t, c ∉ [',', '\r', '\n'] := by
  intro c hc
  simp [(h c hc).1, (h c hc).2.1, (h c hc).2.2]

/-- Function `atoi` reads back a printed integer. -/
theorem atoi_printInt (i : Int) : atoi (printInt i) = i := by
  have := atol_printInt i [] (by simp)
  rwa [List.append_nil] at this

/-- A good text field passes `strncpy` to its buffer and the CR/LF trimming
unchanged. -/
theorem cutAtEol_strncpy (n : Nat) (t : Text) (h : GoodField n t) :
    CVersion.cutAtEol (strncpy t n) = t := by
  obtain ⟨_, hlen, hsep⟩ := h
  unfold strncpy CVersion.cutAtEol
  rw [List.take_of_length_le hlen]
  rw [List.takeWhile_eq_self_iff]
  intro c hc
  simp [(hsep c hc).2.1, (hsep c hc).2.2]

/-- The tokenising part of `load_parking_state` reads back the six fields of
the snapshot row of a good vehicle. -/
theorem c_parse_row_state_row (v : CVersion.Vehicle) (hv : CVersion.GoodVehicle v) :
    CVersion.parse_row (CVersion.state_row v)
      = some (v.floor, v.spot, v.license, v.owner, v.type, v.entryTime) := by
  obtain ⟨hl, ho, _, _, _, _⟩ := hv
  have hrow : CVersion.state_row v
      = printInt v.floor ++ ',' :: (printInt v.spot ++ ',' :: (v.license ++ ',' ::
          (v.owner ++ ',' :: (printInt v.type ++ ',' :: (printInt v.entryTime ++ '\n' :: [])))))
      := by
    simp [CVersion.state_row, List.append_assoc]
  have t1 := strtok_field [','] (printInt v.floor)
    (printInt v.spot ++ ',' :: (v.license ++ ',' ::
          (v.owner ++ ',' :: (printInt v.type ++ ',' :: (printInt v.entryTime ++ '\n' :: [])))))
    ',' (printInt_chars _).1 (noSeparator_not_mem_comma _ (printInt_noSeparator _)) (by simp)
  have t2 := strtok_field [','] (printInt v.spot)
    (v.license ++ ',' ::
          (v.owner ++ ',' :: (printInt v.type ++ ',' :: (printInt v.entryTime ++ '\n' :: []))))
    ',' (printInt_chars _).1 (noSeparator_not_mem_comma _ (printInt_noSeparator _)) (by simp)
  have t3 := strtok_field [','] v.license
    (v.owner ++ ',' :: (printInt v.type ++ ',' :: (printInt v.entryTime ++ '\n' :: [])))
    ',' hl.1 (noSeparator_not_mem_comma _ hl.2.2) (by simp)
  have t4 := strtok_field [','] v.owner
    (printInt v.type ++ ',' :: (printInt v.entryTime ++ '\n' :: []))
    ',' ho.1 (noSeparator_not_mem_comma _ ho.2.2) (by simp)
  have t5 := strtok_field [','] (printInt v.type)
    (printInt v.entryTime ++ '\n' :: [])
    ',' (printInt_chars _).1 (noSeparator_not_mem_comma _ (printInt_noSeparator _)) (by simp)
  have t6 := strtok_field [',', '\r', '\n'] (printInt v.entryTime) []
    '\n' (printInt_chars _).1 (noSeparator_not_mem_eol _ (printInt_noSeparator _)) (by simp)
  unfold CVersion.parse_row
  rw [hrow]
  simp only [t1, t2, t3, t4, t5, t6, atoi_printInt, cutAtEol_strncpy _ _ hl,
    cutAtEol_strncpy _ _ ho]
  have := atol_printInt v.entryTime [] (by simp)
  rw [List.append_nil] at this
  rw [this]

/-- The snapshot row of a good vehicle is a line of at most 510 characters
followed by its newline. -/
theorem c_state_row_line (v : CVersion.Vehicle) (hv : CVersion.GoodVehicle v) :
    ∃ body, CVersion.state_row v = body ++ ['\n'] ∧ (∀ c ∈ body, c ≠ '\n')
      ∧ body.length < 511 := by
  obtain ⟨hl, ho, hf, hs, ht, he⟩ := hv
  refine ⟨printInt v.floor ++ [','] ++ printInt v.spot ++ [','] ++ v.license ++ [',']
    ++ v.owner ++ [','] ++ printInt v.type ++ [','] ++ printInt v.entryTime, rfl, ?_, ?_⟩
  · intro c hc
    simp only [List.mem_append, List.mem_singleton] at hc
    rcases hc with ((((((((((h | h) | h) | h) | h) | h) | h) | h) | h) | h) | h)
    · exact (printInt_noSeparator _ c h).2.2
    · rw [h]; decide
    · exact (printInt_noSeparator _ c h).2.2
    · rw [h]; decide
    · exact (hl.2.2 c h).2.2
    · rw [h]; decide
    · exact (ho.2.2 c h).2.2
    · rw [h]; decide
    · exact (printInt_noSeparator _ c h).2.2
    · rw [h]; decide
    · exact (printInt_noSeparator _ c h).2.2
  · have h1 := printInt_length _ hf
    have h2 := printInt_length _ hs
    have h3 := printInt_length _ ht
    have h4 := printInt_length _ he
    have h5 := hl.2.1
    have h6 := ho.2.1
    simp only [List.length_append, List.length_singleton]
    simp only [LICENSE_MAX, OWNER_MAX] at h5 h6
    omega

/-- Reading the C spot just assigned. -/
theorem c_setSpot_same (lot : CVersion.ParkingLot) (f : Fin FLOORS) (s : Fin SPOTS_PER_FLOOR)
    (sp : CVersion.ParkingSpot) : CVersion.setSpot lot f s sp f s = sp := by
  simp [CVersion.setSpot]

/-- Reading another C spot than the one just assigned. -/
theorem c_setSpot_other (lot : CVersion.ParkingLot) (f f' : Fin FLOORS)
    (s s' : Fin SPOTS_PER_FLOOR) (sp : CVersion.ParkingSpot) (h : ¬ (f' = f ∧ s' = s)) :
    CVersion.setSpot lot f s sp f' s' = lot f' s' := by
  simp [CVersion.setSpot, h]

/-- The rows of the C snapshot are the rows of the occupants. -/
theorem c_save_rows_eq (lot : CVersion.ParkingLot) :
    CVersion.save_rows lot = (CVersion.occupants lot).flatMap CVersion.state_row := by
  unfold CVersion.save_rows CVersion.occupants
  rw [List.flatMap_assoc]
  congr 1
  funext f
  rw [List.flatMap_assoc]
  congr 1
  funext s
  cases (lot f s).occupied <;> cases (lot f s).vehicle <;> simp

/-- The occupants are the vehicles of the occupied spots. -/
theorem c_mem_occupants (lot : CVersion.ParkingLot) (v : CVersion.Vehicle) :
    v ∈ CVersion.occupants lot
      ↔ ∃ f s, (lot f s).occupied = true ∧ (lot f s).vehicle = some v := by
  unfold CVersion.occupants
  simp only [List.mem_flatMap, List.mem_finRange, true_and]
  constructor
  · rintro ⟨f, s, h⟩
    refine ⟨f, s, ?_⟩
    cases ho : (lot f s).occupied <;> cases hv : (lot f s).vehicle <;>
      simp [ho, hv] at h ⊢
    exact h.symm
  · rintro ⟨f, s, ho, hv⟩
    refine ⟨f, s, ?_⟩
    simp [ho, hv]

/-- An in-range `int` converts to the grid index it came from. -/
theorem toIndex_val (n : Nat) (i : Fin n) : toIndex n (i.val : Int) = some i := by
  unfold toIndex
  have h : 0 ≤ (i.val : Int) ∧ (i.val : Int) < (n : Int) := ⟨by omega, by exact_mod_cast i.isLt⟩
  rw [dif_pos h]
  simp

/-- The loop body of `load_parking_state` on the snapshot row of a good
vehicle binds that very record to the spot the record names. -/
theorem c_load_row_state_row (lot : CVersion.ParkingLot) (v : CVersion.Vehicle)
    (f : Fin FLOORS) (s : Fin SPOTS_PER_FLOOR) (hv : CVersion.GoodVehicle v)
    (hf : v.floor = (f.val : Int)) (hs : v.spot = (s.val : Int)) :
    CVersion.load_row lot (CVersion.state_row v)
      = CVersion.setSpot lot f s ⟨true, some v⟩ := by
  unfold CVersion.load_row
  rw [c_parse_row_state_row v hv]
  simp only [hf, hs, toIndex_val]
  have h1 : strncpy v.license (LICENSE_MAX - 1) = v.license :=
    List.take_of_length_le hv.1.2.1
  have h2 : strncpy v.owner (OWNER_MAX - 1) = v.owner :=
    List.take_of_length_le hv.2.1.2.1
  rw [h1, h2, ← hf, ← hs]

/-- The reading loop of `load_parking_state` on the rows of good vehicles
runs the loop body once per row. -/
theorem c_load_loop_rows (vs : List CVersion.Vehicle) (fuel : Nat) (lot0 : CVersion.ParkingLot)
    (hvs : ∀ v ∈ vs, CVersion.GoodVehicle v)
    (hfuel : (vs.flatMap CVersion.state_row).length ≤ fuel) :
    CVersion.load_loop fuel (vs.flatMap CVersion.state_row) lot0
      = vs.foldl (fun lot v => CVersion.load_row lot (CVersion.state_row v)) lot0 := by
  induction vs generalizing fuel lot0 with
  | nil =>
    cases fuel with
    | zero => rfl
    | succ fuel => rfl
  | cons v vs ih =>
    obtain ⟨body, hrow, hbody, hlen⟩ := c_state_row_line v (hvs v (List.mem_cons_self _ _))
    have hstream : (v :: vs).flatMap CVersion.state_row
        = body ++ '\n' :: vs.flatMap CVersion.state_row := by
      simp [List.flatMap_cons, hrow]
    rw [hstream] at hfuel ⊢
    cases fuel with
    | zero => simp at hfuel
    | succ fuel =>
      simp only [CVersion.load_loop, fgets_line body _ hbody hlen, List.foldl_cons]
      rw [← hrow]
      apply ih
      · exact fun w hw => hvs w (List.mem_cons_of_mem _ hw)
      · simp only [List.length_append, List.length_cons] at hfuel
        omega

/-- Replaying rows leaves a spot alone that no row names. -/
theorem c_replay_untouched (vs : List CVersion.Vehicle) (lot0 : CVersion.ParkingLot)
    (f : Fin FLOORS) (s : Fin SPOTS_PER_FLOOR)
    (hvs : ∀ v ∈ vs, CVersion.GoodVehicle v
      ∧ ∃ f' s', v.floor = ((f' : Fin FLOORS).val : Int)
          ∧ v.spot = ((s' : Fin SPOTS_PER_FLOOR).val : Int))
    (hnone : ∀ v ∈ vs, ¬ (v.floor = (f.val : Int) ∧ v.spot = (s.val : Int))) :
    (vs.foldl (fun lot v => CVersion.load_row lot (CVersion.state_row v)) lot0) f s
      = lot0 f s := by
  induction vs generalizing lot0 with
  | nil => rfl
  | cons v vs ih =>
    obtain ⟨hg, f', s', hf', hs'⟩ := hvs v (List.mem_cons_self _ _)
    simp only [List.foldl_cons]
    rw [ih _ (fun w hw => hvs w (List.mem_cons_of_mem _ hw))
      (fun w hw => hnone w (List.mem_cons_of_mem _ hw))]
    rw [c_load_row_state_row lot0 v f' s' hg hf' hs']
    apply c_setSpot_other
    rintro ⟨rfl, rfl⟩
    exact hnone v (List.mem_cons_self _ _) ⟨hf', hs'⟩

/-- Replaying rows binds a spot to the one record that names it. -/
theorem c_replay_bound (vs : List CVersion.Vehicle) (lot0 : CVersion.ParkingLot)
    (f : Fin FLOORS) (s : Fin SPOTS_PER_FLOOR) (w : CVersion.Vehicle)
    (hvs : ∀ v ∈ vs, CVersion.GoodVehicle v
      ∧ ∃ f' s', v.floor = ((f' : Fin FLOORS).val : Int)
          ∧ v.spot = ((s' : Fin SPOTS_PER_FLOOR).val : Int))
    (hw : w ∈ vs) (hwf : w.floor = (f.val : Int)) (hws : w.spot = (s.val : Int))
    (honly : ∀ v ∈ vs, v.floor = (f.val : Int) → v.spot = (s.val : Int) → v = w) :
    (vs.foldl (fun lot v => CVersion.load_row lot (CVersion.state_row v)) lot0) f s
      = ⟨true, some w⟩ := by
  induction vs generalizing lot0 with
  | nil => simp at hw
  | cons v vs ih =>
    obtain ⟨hg, f', s', hf', hs'⟩ := hvs v (List.mem_cons_self _ _)
    simp only [List.foldl_cons]
    by_cases hmem : w ∈ vs
    · exact ih _ (fun x hx => hvs x (List.mem_cons_of_mem _ hx)) hmem
        (fun x hx => honly x (List.mem_cons_of_mem _ hx))
    · have hvw : v = w := by
        rcases List.mem_cons.1 hw with h | h
        · exact h.symm
        · exact absurd h hmem
      subst hvw
      rw [c_replay_untouched vs _ f s (fun x hx => hvs x (List.mem_cons_of_mem _ hx))]
      · have hff : f' = f := by
          apply Fin.ext
          have := hf'.symm.trans hwf
          omega
        have hss : s' = s := by
          apply Fin.ext
          have := hs'.symm.trans hws
          omega
        subst hff hss
        rw [c_load_row_state_row lot0 v f' s' hg hf' hs']
        exact c_setSpot_same _ _ _ _
      · intro x hx hpos
        have := honly x (List.mem_cons_of_mem _ hx) hpos.1 hpos.2
        rw [this] at hx
        exact hmem hx

/-- Replaying the rows of a well-formed grid over the freshly initialised grid
gives that grid back. -/
theorem c_replay_occupants (lot : CVersion.ParkingLot) (hwf : CVersion.WellFormed lot) :
    (CVersion.occupants lot).foldl
        (fun l v => CVersion.load_row l (CVersion.state_row v)) CVersion.init_parking
      = lot := by
  have hocc : ∀ v ∈ CVersion.occupants lot, ∃ f s, lot f s = ⟨true, some v⟩
      ∧ CVersion.GoodVehicle v ∧ v.floor = (f.val : Int) ∧ v.spot = (s.val : Int) := by
    intro v hv
    obtain ⟨f, s, ho, hvv⟩ := (c_mem_occupants lot v).1 hv
    refine ⟨f, s, ?_⟩
    rcases hwf f s with h | ⟨w, h, hg, hf, hs⟩
    · rw [h] at ho
      exact absurd ho (by decide)
    · rw [h] at hvv
      simp only [Option.some.injEq] at hvv
      subst hvv
      exact ⟨h, hg, hf, hs⟩
  have hvs : ∀ v ∈ CVersion.occupants lot, CVersion.GoodVehicle v
      ∧ ∃ f' s', v.floor = ((f' : Fin FLOORS).val : Int)
          ∧ v.spot = ((s' : Fin SPOTS_PER_FLOOR).val : Int) := by
    intro v hv
    obtain ⟨f, s, _, hg, hf, hs⟩ := hocc v hv
    exact ⟨hg, f, s, hf, hs⟩
  have hpos : ∀ v ∈ CVersion.occupants lot, ∀ f s, v.floor = ((f : Fin FLOORS).val : Int) →
      v.spot = ((s : Fin SPOTS_PER_FLOOR).val : Int) → lot f s = ⟨true, some v⟩ := by
    intro v hv f s hf hs
    obtain ⟨f', s', h, _, hf', hs'⟩ := hocc v hv
    have hff : f' = f := by
      apply Fin.ext
      have := hf'.symm.trans hf
      omega
    have hss : s' = s := by
      apply Fin.ext
      have := hs'.symm.trans hs
      omega
    rw [← hff, ← hss]
    exact h
  funext f s
  rcases hwf f s with h | ⟨w, h, hg, hf, hs⟩
  · rw [c_replay_untouched _ _ f s hvs, h]
    · rfl
    · intro v hv hp
      have := hpos v hv f s hp.1 hp.2
      rw [h] at this
      simp at this
  · rw [h]
    apply c_replay_bound _ _ f s w hvs _ hf hs
    · intro v hv hvf hvs'
      have := hpos v hv f s hvf hvs'
      rw [h] at this
      simp only [CVersion.ParkingSpot.mk.injEq, Option.some.injEq, true_and] at this
      exact this.symm
    · exact (c_mem_occupants lot w).2 ⟨f, s, by rw [h], by rw [h]⟩

/-- The C `save_parking_state` leaves the grid as it is. -/
theorem c_save_parking_state_lot (st : CVersion.State) :
    (CVersion.save_parking_state st).2.parkingLot = st.parkingLot := by
  unfold CVersion.save_parking_state
  cases fopen_w st.files .parkingState <;> rfl

/-- A successful C `save_parking_state` leaves the header and the rows of the
grid in the snapshot file. -/
theorem c_save_parking_state_file (st : CVersion.State)
    (h : (CVersion.save_parking_state st).1 = true) :
    (CVersion.save_parking_state st).2.files.parkingState
      = some (STATE_HEADER ++ CVersion.save_rows st.parkingLot) := by
  unfold CVersion.save_parking_state fopen_w at h ⊢
  by_cases hw : st.files.writable = true
  · simp only [hw, if_true]
    simp [fprintf, Files.write, Files.read]
  · simp [hw] at h

/-- Loading the snapshot of a well-formed grid into the freshly initialised
grid gives that grid back. -/
theorem c_load_save_wellFormed (st : CVersion.State) (hwf : CVersion.WellFormed st.parkingLot)
    (h : (CVersion.save_parking_state st).1 = true) :
    (CVersion.load_parking_state
        ⟨CVersion.init_parking, (CVersion.save_parking_state st).2.files⟩).parkingLot
      = st.parkingLot := by
  have hfile := c_save_parking_state_file st h
  have hhead : fgets 512 (STATE_HEADER ++ CVersion.save_rows st.parkingLot)
      = some (STATE_HEADER, CVersion.save_rows st.parkingLot) := by
    have hsplit : STATE_HEADER
        = "floor,spot,license,owner,type,entryTime".toList ++ ['\n'] := by decide
    have := fgets_line "floor,spot,license,owner,type,entryTime".toList
      (CVersion.save_rows st.parkingLot) (by decide) (by decide)
    rw [hsplit, List.append_assoc]
    exact this
  unfold CVersion.load_parking_state fopen_r
  simp only [Files.read, hfile, hhead]
  rw [c_save_rows_eq, c_load_loop_rows _ _ _ _ le_rfl]
  · exact c_replay_occupants _ hwf
  · intro v hv
    obtain ⟨f, s, ho, hvv⟩ := (c_mem_occupants _ v).1 hv
    rcases hwf f s with h | ⟨w, h, hg, _, _⟩
    · rw [h] at ho
      exact absurd ho (by decide)
    · rw [h] at hvv
      simp only [Option.some.injEq] at hvv
      subst hvv
      exact hg

/-- The grid after the C `park_vehicle` is the grid before, or the grid before
with the assigned spot bound to the new record. -/
theorem c_park_vehicle_lot (st : CVersion.State) (inp : CVersion.EntryInput) (now : Int) :
    (CVersion.park_vehicle st inp now).2.parkingLot = st.parkingLot
    ∨ ∃ f s type, (type = 0 ∨ type = 1 ∨ type = 2) ∧ inp.license ≠ [] ∧ inp.owner ≠ []
        ∧ CVersion.find_vehicle st.parkingLot inp.license = none
        ∧ (CVersion.park_vehicle st inp now).2.parkingLot
            = CVersion.setSpot st.parkingLot f s
                ⟨true, some
                  { license := strncpy inp.license (LICENSE_MAX - 1)
                    owner := strncpy inp.owner (OWNER_MAX - 1)
                    type := type
                    entryTime := now
                    floor := (f.val : Int)
                    spot := (s.val : Int) }⟩ := by
  unfold CVersion.park_vehicle
  split
  · left; rfl
  · rename_i typeChoice _
    split
    · left; rfl
    · rename_i type htype
      split
      · left; rfl
      · rename_i hlic
        split
        · left; rfl
        · rename_i hfind
          split
          · left; rfl
          · rename_i hown
            split
            · left; rfl
            · rename_i f s _
              right
              refine ⟨f, s, type, ?_, hlic, hown, hfind, ?_⟩
              · unfold CVersion.parse_vehicle_type at htype
                split_ifs at htype
                · exact Or.inl (Option.some.inj htype).symm
                · exact Or.inr (Or.inl (Option.some.inj htype).symm)
                · exact Or.inr (Or.inr (Option.some.inj htype).symm)
              · rw [c_save_parking_state_lot]

/-- The grid after the C `exit_vehicle` is the grid before, or the grid before
with one spot released. -/
theorem c_exit_vehicle_lot (st : CVersion.State) (license : Text) (now : Int) :
    (CVersion.exit_vehicle st license now).2.parkingLot = st.parkingLot
    ∨ ∃ f s, (CVersion.exit_vehicle st license now).2.parkingLot
        = CVersion.setSpot st.parkingLot f s ⟨false, none⟩ := by
  unfold CVersion.exit_vehicle
  split
  · left; rfl
  · split
    · left; rfl
    · rename_i f s _
      split
      · left; rfl
      · right
        exact ⟨f, s, by rw [c_save_parking_state_lot]⟩

/-- A non-empty input without separators is a good field once copied into
its buffer. -/
theorem goodField_strncpy (n : Nat) (t : Text) (hn : 0 < n) (hne : t ≠ [])
    (hsep : NoSeparator t) : GoodField n (strncpy t n) := by
  unfold strncpy
  refine ⟨?_, List.length_take_le _ _, fun c hc => hsep c (List.mem_of_mem_take hc)⟩
  cases t with
  | nil => exact absurd rfl hne
  | cons c cs =>
    cases n with
    | zero => omega
    | succ n => simp

/-- The freshly initialised grid is well formed. -/
theorem c_wellFormed_init : CVersion.WellFormed CVersion.init_parking :=
  fun _ _ => Or.inl rfl

/-- Every clean operation keeps the grid well formed. -/
theorem c_wellFormed_step (st : CVersion.State) (op : CVersion.Op)
    (hwf : CVersion.WellFormed st.parkingLot) (hclean : CVersion.Clean op) :
    CVersion.WellFormed (CVersion.step st op).parkingLot := by
  cases op with
  | entry inp now =>
    obtain ⟨hl, ho, hnow⟩ := hclean
    rcases c_park_vehicle_lot st inp now with h | ⟨f, s, type, htype, hlic, hown, _, h⟩
    · simp only [CVersion.step, h]; exact hwf
    · simp only [CVersion.step, h]
      intro a b
      by_cases hab : a = f ∧ b = s
      · obtain ⟨rfl, rfl⟩ := hab
        right
        refine ⟨_, c_setSpot_same _ _ _ _, ⟨?_, ?_, ?_, ?_, ?_, hnow⟩, rfl, rfl⟩
        · exact goodField_strncpy _ _ (by decide) hlic hl
        · exact goodField_strncpy _ _ (by decide) hown ho
        · have h5 : a.val < 5 := a.isLt
          constructor <;> simp only <;> omega
        · have h20 : b.val < 20 := b.isLt
          constructor <;> simp only <;> omega
        · rcases htype with rfl | rfl | rfl <;> (unfold InLong; norm_num)
      · rw [c_setSpot_other _ _ _ _ _ _ hab]
        exact hwf a b
  | exit license now =>
    rcases c_exit_vehicle_lot st license now with h | ⟨f, s, h⟩
    · simp only [CVersion.step, h]; exact hwf
    · simp only [CVersion.step, h]
      intro a b
      by_cases hab : a = f ∧ b = s
      · obtain ⟨rfl, rfl⟩ := hab
        left
        exact c_setSpot_same _ _ _ _
      · rw [c_setSpot_other _ _ _ _ _ _ hab]
        exact hwf a b

/-- Every sequence of clean operations keeps the grid well formed. -/
theorem c_wellFormed_run (ops : List CVersion.Op) (st : CVersion.State)
    (hwf : CVersion.WellFormed st.parkingLot) (hclean : ∀ op ∈ ops, CVersion.Clean op) :
    CVersion.WellFormed (CVersion.run st ops).parkingLot := by
  induction ops generalizing st with
  | nil => exact hwf
  | cons op ops ih =>
    simp only [CVersion.run, List.foldl_cons]
    exact ih _ (c_wellFormed_step st op hwf (hclean op (List.mem_cons_self _ _)))
      (fun o ho => hclean o (List.mem_cons_of_mem _ ho))

/-- More fuel than the length of the stream does not change what the reading
loop of `load_parking_state` computes: the loop always reaches the end of
the file. -/
theorem c_load_loop_fuel (fuel : Nat) (stream : Text) (lot : CVersion.ParkingLot)
    (h : stream.length ≤ fuel) :
    CVersion.load_loop fuel stream lot = CVersion.load_loop stream.length stream lot := by
  induction fuel using Nat.strong_induction_on generalizing stream lot with
  | _ fuel ih =>
    cases stream with
    | nil =>
      cases fuel <;> rfl
    | cons c cs =>
      cases fuel with
      | zero => simp at h
      | succ fuel =>
        have hrest : (fgetsAux 511 (c :: cs)).2.length ≤ cs.length :=
          fgetsAux_rest_length 510 c cs
        simp only [List.length_cons, CVersion.load_loop, fgets, Nat.add_one_sub_one]
        simp only [List.length_cons] at h
        rw [ih fuel (by omega) _ _ (by omega)]
        by_cases hlt : (fgetsAux 511 (c :: cs)).2.length = cs.length
        · rw [hlt]
        · rw [ih cs.length (by omega) _ _ (by omega)]

/-- C9, as amended. C variant, persistence round trip: for every state reached
from the empty grid by entries and exits whose license and owner strings hold
no comma, carriage return or line feed (clock values being `long`s), a
successful `save_parking_state` followed by `load_parking_state` on that
file into a freshly initialised grid reproduces the grid, hence the same
tuples (floor, position, license, owner, category, entryTime). -/
theorem c_snapshot_round_trip (files : Files) (ops : List CVersion.Op)
    (hclean : ∀ op ∈ ops, CVersion.Clean op)
    (hsave : (CVersion.save_parking_state
      (CVersion.run ⟨CVersion.init_parking, files⟩ ops)).1 = true) :
    (CVersion.load_parking_state
        ⟨CVersion.init_parking,
          (CVersion.save_parking_state
            (CVersion.run ⟨CVersion.init_parking, files⟩ ops)).2.files⟩).parkingLot
      = (CVersion.run ⟨CVersion.init_parking, files⟩ ops).parkingLot
    ∧ CVersion.tuples (CVersion.load_parking_state
        ⟨CVersion.init_parking,
          (CVersion.save_parking_state
            (CVersion.run ⟨CVersion.init_parking, files⟩ ops)).2.files⟩).parkingLot
      = CVersion.tuples (CVersion.run ⟨CVersion.init_parking, files⟩ ops).parkingLot := by
  have hwf := c_wellFormed_run ops ⟨CVersion.init_parking, files⟩ c_wellFormed_init hclean
  have h := c_load_save_wellFormed _ hwf hsave
  exact ⟨h, by rw [h]⟩

/-- Witness of C9 as amended: the sample session, whose strings hold no
separator, is saved and read back to the same grid and tuples. -/
theorem c_snapshot_round_trip_witness :
    (CVersion.load_parking_state
        ⟨CVersion.init_parking,
          (CVersion.save_parking_state
            (CVersion.run ⟨CVersion.init_parking, sampleFiles⟩ CVersion.sampleOps)).2.files⟩).parkingLot
      = (CVersion.run ⟨CVersion.init_parking, sampleFiles⟩ CVersion.sampleOps).parkingLot
    ∧ CVersion.tuples (CVersion.load_parking_state
        ⟨CVersion.init_parking,
          (CVersion.save_parking_state
            (CVersion.run ⟨CVersion.init_parking, sampleFiles⟩ CVersion.sampleOps)).2.files⟩).parkingLot
      = CVersion.tuples
          (CVersion.run ⟨CVersion.init_parking, sampleFiles⟩ CVersion.sampleOps).parkingLot :=
  c_snapshot_round_trip sampleFiles CVersion.sampleOps
    (by
      intro op hop
      simp only [CVersion.sampleOps, List.mem_cons, List.mem_singleton, List.not_mem_nil,
        or_false] at hop
      rcases hop with rfl | rfl | rfl
      · exact ⟨by unfold NoSeparator; decide, by unfold NoSeparator; decide,
          by unfold InLong; decide⟩
      · exact ⟨by unfold NoSeparator; decide, by unfold NoSeparator; decide,
          by unfold InLong; decide⟩
      · show InLong 5000
        unfold InLong; decide)
    (by decide)

/-- Counterexample to C9 as stated: the license `A,B` is a
non-empty string within the length limits, yet after the entry, a
successful save and a load into the fresh grid the only tuple
`(0, 0, "A,B", "bob", 1, 1000)` has become `(0, 0, "A", "B", 0, 1)`. -/
theorem c_snapshot_round_trip_counterexample :
    (∀ op ∈ CVersion.commaOps, CVersion.WithinLimits op)
    ∧ (CVersion.save_parking_state
        (CVersion.run ⟨CVersion.init_parking, sampleFiles⟩ CVersion.commaOps)).1 = true
    ∧ CVersion.tuples
        (CVersion.run ⟨CVersion.init_parking, sampleFiles⟩ CVersion.commaOps).parkingLot
      = [⟨0, 0, "A,B".toList, "bob".toList, 1, 1000⟩]
    ∧ CVersion.tuples (CVersion.load_parking_state
        ⟨CVersion.init_parking,
          (CVersion.save_parking_state
            (CVersion.run ⟨CVersion.init_parking, sampleFiles⟩ CVersion.commaOps)).2.files⟩).parkingLot
      = [⟨0, 0, "A".toList, "B".toList, 0, 1⟩]
    ∧ ¬ (∀ t, t ∈ CVersion.tuples (CVersion.load_parking_state
          ⟨CVersion.init_parking,
            (CVersion.save_parking_state
              (CVersion.run ⟨CVersion.init_parking, sampleFiles⟩
                CVersion.commaOps)).2.files⟩).parkingLot
        ↔ t ∈ CVersion.tuples
          (CVersion.run ⟨CVersion.init_parking, sampleFiles⟩ CVersion.commaOps).parkingLot) := by
  have h1 : CVersion.tuples
        (CVersion.run ⟨CVersion.init_parking, sampleFiles⟩ CVersion.commaOps).parkingLot
      = [⟨0, 0, "A,B".toList, "bob".toList, 1, 1000⟩] := by decide
  have h2 : CVersion.tuples (CVersion.load_parking_state
        ⟨CVersion.init_parking,
          (CVersion.save_parking_state
            (CVersion.run ⟨CVersion.init_parking, sampleFiles⟩ CVersion.commaOps)).2.files⟩).parkingLot
      = [⟨0, 0, "A".toList, "B".toList, 0, 1⟩] := by decide
  refine ⟨?_, by decide, h1, h2, ?_⟩
  · intro op hop
    simp only [CVersion.commaOps, List.mem_singleton] at hop
    subst hop
    exact ⟨by decide, by decide, by decide, by decide, by unfold InLong; decide⟩
  · rw [h1, h2]
    intro h
    have := (h ⟨0, 0, "A".toList, "B".toList, 0, 1⟩).1 (List.mem_singleton.2 rfl)
    exact absurd (List.mem_singleton.1 this) (by decide)

/-- The C `append_transaction` on a log that does not exist: when the log can
be opened, `fopen(..., "a")` creates it and the row is its whole content;
when it cannot, nothing is written. The header branch is never taken. -/
theorem c_append_transaction_absent (fs : Files) (license : Text) (type : CVersion.VehicleType)
    (entry exitT durationMin fee : Int) (habsent : fs.transactions = none) :
    (CVersion.append_transaction fs license type entry exitT durationMin fee).2.transactions
      = if fs.writable then some (txn_row license type entry exitT durationMin fee)
        else none := by
  unfold CVersion.append_transaction fopen_a fopen_w
  by_cases hw : fs.writable = true
  · simp [hw, fprintf, Files.write, Files.read, habsent]
  · simp [hw, habsent]

/-- The C `append_transaction` on a log that exists and can be opened: the
previous content, then the new row, and no header. -/
theorem c_append_transaction_present (fs : Files) (license : Text)
    (type : CVersion.VehicleType) (entry exitT durationMin fee : Int) (old : Text)
    (hold : fs.transactions = some old) (hw : fs.writable = true) :
    (CVersion.append_transaction fs license type entry exitT durationMin fee).2.transactions
      = some (old ++ txn_row license type entry exitT durationMin fee) := by
  unfold CVersion.append_transaction fopen_a
  simp [hw, fprintf, Files.write, Files.read, hold]

/-- C11, the code at the failing input: with no transaction log and a writable
data directory, `append_transaction("KA01", VEHICLE_CAR, 1000, 6400, 90, 60.0)`
returns 1 and leaves a log whose whole content is the row
`KA01,1,1000,6400,90,60.00`: the header line is not written, and a second
append only adds its row. -/
theorem c_append_transaction_no_header :
    CVersion.append_transaction sampleFiles "KA01".toList CVersion.VEHICLE_CAR 1000 6400 90 60
      = (true, { sampleFiles with transactions := some "KA01,1,1000,6400,90,60.00\n".toList })
    ∧ (CVersion.append_transaction sampleFiles "KA01".toList CVersion.VEHICLE_CAR
          1000 6400 90 60).2.transactions
      ≠ some (TXN_HEADER ++ "KA01,1,1000,6400,90,60.00\n".toList)
    ∧ (CVersion.append_transaction
          (CVersion.append_transaction sampleFiles "KA01".toList CVersion.VEHICLE_CAR
            1000 6400 90 60).2
          "MH12".toList CVersion.VEHICLE_BIKE 2000 9200 120 30).2.transactions
      = some "KA01,1,1000,6400,90,60.00\nMH12,0,2000,9200,120,30.00\n".toList := by
  refine ⟨by decide, by decide, by decide⟩

/-- The two exit-duration rules compute the same value. -/
theorem durationMin_agree (now entryTime : Int) :
    CVersion.durationMin now entryTime = CppVersion.durationMin now entryTime := by
  unfold CVersion.durationMin CppVersion.durationMin
  simp only []
  split_ifs with h
  · rw [max_eq_left (by omega)]
  · rw [max_eq_right (by omega)]

/-- Counterexample to C15 as stated: there are no entry and exit timestamps at
which the duration of the C `exit_vehicle` differs from the duration of the
C++ `menu_exit`. -/
theorem duration_rules_never_differ :
    ¬ ∃ entryTime exitTime : Int,
        CVersion.durationMin exitTime entryTime ≠ CppVersion.durationMin exitTime entryTime := by
  rintro ⟨entryTime, exitTime, h⟩
  exact h (durationMin_agree exitTime entryTime)

/-- C15, as amended. Exit-duration rule, C variant versus C++ variant: for all
entry and exit timestamps the `durationMin` of the C `exit_vehicle`
(truncating division by 60, then values `<= 0` forced to 1) equals the
`durationMin` of the C++ `menu_exit`, `max 1` of the truncating division by
60; at an elapsed time of zero, of a negative value, or below 60 seconds
both give 1. -/
theorem duration_rules_agree (entryTime exitTime : Int) :
    CVersion.durationMin exitTime entryTime = CppVersion.durationMin exitTime entryTime
    ∧ CppVersion.durationMin exitTime entryTime
        = max 1 (Int.tdiv (exitTime - entryTime) 60)
    ∧ (exitTime - entryTime < 60 → CVersion.durationMin exitTime entryTime = 1
        ∧ CppVersion.durationMin exitTime entryTime = 1) := by
  refine ⟨durationMin_agree exitTime entryTime, rfl, ?_⟩
  intro hlt
  have h1 : Int.tdiv (exitTime - entryTime) 60 ≤ 0 := by
    by_cases h0 : 0 ≤ exitTime - entryTime
    · rw [Int.tdiv_eq_ediv h0 (by norm_num)]
      omega
    · have : Int.tdiv (exitTime - entryTime) 60
          = -(Int.tdiv (-(exitTime - entryTime)) 60) := by
        rw [Int.neg_tdiv, neg_neg]
      rw [this]
      have : 0 ≤ Int.tdiv (-(exitTime - entryTime)) 60 :=
        Int.tdiv_nonneg (by omega) (by norm_num)
      omega
  have h2 : CppVersion.durationMin exitTime entryTime = 1 := by
    unfold CppVersion.durationMin
    exact max_eq_left (by omega)
  exact ⟨(durationMin_agree exitTime entryTime).trans h2, h2⟩

/-- Witness of C15 as amended: an exit 59 seconds after the entry has duration
1 in both variants. -/
theorem duration_rules_agree_witness :
    CVersion.durationMin 1059 1000 = 1 ∧ CppVersion.durationMin 1059 1000 = 1 :=
  (duration_rules_agree 1000 1059).2.2 (by decide)

/-- Counterexample to C16 as stated: in the sample grid, where `KA01` is
parked, an entry with the invalid category selection 7 and the license `KA01`
fails with "Vehicle already parked", not with "Invalid vehicle type". -/
theorem cpp_menu_entry_invalid_category_counterexample :
    (CppVersion.menu_entry ⟨CppVersion.sampleLot, sampleFiles⟩
        ⟨some 7, "KA01".toList, "eve".toList⟩ 2000).1 = .error "Vehicle already parked"
    ∧ (CppVersion.menu_entry ⟨CppVersion.sampleLot, sampleFiles⟩
        ⟨some 7, "KA01".toList, "eve".toList⟩ 2000).1 ≠ .error "Invalid vehicle type" := by
  refine ⟨by decide, by decide⟩

/-- C16, as amended. C++ variant, `menu_entry`: an entry whose category
selection is an integer other than 1, 2, 3 always fails and leaves the state
unchanged, and the category is validated last: the error is "Invalid vehicle
type" when license and owner are non-empty, the license is held by no
occupied spot and a spot is free; a license already parked gives "Vehicle
already parked" and a full grid gives "Parking full", whatever the
category. -/
theorem cpp_menu_entry_invalid_category (st : CppVersion.State) (inp : CppVersion.EntryInput)
    (now c : Int) (hchoice : inp.type = some c) (hinvalid : c ≠ 1 ∧ c ≠ 2 ∧ c ≠ 3) :
    (∃ e, CppVersion.menu_entry st inp now = (.error e, st))
    ∧ (inp.license ≠ [] →
        (∀ f s v, (st.lot f s).occupied = true → (st.lot f s).vehicle = some v →
          v.license ≠ inp.license) →
        inp.owner ≠ [] → (∃ f s, (st.lot f s).occupied = false) →
        CppVersion.menu_entry st inp now = (.error "Invalid vehicle type", st))
    ∧ (inp.license ≠ [] →
        (∃ f s v, (st.lot f s).occupied = true ∧ (st.lot f s).vehicle = some v
          ∧ v.license = inp.license) →
        CppVersion.menu_entry st inp now = (.error "Vehicle already parked", st))
    ∧ (inp.license ≠ [] →
        (∀ f s v, (st.lot f s).occupied = true → (st.lot f s).vehicle = some v →
          v.license ≠ inp.license) →
        inp.owner ≠ [] → (∀ f s, (st.lot f s).occupied = true) →
        CppVersion.menu_entry st inp now = (.error "Parking full", st)) := by
  have hmk : ∀ lic own, CppVersion.make_vehicle c lic own now = .error "Invalid vehicle type" := by
    intro lic own
    unfold CppVersion.make_vehicle
    rw [if_neg hinvalid.1, if_neg hinvalid.2.1, if_neg hinvalid.2.2]
  refine ⟨?_, ?_, ?_, ?_⟩
  · unfold CppVersion.menu_entry
    simp only [hchoice, CppVersion.ask_int, CppVersion.ask_str]
    split
    · exact ⟨_, rfl⟩
    · split
      · exact ⟨_, rfl⟩
      · split
        · exact ⟨_, rfl⟩
        · split
          · exact ⟨_, rfl⟩
          · rw [hmk]
            exact ⟨_, rfl⟩
  · intro hlic hnew hown hfree
    have hfv := (cpp_find_vehicle_none_iff st.lot inp.license).2 hnew
    cases hp : CppVersion.find_nearest_spot st.lot with
    | none =>
      obtain ⟨f, s, hfs⟩ := hfree
      have := (cpp_find_nearest_spot_none_iff st.lot).1 hp f s
      rw [hfs] at this
      exact absurd this (by decide)
    | some p =>
      unfold CppVersion.menu_entry
      simp only [hchoice, CppVersion.ask_int, CppVersion.ask_str, hlic, hown, if_false, hfv,
        Option.isSome_none, Bool.false_eq_true, hp, hmk]
  · intro hlic hheld
    have hfind : CppVersion.find_vehicle st.lot inp.license ≠ none := by
      intro hnone
      obtain ⟨f, s, v, hocc, hv, hl⟩ := hheld
      exact (cpp_find_vehicle_none_iff _ _).1 hnone f s v hocc hv hl
    cases hf : CppVersion.find_vehicle st.lot inp.license with
    | none => exact absurd hf hfind
    | some p =>
      unfold CppVersion.menu_entry
      simp only [hchoice, CppVersion.ask_int, CppVersion.ask_str, hlic, if_false, hf,
        Option.isSome_some, if_true]
  · intro hlic hnew hown hfull
    have hfv := (cpp_find_vehicle_none_iff st.lot inp.license).2 hnew
    have hns := (cpp_find_nearest_spot_none_iff st.lot).2 hfull
    unfold CppVersion.menu_entry
    simp only [hchoice, CppVersion.ask_int, CppVersion.ask_str, hlic, hown, if_false, hfv,
      Option.isSome_none, Bool.false_eq_true, hns]

/-- Witness of C16 as amended: in the sample grid the category selection 7
with the new license `MH12` and the owner `eve` fails with "Invalid vehicle
type" and changes nothing. -/
theorem cpp_menu_entry_invalid_category_witness :
    CppVersion.menu_entry ⟨CppVersion.sampleLot, sampleFiles⟩
        ⟨some 7, "MH12".toList, "eve".toList⟩ 2000
      = (.error "Invalid vehicle type", ⟨CppVersion.sampleLot, sampleFiles⟩) :=
  (cpp_menu_entry_invalid_category ⟨CppVersion.sampleLot, sampleFiles⟩
    ⟨some 7, "MH12".toList, "eve".toList⟩ 2000 7 rfl (by decide)).2.1 (by decide)
    (fun f s v hocc hv => by
      rw [(cpp_sampleLot_held f s v hocc hv).2]
      decide)
    (by decide) ⟨0, 1, rfl⟩

/-- C17, the code at the failing input: the snapshot row `7,3,KA01,bob,1,1000`
has six comma-separated fields with integer floor, spot, type and entry time,
and the C++ `load_state` reaches the access `lot[7][3]`, outside the 5 x 20
array: the index-error branch of the embedding is taken. On the same file
the C `load_parking_state`, which checks the bounds, skips the row. -/
theorem cpp_load_state_out_of_range :
    CppVersion.load_state ⟨CppVersion.emptyLot, outOfRangeFiles⟩ = .outOfRange 7 3
    ∧ CVersion.tuples
        (CVersion.load_parking_state ⟨CVersion.init_parking, outOfRangeFiles⟩).parkingLot
      = [] := by
  refine ⟨by rfl, by decide⟩

/-- The selection loop over a list of hours in increasing order, started at an
hour before them: the result is an hour of the list or the start, its count is
the maximum, and no hour with the same count comes before it. -/
theorem peak_fold_spec (counts : CVersion.Histogram) (i0 : Fin 24) (l : List (Fin 24))
    (hsorted : (i0 :: l).Pairwise (fun a b => a < b)) :
    (l.foldl (fun (m : Fin 24 × Nat) h => if counts h > m.2 then (h, counts h) else m)
        (i0, counts i0)).2
      = counts (l.foldl (fun (m : Fin 24 × Nat) h =>
          if counts h > m.2 then (h, counts h) else m) (i0, counts i0)).1
    ∧ (l.foldl (fun (m : Fin 24 × Nat) h => if counts h > m.2 then (h, counts h) else m)
        (i0, counts i0)).1 ∈ i0 :: l
    ∧ (∀ j ∈ i0 :: l, counts j
        ≤ (l.foldl (fun (m : Fin 24 × Nat) h => if counts h > m.2 then (h, counts h) else m)
            (i0, counts i0)).2)
    ∧ (∀ j ∈ i0 :: l, counts j
        = (l.foldl (fun (m : Fin 24 × Nat) h => if counts h > m.2 then (h, counts h) else m)
            (i0, counts i0)).2 →
        (l.foldl (fun (m : Fin 24 × Nat) h => if counts h > m.2 then (h, counts h) else m)
            (i0, counts i0)).1 ≤ j) := by
  induction l using List.reverseRecOn with
  | nil =>
    refine ⟨rfl, List.mem_singleton.2 rfl, ?_, ?_⟩
    · intro j hj
      rw [List.mem_singleton.1 hj]
      exact le_rfl
    · intro j hj _
      rw [List.mem_singleton.1 hj]
      exact le_rfl
  | append_singleton l x ih =>
    have hsplit : i0 :: (l ++ [x]) = (i0 :: l) ++ [x] := rfl
    rw [hsplit, List.pairwise_append] at hsorted
    obtain ⟨hpre, _, hlt⟩ := hsorted
    obtain ⟨h1, h2, h3, h4⟩ := ih hpre
    have hx : ∀ j ∈ i0 :: l, j < x := fun j hj => hlt j hj x (List.mem_singleton.2 rfl)
    rw [List.foldl_append]
    simp only [List.foldl_cons, List.foldl_nil]
    generalize (l.foldl (fun (m : Fin 24 × Nat) h =>
      if counts h > m.2 then (h, counts h) else m) (i0, counts i0)) = m at h1 h2 h3 h4
    have hmem : ∀ j, j ∈ i0 :: (l ++ [x]) ↔ j ∈ i0 :: l ∨ j = x := by
      intro j
      rw [hsplit, List.mem_append, List.mem_singleton]
    by_cases hgt : counts x > m.2
    · rw [if_pos hgt]
      refine ⟨rfl, (hmem x).2 (Or.inr rfl), ?_, ?_⟩
      · intro j hj
        rcases (hmem j).1 hj with hj | rfl
        · exact le_of_lt (lt_of_le_of_lt (h3 j hj) hgt)
        · exact le_rfl
      · intro j hj heq
        rcases (hmem j).1 hj with hj | rfl
        · have := h3 j hj
          simp only at heq
          omega
        · exact le_rfl
    · rw [if_neg hgt]
      refine ⟨h1, (hmem m.1).2 (Or.inl h2), ?_, ?_⟩
      · intro j hj
        rcases (hmem j).1 hj with hj | rfl
        · exact h3 j hj
        · omega
      · intro j hj heq
        rcases (hmem j).1 hj with hj | rfl
        · exact h4 j hj heq
        · exact le_of_lt (hx m.1 h2)

/-- The selection loop of `report_peak_entry_hour`: the count returned is the
count of the hour returned and the maximum of all buckets, and the hour is
the lowest that attains it. -/
theorem peak_scan_spec (counts : CVersion.Histogram) :
    (CVersion.peak_scan counts).2 = counts (CVersion.peak_scan counts).1
    ∧ (∀ h, counts h ≤ (CVersion.peak_scan counts).2)
    ∧ (∀ h, counts h = (CVersion.peak_scan counts).2 → (CVersion.peak_scan counts).1 ≤ h) := by
  have hrange : (0 : Fin 24) :: (List.finRange 24).tail = List.finRange 24 := by decide
  have hsorted : ((0 : Fin 24) :: (List.finRange 24).tail).Pairwise (fun a b => a < b) := by
    rw [hrange]
    exact List.pairwise_lt_finRange 24
  have hall : ∀ h : Fin 24, h ∈ (0 : Fin 24) :: (List.finRange 24).tail := by
    intro h
    rw [hrange]
    exact List.mem_finRange h
  obtain ⟨h1, _, h3, h4⟩ := peak_fold_spec counts 0 (List.finRange 24).tail hsorted
  exact ⟨h1, fun h => h3 h (hall h), fun h => h4 h (hall h)⟩

/-- C13. C variant, peak entry-hour selection of `report_peak_entry_hour`: for
every 24-bucket histogram of counts, the report is "no data" when all
buckets are zero; otherwise the reported hour `h` has the maximum count of
all buckets, is the lowest hour with that count, and the reported count is
`counts h`. -/
theorem c_peak_select_spec (counts : CVersion.Histogram) :
    ((∀ h, counts h = 0) → CVersion.peak_select counts = .noData)
    ∧ ((∃ h, counts h ≠ 0) →
        ∃ h, CVersion.peak_select counts = .busiest h (counts h)
          ∧ (∀ h', counts h' ≤ counts h)
          ∧ (∀ h', counts h' = counts h → h ≤ h')) := by
  obtain ⟨h1, h2, h3⟩ := peak_scan_spec counts
  constructor
  · intro hzero
    unfold CVersion.peak_select
    rw [if_pos (by rw [h1]; exact hzero _)]
  · rintro ⟨h, hh⟩
    have hpos : (CVersion.peak_scan counts).2 ≠ 0 := by
      have := h2 h
      omega
    refine ⟨(CVersion.peak_scan counts).1, ?_, ?_, ?_⟩
    · unfold CVersion.peak_select
      rw [if_neg hpos, h1]
    · intro h'
      rw [← h1]
      exact h2 h'
    · intro h' heq
      rw [← h1] at heq
      exact h3 h' heq

set_option maxRecDepth 100000 in
/-- Witness of C13: with no log and three parked vehicles, two entered in hour
9 and one in hour 14, `report_peak_entry_hour` reports hour 9 with count 2,
the lowest hour with the maximum count of the histogram. -/
theorem c_peak_select_spec_witness :
    CVersion.report_peak_entry_hour CVersion.peakState utcTime = .busiest 9 2
    ∧ ∃ h, CVersion.peak_select
          (CVersion.peak_grid utcTime CVersion.peakState.parkingLot
            (CVersion.peak_log utcTime CVersion.peakState.files))
        = .busiest h
            (CVersion.peak_grid utcTime CVersion.peakState.parkingLot
              (CVersion.peak_log utcTime CVersion.peakState.files) h)
      ∧ (∀ h', CVersion.peak_grid utcTime CVersion.peakState.parkingLot
              (CVersion.peak_log utcTime CVersion.peakState.files) h'
          ≤ CVersion.peak_grid utcTime CVersion.peakState.parkingLot
              (CVersion.peak_log utcTime CVersion.peakState.files) h)
      ∧ (∀ h', CVersion.peak_grid utcTime CVersion.peakState.parkingLot
              (CVersion.peak_log utcTime CVersion.peakState.files) h'
          = CVersion.peak_grid utcTime CVersion.peakState.parkingLot
              (CVersion.peak_log utcTime CVersion.peakState.files) h → h ≤ h') :=
  ⟨by decide,
    (c_peak_select_spec
      (CVersion.peak_grid utcTime CVersion.peakState.parkingLot
        (CVersion.peak_log utcTime CVersion.peakState.files))).2 ⟨9, by decide⟩⟩

/-- The lexicographic order of spots is the order of the numbers
`20 * floor + position`. -/
theorem spotLt_iff_index (q p : Fin FLOORS × Fin SPOTS_PER_FLOOR) :
    spotLt q p ↔ 20 * q.1.val + q.2.val < 20 * p.1.val + p.2.val := by
  have hq : q.2.val < 20 := q.2.isLt
  have hp : p.2.val < 20 := p.2.isLt
  unfold spotLt
  constructor
  · rintro (h | ⟨h1, h2⟩)
    · have : q.1.val < p.1.val := h
      omega
    · have h1' : q.1.val = p.1.val := congrArg Fin.val h1
      have h2' : q.2.val < p.2.val := h2
      omega
  · intro h
    by_cases h1 : q.1.val < p.1.val
    · exact Or.inl h1
    · right
      have h1' : q.1.val = p.1.val := by omega
      exact ⟨Fin.ext h1', show q.2.val < p.2.val by omega⟩

/-- The C `find_nearest_spot` finds nothing exactly when every spot is
occupied. -/
theorem c_find_nearest_spot_none_iff (lot : CVersion.ParkingLot) :
    CVersion.find_nearest_spot lot = none ↔ ∀ f s, (lot f s).occupied = true := by
  unfold CVersion.find_nearest_spot
  rw [scan_none]
  constructor
  · intro h f s
    have := h f s
    by_contra hc
    simp [hc] at this
  · intro h f s
    simp [h f s]

/-- A spot returned by the C `find_nearest_spot` is free and every spot before
it in lexicographic order is occupied. -/
theorem c_find_nearest_spot_some (lot : CVersion.ParkingLot)
    (p : Fin FLOORS × Fin SPOTS_PER_FLOOR)
    (hp : CVersion.find_nearest_spot lot = some p) :
    (lot p.1 p.2).occupied = false
    ∧ ∀ q, spotLt q p → (lot q.1 q.2).occupied = true := by
  unfold CVersion.find_nearest_spot at hp
  obtain ⟨f, s, hfs, hmin⟩ := scan_some _ p hp
  by_cases hocc : (lot f s).occupied = true
  · simp [hocc] at hfs
  · simp only [hocc, Bool.false_eq_true, if_false, Option.some.injEq] at hfs
    subst hfs
    refine ⟨by simpa using hocc, ?_⟩
    intro q hq
    have := hmin q hq
    by_contra hc
    simp [hc] at this

/-- In a grid filled to `n < 100` spots the nearest free spot is spot number
`n`. -/
theorem c_find_nearest_spot_filled (lot : CVersion.ParkingLot) (lics : List Text)
    (hfill : CVersion.FilledTo lot lics) (hlen : lics.length < 100) :
    ∃ f s, CVersion.find_nearest_spot lot = some (f, s)
      ∧ f.val = lics.length / 20 ∧ s.val = lics.length % 20 := by
  have hf : lics.length / 20 < FLOORS := by simp only [FLOORS]; omega
  have hs : lics.length % 20 < SPOTS_PER_FLOOR := by simp only [SPOTS_PER_FLOOR]; omega
  have hfree : (lot ⟨lics.length / 20, hf⟩ ⟨lics.length % 20, hs⟩).occupied ≠ true := by
    intro hocc
    have := (hfill ⟨lics.length / 20, hf⟩ ⟨lics.length % 20, hs⟩).1.1 hocc
    simp only at this
    omega
  cases hp : CVersion.find_nearest_spot lot with
  | none => exact absurd ((c_find_nearest_spot_none_iff lot).1 hp _ _) hfree
  | some p =>
    obtain ⟨hpfree, hpmin⟩ := c_find_nearest_spot_some lot p hp
    have hge : lics.length ≤ 20 * p.1.val + p.2.val := by
      by_contra hlt
      have := (hfill p.1 p.2).1.2 (by omega)
      rw [hpfree] at this
      exact absurd this (by decide)
    have hle : 20 * p.1.val + p.2.val ≤ lics.length := by
      by_contra hgt
      have hq : spotLt (⟨lics.length / 20, hf⟩, ⟨lics.length % 20, hs⟩) p := by
        rw [spotLt_iff_index]
        simp only
        omega
      exact hfree (hpmin _ hq)
    have hp2 : p.2.val < 20 := p.2.isLt
    refine ⟨p.1, p.2, rfl, ?_, ?_⟩ <;> omega

/-- One more valid entry with a new license into a grid filled to `n < 100`
spots succeeds at spot number `n` and leaves the grid filled to `n + 1`. -/
theorem c_park_vehicle_filled (st : CVersion.State) (lics : List Text)
    (inp : CVersion.EntryInput) (now : Int)
    (hfill : CVersion.FilledTo st.parkingLot lics) (hlen : lics.length < 100)
    (hvalid : CVersion.ValidEntry inp) (hnew : inp.license ∉ lics) :
    ∃ f s, (CVersion.park_vehicle st inp now).1 = .assigned f s now
      ∧ f.val = lics.length / 20 ∧ s.val = lics.length % 20
      ∧ CVersion.FilledTo (CVersion.park_vehicle st inp now).2.parkingLot (lics ++ [inp.license]) := by
  obtain ⟨hchoice, hlic, hlicLen, hown⟩ := hvalid
  obtain ⟨c, hc, t, ht⟩ : ∃ c, inp.typeChoice = some c
      ∧ ∃ t, CVersion.parse_vehicle_type c = some t := by
    rcases hchoice with h | h | h
    · exact ⟨1, h, _, rfl⟩
    · exact ⟨2, h, _, rfl⟩
    · exact ⟨3, h, _, rfl⟩
  have hfv : CVersion.find_vehicle st.parkingLot inp.license = none := by
    rw [c_find_vehicle_none_iff]
    intro f s v _ hv hl
    exact hnew (hl ▸ (hfill f s).2 v hv)
  obtain ⟨f, s, hns, hfval, hsval⟩ := c_find_nearest_spot_filled st.parkingLot lics hfill hlen
  have hcopy : strncpy inp.license (LICENSE_MAX - 1) = inp.license :=
    List.take_of_length_le hlicLen
  have hrun : CVersion.park_vehicle st inp now
      = (.assigned f s now, (CVersion.save_parking_state
          ⟨CVersion.setSpot st.parkingLot f s
            ⟨true, some
              { license := inp.license
                owner := strncpy inp.owner (OWNER_MAX - 1)
                type := t
                entryTime := now
                floor := (f.val : Int)
                spot := (s.val : Int) }⟩, st.files⟩).2) := by
    unfold CVersion.park_vehicle
    simp only [hc, ht, hlic, if_false, hfv, hown, hns, hcopy]
  refine ⟨f, s, by rw [hrun], hfval, hsval, ?_⟩
  rw [hrun, c_save_parking_state_lot]
  dsimp only
  intro a b
  have hb : b.val < 20 := b.isLt
  have hs' : s.val < 20 := s.isLt
  by_cases hab : a = f ∧ b = s
  · obtain ⟨rfl, rfl⟩ := hab
    rw [c_setSpot_same]
    simp only [List.length_append, List.length_singleton, true_iff, Option.some.injEq]
    refine ⟨by omega, ?_⟩
    intro v hv
    rw [← hv]
    simp
  · rw [c_setSpot_other _ _ _ _ _ _ hab]
    obtain ⟨h1, h2⟩ := hfill a b
    refine ⟨?_, fun v hv => List.mem_append_left _ (h2 v hv)⟩
    rw [h1]
    simp only [List.length_append, List.length_singleton]
    have hne : 20 * a.val + b.val ≠ lics.length := by
      intro heq
      apply hab
      constructor
      · apply Fin.ext; omega
      · apply Fin.ext; omega
    omega
/-- A session of valid entries with pairwise distinct new licenses, at most up
to the capacity, fills the grid in scan order. -/
theorem c_run_filled (inps : List (CVersion.EntryInput × Int)) (st : CVersion.State)
    (lics : List Text) (hfill : CVersion.FilledTo st.parkingLot lics)
    (hlen : lics.length + inps.length ≤ 100)
    (hvalid : ∀ p ∈ inps, CVersion.ValidEntry p.1)
    (hdistinct : (lics ++ inps.map fun p => p.1.license).Nodup) :
    CVersion.FilledTo (CVersion.run st (CVersion.entries inps)).parkingLot
      (lics ++ inps.map fun p => p.1.license) := by
  induction inps generalizing st lics with
  | nil => simpa [CVersion.entries, CVersion.run] using hfill
  | cons p ps ih =>
    have hnew : p.1.license ∉ lics := by
      intro hmem
      rw [List.map_cons, List.nodup_append] at hdistinct
      exact hdistinct.2.2 hmem (List.mem_cons_self _ _)
    simp only [List.length_cons] at hlen
    obtain ⟨f, s, _, _, _, hfill'⟩ := c_park_vehicle_filled st lics p.1 p.2 hfill (by omega)
      (hvalid p (List.mem_cons_self _ _)) hnew
    have hlist : lics ++ (p :: ps).map (fun p => p.1.license)
        = (lics ++ [p.1.license]) ++ ps.map (fun p => p.1.license) := by
      simp
    rw [hlist] at hdistinct ⊢
    have := ih (CVersion.park_vehicle st p.1 p.2).2 (lics ++ [p.1.license]) hfill'
      (by simp only [List.length_append, List.length_singleton]; omega)
      (fun q hq => hvalid q (List.mem_cons_of_mem _ hq)) hdistinct
    simpa [CVersion.entries, CVersion.run, CVersion.step] using this

/-- The empty grid is filled to 0 spots. -/
theorem c_filled_init : CVersion.FilledTo CVersion.init_parking [] := by
  intro f s
  simp [CVersion.init_parking]

/-- The occupancy report of a grid in which every spot is occupied. -/
theorem c_report_occupancy_full (lot : CVersion.ParkingLot)
    (hfull : ∀ f s, (lot f s).occupied = true) :
    CVersion.report_occupancy lot = ⟨List.replicate 5 (20, 100), 100, 100⟩ := by
  have hfloor : ∀ f, CVersion.floor_occupied lot f = 20 := by
    intro f
    unfold CVersion.floor_occupied
    rw [List.countP_eq_length.2 (fun s _ => hfull f s)]
    simp
  have hoccs : (List.finRange FLOORS).map (CVersion.floor_occupied lot)
      = [20, 20, 20, 20, 20] := by
    have : List.finRange FLOORS = [0, 1, 2, 3, 4] := by decide
    rw [this]
    simp only [List.map_cons, List.map_nil, hfloor]
  unfold CVersion.report_occupancy
  simp only [hoccs]
  norm_num [List.replicate]

/-- C14. C variant, fill scenario: starting from the all-free grid, for every
list of 100 entries with valid category, non-empty owner and pairwise
distinct non-empty licenses (each fitting the license buffer), the k-th
entry, made after the k-1 entries before it, succeeds at floor
`(k-1) div 20`, position `(k-1) mod 20`; afterwards the occupancy report
counts 20 of 20 on each of the 5 floors and 100 overall, and a further valid
entry with a license not yet used fails with the lot-full message and
leaves the state unchanged. -/
theorem c_fill_scenario (files : Files) (inps : List (CVersion.EntryInput × Int))
    (hlen : inps.length = 100)
    (hvalid : ∀ p ∈ inps, CVersion.ValidEntry p.1)
    (hdistinct : (inps.map fun p => p.1.license).Nodup) :
    (∀ pre inp now post, inps = pre ++ (inp, now) :: post →
      ∃ f s, (CVersion.park_vehicle
            (CVersion.run ⟨CVersion.init_parking, files⟩ (CVersion.entries pre)) inp now).1
          = .assigned f s now
        ∧ f.val = pre.length / 20 ∧ s.val = pre.length % 20)
    ∧ CVersion.report_occupancy
        (CVersion.run ⟨CVersion.init_parking, files⟩ (CVersion.entries inps)).parkingLot
      = ⟨List.replicate 5 (20, 100), 100, 100⟩
    ∧ (∀ inp now, CVersion.ValidEntry inp → inp.license ∉ inps.map (fun p => p.1.license) →
        CVersion.park_vehicle
            (CVersion.run ⟨CVersion.init_parking, files⟩ (CVersion.entries inps)) inp now
          = (.parkingFull,
              CVersion.run ⟨CVersion.init_parking, files⟩ (CVersion.entries inps))) := by
  have hall := c_run_filled inps ⟨CVersion.init_parking, files⟩ [] c_filled_init
    (by simp [hlen]) hvalid (by simpa using hdistinct)
  simp only [List.nil_append] at hall
  have hfull : ∀ f s, ((CVersion.run ⟨CVersion.init_parking, files⟩
      (CVersion.entries inps)).parkingLot f s).occupied = true := by
    intro f s
    rw [(hall f s).1]
    have hf : f.val < 5 := f.isLt
    have hs : s.val < 20 := s.isLt
    simp only [List.length_map, hlen]
    omega
  refine ⟨?_, c_report_occupancy_full _ hfull, ?_⟩
  · intro pre inp now post hsplit
    have hpre := c_run_filled pre ⟨CVersion.init_parking, files⟩ [] c_filled_init
      (by
        have := congrArg List.length hsplit
        simp only [List.length_append, List.length_cons, hlen] at this
        simp only [List.length_nil]
        omega)
      (fun p hp => hvalid p (by rw [hsplit]; exact List.mem_append_left _ hp))
      (by
        rw [hsplit, List.map_append, List.nodup_append] at hdistinct
        simpa using hdistinct.1)
    simp only [List.nil_append] at hpre
    have hnew : inp.license ∉ pre.map (fun p => p.1.license) := by
      intro hmem
      rw [hsplit, List.map_append, List.map_cons, List.nodup_append] at hdistinct
      exact hdistinct.2.2 hmem (List.mem_cons_self _ _)
    obtain ⟨f, s, hres, hf, hs, _⟩ := c_park_vehicle_filled _ _ inp now hpre
      (by
        have := congrArg List.length hsplit
        simp only [List.length_append, List.length_cons, hlen] at this
        simp only [List.length_map]
        omega)
      (hvalid (inp, now) (by rw [hsplit]; simp)) hnew
    simp only [List.length_map] at hf hs
    exact ⟨f, s, hres, hf, hs⟩
  · intro inp now hv hnew
    obtain ⟨hchoice, hlic, _, hown⟩ := hv
    obtain ⟨c, hc, t, ht⟩ : ∃ c, inp.typeChoice = some c
        ∧ ∃ t, CVersion.parse_vehicle_type c = some t := by
      rcases hchoice with h | h | h
      · exact ⟨1, h, _, rfl⟩
      · exact ⟨2, h, _, rfl⟩
      · exact ⟨3, h, _, rfl⟩
    have hfv : CVersion.find_vehicle
        (CVersion.run ⟨CVersion.init_parking, files⟩ (CVersion.entries inps)).parkingLot
        inp.license = none := by
      rw [c_find_vehicle_none_iff]
      intro f s v _ hvv hl
      exact hnew (hl ▸ (hall f s).2 v hvv)
    have hns := (c_find_nearest_spot_none_iff
      (CVersion.run ⟨CVersion.init_parking, files⟩ (CVersion.entries inps)).parkingLot).2
      hfull
    unfold CVersion.park_vehicle
    simp only [hc, ht, hlic, if_false, hfv, hown, hns]
/-- The sample fill satisfies the conditions of the fill scenario. -/
theorem c_fillInputs_ok :
    CVersion.fillInputs.length = 100
    ∧ (∀ p ∈ CVersion.fillInputs, CVersion.ValidEntry p.1)
    ∧ (CVersion.fillInputs.map fun p => p.1.license).Nodup := by
  refine ⟨by simp [CVersion.fillInputs], ?_, ?_⟩
  · intro p hp
    obtain ⟨i, hi, rfl⟩ := List.mem_map.1 hp
    have hi' : i < 100 := List.mem_range.1 hi
    refine ⟨Or.inr (Or.inl rfl), by simp, ?_, by simp⟩
    have := Nat.toDigitsCore_length 10 (by norm_num) (i + 1) i 2 (by omega) (by norm_num)
    simp only [List.length_cons, Nat.toDigits, LICENSE_MAX]
    omega
  · have hmap : (CVersion.fillInputs.map fun p => p.1.license)
        = (List.range 100).map fun i => 'L' :: Nat.toDigits 10 i := by
      simp [CVersion.fillInputs, Function.comp_def]
    rw [hmap]
    apply List.Nodup.map _ (List.nodup_range 100)
    intro a b hab
    have h := congrArg (digitsVal 0) (List.cons.inj hab).2
    have ha := digitsVal_toDigits a [] (by simp)
    have hb := digitsVal_toDigits b [] (by simp)
    rw [List.append_nil] at ha hb
    rw [ha, hb] at h
    exact h

/-- Witness of C14: after the sample fill `L0`, ..., `L99` the occupancy report
counts 20 of 20 on each floor and 100 overall, and the entry of `ZZ99` is
refused with the lot-full message. -/
theorem c_fill_scenario_witness :
    CVersion.report_occupancy
        (CVersion.run ⟨CVersion.init_parking, sampleFiles⟩
          (CVersion.entries CVersion.fillInputs)).parkingLot
      = ⟨List.replicate 5 (20, 100), 100, 100⟩
    ∧ (∀ inp now, CVersion.ValidEntry inp →
        inp.license ∉ CVersion.fillInputs.map (fun p => p.1.license) →
        CVersion.park_vehicle
            (CVersion.run ⟨CVersion.init_parking, sampleFiles⟩
              (CVersion.entries CVersion.fillInputs)) inp now
          = (.parkingFull,
              CVersion.run ⟨CVersion.init_parking, sampleFiles⟩
                (CVersion.entries CVersion.fillInputs))) :=
  (c_fill_scenario sampleFiles CVersion.fillInputs c_fillInputs_ok.1 c_fillInputs_ok.2.1
    c_fillInputs_ok.2.2).2

/-- A successful `getline` consumes at least one character. -/
theorem getlineAux_rest_length (d : Char) (c : Char) (cs : Text) :
    (getlineAux d (c :: cs)).2.length ≤ cs.length := by
  induction cs generalizing c with
  | nil =>
    simp only [getlineAux]
    split_ifs <;> simp [getlineAux]
  | cons c' cs' ih =>
    have := ih c'
    simp only [getlineAux] at this ⊢
    split_ifs at this ⊢ <;> simp only [List.length_cons] at this ⊢ <;> omega

/-- More fuel than the length of the line does not change the columns read:
the column loop always reaches the end of the line. -/
theorem splitCols_fuel (fuel : Nat) (ss : Text) (h : ss.length ≤ fuel) :
    splitCols fuel ss = splitCols ss.length ss := by
  induction fuel using Nat.strong_induction_on generalizing ss with
  | _ fuel ih =>
    cases ss with
    | nil => cases fuel <;> rfl
    | cons c cs =>
      cases fuel with
      | zero => simp at h
      | succ fuel =>
        have hrest := getlineAux_rest_length ',' c cs
        simp only [List.length_cons] at h
        simp only [List.length_cons, splitCols, getline]
        rw [ih fuel (by omega) _ (by omega)]
        by_cases hlt : (getlineAux ',' (c :: cs)).2.length = cs.length
        · rw [hlt]
        · rw [ih cs.length (by omega) _ (by omega)]

/-- More fuel than the length of the stream does not change what the reading
loop of the C++ `load_state` computes. -/
theorem cpp_load_loop_fuel (fuel : Nat) (stream : Text) (lot : CppVersion.Lot)
    (h : stream.length ≤ fuel) :
    CppVersion.load_loop fuel stream lot = CppVersion.load_loop stream.length stream lot := by
  induction fuel using Nat.strong_induction_on generalizing stream lot with
  | _ fuel ih =>
    cases stream with
    | nil => cases fuel <;> rfl
    | cons c cs =>
      cases fuel with
      | zero => simp at h
      | succ fuel =>
        have hrest := getlineAux_rest_length '\n' c cs
        simp only [List.length_cons] at h
        simp only [List.length_cons, CppVersion.load_loop, getline]
        cases CppVersion.load_row lot (getlineAux '\n' (c :: cs)).1 with
        | done lot1 =>
          simp only
          rw [ih fuel (by omega) _ _ (by omega)]
          by_cases hlt : (getlineAux '\n' (c :: cs)).2.length = cs.length
          · rw [hlt]
          · rw [ih cs.length (by omega) _ _ (by omega)]
        | exception e => rfl
        | outOfRange f s => rfl

/-- More fuel than the length of the stream does not change what the reading
loop of `report_revenue` computes. -/
theorem cpp_revenue_loop_fuel (localtime : Localtime) (tn : Tm) (fuel : Nat) (stream : Text)
    (acc : ℚ × ℚ) (h : stream.length ≤ fuel) :
    CppVersion.revenue_loop localtime tn fuel stream acc
      = CppVersion.revenue_loop localtime tn stream.length stream acc := by
  induction fuel using Nat.strong_induction_on generalizing stream acc with
  | _ fuel ih =>
    cases stream with
    | nil => cases fuel <;> rfl
    | cons c cs =>
      cases fuel with
      | zero => simp at h
      | succ fuel =>
        have hrest := getlineAux_rest_length '\n' c cs
        simp only [List.length_cons] at h
        simp only [List.length_cons, CppVersion.revenue_loop, getline]
        cases CppVersion.revenue_row localtime tn acc (getlineAux '\n' (c :: cs)).1 with
        | error e => rfl
        | ok acc1 =>
          simp only
          rw [ih fuel (by omega) _ _ (by omega)]
          by_cases hlt : (getlineAux '\n' (c :: cs)).2.length = cs.length
          · rw [hlt]
          · rw [ih cs.length (by omega) _ _ (by omega)]

/-- More fuel than the length of the stream does not change what the reading
loop of `report_peak_entry_hour` computes. -/
theorem c_peak_loop_fuel (localtime : Localtime) (fuel : Nat) (stream : Text)
    (counts : CVersion.Histogram) (h : stream.length ≤ fuel) :
    CVersion.peak_loop localtime fuel stream counts
      = CVersion.peak_loop localtime stream.length stream counts := by
  induction fuel using Nat.strong_induction_on generalizing stream counts with
  | _ fuel ih =>
    cases stream with
    | nil => cases fuel <;> rfl
    | cons c cs =>
      cases fuel with
      | zero => simp at h
      | succ fuel =>
        have hrest : (fgetsAux 511 (c :: cs)).2.length ≤ cs.length :=
          fgetsAux_rest_length 510 c cs
        simp only [List.length_cons] at h
        simp only [List.length_cons, CVersion.peak_loop, fgets, Nat.add_one_sub_one]
        rw [ih fuel (by omega) _ _ (by omega)]
        by_cases hlt : (fgetsAux 511 (c :: cs)).2.length = cs.length
        · rw [hlt]
        · rw [ih cs.length (by omega) _ _ (by omega)]

end SmartParking
